import Mathlib

/-!
# Transaction store of the relay gateway (`services/bx_tx_store.go`)

A shallow embedding of `BxTxStore` and of the collaborators it calls, followed
by theorems about admission (`Add`), removal (`remove`, `RemoveHashes`,
`RemoveShortIDs`), look-ups (`Get`, `Known`, `GetTxByShortID`) and the aging
sweep (`clean`, `CleanNow`).

Conventions of the embedding

* Execution is sequential: every call runs to completion before the next one
  starts, so the per-record mutex and the sharding of the two maps are not
  represented.
* A Go map (`syncmap.SyncMap`) is an association list; `Range` visits the
  entries in list order.
* A `*types.BxTransaction` stored in the hash index is represented by the record
  value; mutating the record through the pointer is a write-back under its key.
* `time.Time` and `time.Duration` are integers counting nanoseconds.
* A call that panics or calls `log.Fatalf` yields a `Fault` next to the store as
  it was when the fault happened.
-/

namespace Gateway

/-! ## Basic types (`types` package) -/

/-- Digest of a transaction (32 bytes in the source); only equality is used, the
digest is represented by its numeric value. The same value stands for
`string(hash[:])` and `hash.Bytes()`. -/
abbrev SHA256Hash := Nat

/-- Short numeric alias of a hash (`types.ShortID`). -/
abbrev ShortID := Nat

/-- Modelled from the spec: the constant `types.ShortIDEmpty` is not in src; it is
the reserved value `NONE` of the short-ID type. -/
def ShortIDEmpty : ShortID := 0

abbrev ShortIDList := List ShortID

abbrev SHA256HashList := List SHA256Hash

abbrev NetworkNum := Nat

/-- Serialized transaction bytes. -/
abbrev TxContent := List Nat

abbrev Sender := Nat

/-- Bitset of policy flags (`types.TxFlags`). -/
abbrev TxFlags := Nat

/-- Short IDs released by a sweep, grouped by network (a Go map). -/
abbrev ShortIDsByNetwork := List (NetworkNum × ShortIDList)

/-- Modelled from the spec: the flag constants of `types.TxFlags` are not in src;
`Paid` is one bit of the bitset. -/
def TFPaidTx : TxFlags := 2

/-- Modelled from the spec: the flag constants of `types.TxFlags` are not in src;
`DeliverToNode` is one bit of the bitset. -/
def TFDeliverToNode : TxFlags := 256

/-- Modelled from the spec: the flag constants of `types.TxFlags` are not in src;
`ValidatorsOnly` is one bit of the bitset. -/
def TFValidatorsOnly : TxFlags := 512

/-- Modelled from the spec: the flag constants of `types.TxFlags` are not in src;
`NextValidator` is one bit of the bitset. -/
def TFNextValidator : TxFlags := 2048

/-- Modelled from the spec: `IsPaid` of `types.TxFlags` is not in src; tests the
`Paid` bit. -/
def TxFlags.IsPaid (f : TxFlags) : Bool := f &&& TFPaidTx != 0

/-- Modelled from the spec: `ShouldDeliverToNode` of `types.TxFlags` is not in
src; tests the `DeliverToNode` bit. -/
def TxFlags.ShouldDeliverToNode (f : TxFlags) : Bool := f &&& TFDeliverToNode != 0

/-- Modelled from the spec: `IsValidatorsOnly` of `types.TxFlags` is not in src;
tests the `ValidatorsOnly` bit. -/
def TxFlags.IsValidatorsOnly (f : TxFlags) : Bool := f &&& TFValidatorsOnly != 0

/-- Modelled from the spec: `IsNextValidator` of `types.TxFlags` is not in src;
tests the `NextValidator` bit. -/
def TxFlags.IsNextValidator (f : TxFlags) : Bool := f &&& TFNextValidator != 0

/-- One second, in nanoseconds (`time.Second`). -/
def Second : Int := 1000000000

/-- The largest `time.Duration`, in nanoseconds: `1<<63 - 1`. -/
def maxDuration : Int := 9223372036854775807

/-- The smallest `time.Duration`, in nanoseconds: `-1 << 63`. -/
def minDuration : Int := -9223372036854775808

/-- `time.Time.Sub` of the Go standard library: the duration `t - u`, in
nanoseconds; when the difference exceeds the largest duration, or is below the
smallest one, the largest, or the smallest, duration is returned. -/
def Time.Sub (t u : Int) : Int :=
  if t - u > maxDuration then maxDuration
  else if t - u < minDuration then minDuration
  else t - u

/-! ## Sequential model of `syncmap.SyncMap` -/

namespace SyncMap

variable {K V : Type} [DecidableEq K]

/-- `Load`: the value stored under `k`, if any. -/
def Load : List (K × V) → K → Option V
  | [], _ => none
  | e :: m, k => if e.1 = k then some e.2 else Load m k

/-- `Store`: bind `k` to `v`, replacing an earlier binding. -/
def Store : List (K × V) → K → V → List (K × V)
  | [], k, v => [(k, v)]
  | e :: m, k, v => if e.1 = k then (k, v) :: m else e :: Store m k v

/-- `Delete`: drop the binding of `k`. -/
def Delete : List (K × V) → K → List (K × V)
  | [], _ => []
  | e :: m, k => if e.1 = k then Delete m k else e :: Delete m k

/-- `LoadOrStore`: the existing value and `true`, or store `v` and return it with
`false`. -/
def LoadOrStore (m : List (K × V)) (k : K) (v : V) : List (K × V) × V × Bool :=
  match Load m k with
  | some w => (m, w, true)
  | none => (Store m k v, v, false)

/-- `LoadAndDelete`: the value under `k` (if any), and the map without `k`. -/
def LoadAndDelete (m : List (K × V)) (k : K) : List (K × V) × Option V :=
  match Load m k with
  | some w => (Delete m k, some w)
  | none => (m, none)

/-- Delete every key of a list, one `Delete` per key. -/
def DeleteAll (m : List (K × V)) (ks : List K) : List (K × V) :=
  ks.foldl Delete m

end SyncMap

open SyncMap

/-! ## `types.BxTransaction` -/

/-- Modelled from the spec: the struct `types.BxTransaction` is not in src; its
fields are those of the TransactionRecord of the data model. Empty `content`
stands for absent content. -/
structure BxTransaction where
  hash : SHA256Hash
  content : TxContent
  shortIDs : ShortIDList
  addTime : Int
  flags : TxFlags
  networkNum : NetworkNum
  sender : Sender
deriving DecidableEq

/-- Modelled from the spec: `types.EmptySender` is not in src; the sender of a
record that has not received one. -/
def EmptySender : Sender := 0

/-- Modelled from the spec: `types.NewBxTransaction` is not in src; a record with
the given hash, network, flags and add time, no content, no short IDs and no
sender. -/
def NewBxTransaction (hash : SHA256Hash) (networkNum : NetworkNum) (flags : TxFlags)
    (timestamp : Int) : BxTransaction :=
  { hash := hash, content := [], shortIDs := [], addTime := timestamp, flags := flags,
    networkNum := networkNum, sender := EmptySender }

/-- Modelled from the spec: `AddFlags` of `types.BxTransaction` is not in src; the
union of the record's flags with the given bits. -/
def BxTransaction.AddFlags (bt : BxTransaction) (flags : TxFlags) : BxTransaction :=
  { bt with flags := bt.flags ||| flags }

/-- Modelled from the spec: `AddShortID` of `types.BxTransaction` is not in src; it
ignores `NONE`, adds the short ID unless the record has it, and returns whether
the set grew. -/
def BxTransaction.AddShortID (bt : BxTransaction) (shortID : ShortID) : BxTransaction × Bool :=
  if shortID = ShortIDEmpty then (bt, false)
  else if shortID ∈ bt.shortIDs then (bt, false)
  else ({ bt with shortIDs := bt.shortIDs ++ [shortID] }, true)

/-- Modelled from the spec: `SetContent` of `types.BxTransaction` is not in src; it
sets the content when the record has none and the given one is non-empty, and
returns whether content went from absent to present. -/
def BxTransaction.SetContent (bt : BxTransaction) (content : TxContent) : BxTransaction × Bool :=
  if bt.content.length = 0 ∧ content.length > 0 then ({ bt with content := content }, true)
  else (bt, false)

/-- Modelled from the spec: `SetSender` of `types.BxTransaction` is not in src. -/
def BxTransaction.SetSender (bt : BxTransaction) (sender : Sender) : BxTransaction :=
  { bt with sender := sender }

/-! ## Collaborators -/

/-- Modelled from the spec: the type `services.HashHistory` (SeenHistory) is not in
src; a mapping from hash to expiry instant. -/
structure HashHistory where
  data : List (SHA256Hash × Int)
deriving DecidableEq

/-- Modelled from the spec: `HashHistory.Add` is not in src; set the expiry to
`now + ttl`, overwriting any earlier value. -/
def HashHistory.Add (hh : HashHistory) (now : Int) (hash : SHA256Hash) (ttl : Int) :
    HashHistory :=
  { data := Store hh.data hash (now + ttl) }

/-- Modelled from the spec: `HashHistory.Exists` is not in src; true iff an
un-expired entry exists, an entry being un-expired while `now` is before its
expiry instant. -/
def HashHistory.Exists (hh : HashHistory) (now : Int) (hash : SHA256Hash) : Bool :=
  match Load hh.data hash with
  | some expiry => decide (now < expiry)
  | none => false

/-- Modelled from the spec: `HashHistory.Remove` is not in src; drop the entry. -/
def HashHistory.Remove (hh : HashHistory) (hash : SHA256Hash) : HashHistory :=
  { data := Delete hh.data hash }

/-- Modelled from the spec: the implementations of the interface
`services.BloomFilter` are not in src; approximate membership without false
negatives. `added` are the hashes given to `Add`, `falsePositives` the other
hashes on which `Check` answers true. -/
structure BloomFilter where
  added : List SHA256Hash
  falsePositives : List SHA256Hash
deriving DecidableEq

/-- Modelled from the spec: `BloomFilter.Add` is not in src. -/
def BloomFilter.Add (b : BloomFilter) (hash : SHA256Hash) : BloomFilter :=
  { b with added := hash :: b.added }

/-- Modelled from the spec: `BloomFilter.Check` is not in src. -/
def BloomFilter.Check (b : BloomFilter) (hash : SHA256Hash) : Bool :=
  decide (hash ∈ b.added) || decide (hash ∈ b.falsePositives)

/-- Modelled from the spec: the implementations of the interface
`services.ShortIDAssigner` are not in src. `upcoming` are the values the next
calls of `Next` return, in order (`NONE` once exhausted, as for a node that does
not assign); `calls` counts the calls of `Next`. -/
structure ShortIDAssigner where
  upcoming : List ShortID
  calls : Nat
deriving DecidableEq

/-- Modelled from the spec: `ShortIDAssigner.Next` is not in src. -/
def ShortIDAssigner.Next (a : ShortIDAssigner) : ShortID × ShortIDAssigner :=
  match a.upcoming with
  | [] => (ShortIDEmpty, { a with calls := a.calls + 1 })
  | x :: rest => (x, { upcoming := rest, calls := a.calls + 1 })

/-- Re-entry protection requested from a removal
(`services.ReEntryProtectionFlags`, an unsigned integer type). -/
abbrev ReEntryProtectionFlags := Nat

/-- Modelled from the spec: the constants of `ReEntryProtectionFlags` are not in
src; level `None`. -/
def NoReEntryProtection : ReEntryProtectionFlags := 0

/-- Modelled from the spec: the constants of `ReEntryProtectionFlags` are not in
src; level `Short`. -/
def ShortReEntryProtection : ReEntryProtectionFlags := 1

/-- Modelled from the spec: the constants of `ReEntryProtectionFlags` are not in
src; level `Full`. -/
def FullReEntryProtection : ReEntryProtectionFlags := 2

/-- Ways a call can fail to return. -/
inductive Fault where
  /-- `panic("Bad usage of Add function ...")`. -/
  | badUsage
  /-- `log.Fatalf("unknown reEntryProtection value ...")`. -/
  | unknownReEntryProtection
  /-- A method call on the bloom filter when `t.bloom` is nil. -/
  | nilBloom
  /-- An index outside the sorted ages of a network in `clean`. -/
  | indexOutOfRange
  /-- A counter increment through a nil `*networkData` in `clean`. -/
  | nilNetworkData
deriving DecidableEq

deriving instance DecidableEq for Except

/-- Modelled from the spec: the struct `services.TransactionResult` is not in src;
the admission report of `Add`. `Transaction` is a pointer in the source, nil in
the zero value. -/
structure TransactionResult where
  Transaction : Option BxTransaction := none
  NewTx : Bool := false
  NewContent : Bool := false
  NewSID : Bool := false
  Reprocess : Bool := false
  AlreadySeen : Bool := false
  AssignedShortID : ShortID := ShortIDEmpty
  DebugData : String := ""
deriving DecidableEq

/-! ## The store -/

/-- The struct `BxTxStore`. `clock` is the current reading of `clock.Now()`. The
fields `cleanupFreq`, `quit` and `lock` serve the background loop only and are
left out. `cleanedShortIDsChannel` holds the maps sent so far when a channel is
configured. `TxStoreMaxSize` (package `bxgateway`) and
`ShortReEntryProtectionDuration` are package constants that are not in src; they
are carried with the store as parameters. -/
structure BxTxStore where
  clock : Int
  hashToContent : List (SHA256Hash × BxTransaction)
  shortIDToHash : List (ShortID × SHA256Hash)
  seenTxs : HashHistory
  timeToAvoidReEntry : Int
  maxTxAge : Int
  noSIDAge : Int
  assigner : ShortIDAssigner
  cleanedShortIDsChannel : Option (List ShortIDsByNetwork)
  bloom : Option BloomFilter
  TxStoreMaxSize : Nat
  ShortReEntryProtectionDuration : Int
deriving DecidableEq

/-- `newBxTxStore`: a store with empty indexes. The parameter `cleanupFreq` of the
source is left out with the field; the two package constants come last. -/
def newBxTxStore (clock : Int) (maxTxAge noSIDAge : Int) (assigner : ShortIDAssigner)
    (seenTxs : HashHistory) (cleanedShortIDsChannel : Option (List ShortIDsByNetwork))
    (timeToAvoidReEntry : Int) (bloom : Option BloomFilter)
    (TxStoreMaxSize : Nat) (ShortReEntryProtectionDuration : Int) : BxTxStore :=
  { clock := clock, hashToContent := [], shortIDToHash := [], seenTxs := seenTxs,
    timeToAvoidReEntry := timeToAvoidReEntry, maxTxAge := maxTxAge, noSIDAge := noSIDAge,
    assigner := assigner, cleanedShortIDsChannel := cleanedShortIDsChannel, bloom := bloom,
    TxStoreMaxSize := TxStoreMaxSize,
    ShortReEntryProtectionDuration := ShortReEntryProtectionDuration }

namespace BxTxStore

/-- `Clear` removes all elements from both indexes. -/
def Clear (t : BxTxStore) : BxTxStore :=
  { t with hashToContent := [], shortIDToHash := [] }

/-- `Count`: the number of stored transactions. -/
def Count (t : BxTxStore) : Nat := t.hashToContent.length

/-- `refreshSeenTx`: if the hash is in the history, re-enter it with
`timeToAvoidReEntry` and answer true. -/
def refreshSeenTx (t : BxTxStore) (hash : SHA256Hash) : BxTxStore × Bool :=
  if t.seenTxs.Exists t.clock hash then
    ({ t with seenTxs := t.seenTxs.Add t.clock hash t.timeToAvoidReEntry }, true)
  else (t, false)

/-- `remove` deletes a single transaction, including its short IDs, and applies
the re-entry protection. The `reason` argument is only logged and is left out. -/
def remove (t : BxTxStore) (hash : SHA256Hash) (reEntryProtection : ReEntryProtectionFlags) :
    BxTxStore × Option Fault :=
  match LoadAndDelete t.hashToContent hash with
  | (m, some bxTransaction) =>
    let t1 : BxTxStore :=
      { t with hashToContent := m,
               shortIDToHash := DeleteAll t.shortIDToHash bxTransaction.shortIDs }
    if reEntryProtection = NoReEntryProtection then (t1, none)
    else if reEntryProtection = ShortReEntryProtection then
      let t2 : BxTxStore :=
        { t1 with seenTxs := t1.seenTxs.Add t1.clock hash t1.ShortReEntryProtectionDuration }
      match t2.bloom with
      | some b => ({ t2 with bloom := some (b.Add hash) }, none)
      | none => (t2, some Fault.nilBloom)
    else if reEntryProtection = FullReEntryProtection then
      let t2 : BxTxStore :=
        { t1 with seenTxs := t1.seenTxs.Add t1.clock hash t1.timeToAvoidReEntry }
      match t2.bloom with
      | some b => ({ t2 with bloom := some (b.Add hash) }, none)
      | none => (t2, some Fault.nilBloom)
    else (t1, some Fault.unknownReEntryProtection)
  | (_, none) => (t, none)

/-- `RemoveHashes` removes the hashes of a list one by one. -/
def RemoveHashes (t : BxTxStore) (hashes : SHA256HashList)
    (reEntryProtection : ReEntryProtectionFlags) : BxTxStore × Option Fault :=
  match hashes with
  | [] => (t, none)
  | hash :: rest =>
    match t.remove hash reEntryProtection with
    | (t1, none) => RemoveHashes t1 rest reEntryProtection
    | (t1, some f) => (t1, some f)

/-- The loop of `RemoveShortIDs`: the hashes the short IDs of the list map to, in
order, one per short ID found in the short-ID index. -/
def hashesToRemove (t : BxTxStore) (shortIDs : ShortIDList) : SHA256HashList :=
  shortIDs.filterMap (fun shortID => Load t.shortIDToHash shortID)

/-- `RemoveShortIDs` removes the transactions the given short IDs map to. -/
def RemoveShortIDs (t : BxTxStore) (shortIDs : ShortIDList)
    (reEntryProtection : ReEntryProtectionFlags) : BxTxStore × Option Fault :=
  t.RemoveHashes (t.hashesToRemove shortIDs) reEntryProtection

/-- Error of `GetTxByShortID`. -/
inductive LookupError where
  /-- "transaction with shortID %v does not exist". -/
  | shortIDDoesNotExist (shortID : ShortID)
  /-- "transaction content for shortID %v and hash %v does not exist". -/
  | contentDoesNotExist (shortID : ShortID) (hash : SHA256Hash)
deriving DecidableEq

/-- `GetTxByShortID` looks a transaction up by its short ID. -/
def GetTxByShortID (t : BxTxStore) (shortID : ShortID) : Except LookupError BxTransaction :=
  match Load t.shortIDToHash shortID with
  | some hash =>
    match Load t.hashToContent hash with
    | some tx => .ok tx
    | none => .error (.contentDoesNotExist shortID hash)
  | none => .error (.shortIDDoesNotExist shortID)

/-- `Get` returns a single transaction. -/
def Get (t : BxTxStore) (hash : SHA256Hash) : BxTxStore × Option BxTransaction × Bool :=
  match t.refreshSeenTx hash with
  | (t1, true) => (t1, none, false)
  | (t1, false) =>
    match Load t1.hashToContent hash with
    | some tx => (t1, some tx, true)
    | none => (t1, none, false)

/-- `Known` returns whether a hash is in the history. -/
def Known (t : BxTxStore) (hash : SHA256Hash) : BxTxStore × Bool :=
  t.refreshSeenTx hash

/-- What the section of `Add` between `Lock` and `Unlock` leaves behind: the
record, the value of the variable `shortID`, the assigner and the report. -/
structure lockedSection where
  tx : BxTransaction
  shortID : ShortID
  assigner : ShortIDAssigner
  result : TransactionResult
deriving DecidableEq

/-- The section of `Add` that runs under the lock of the record (lines 198-231):
`bxTransaction` is the record loaded or stored, `newTx` the value of
`result.NewTx` so far. -/
def addLocked (t : BxTxStore) (bxTransaction : BxTransaction) (newTx : Bool)
    (hash : SHA256Hash) (content : TxContent) (shortID : ShortID) (flags : TxFlags)
    (sender : Sender) : lockedSection :=
  let paid := !bxTransaction.flags.IsPaid && flags.IsPaid
  let bx1 := if paid then bxTransaction.AddFlags TFPaidTx else bxTransaction
  let deliver := !bx1.flags.ShouldDeliverToNode && flags.ShouldDeliverToNode
  let bx2 := if deliver then bx1.AddFlags TFDeliverToNode else bx1
  let reprocess := paid || deliver
  let bloomHit :=
    match t.bloom with
    | some b => decide (shortID = ShortIDEmpty) && !reprocess && newTx && b.Check hash
    | none => false
  let mint := newTx && decide (shortID = ShortIDEmpty) && !bx2.flags.IsValidatorsOnly
    && !bx2.flags.IsNextValidator && !bx2.flags.IsValidatorsOnly
  let shortID1 := if mint then t.assigner.Next.1 else shortID
  let assigner1 := if mint then t.assigner.Next.2 else t.assigner
  let sid := bx2.AddShortID shortID1
  let cnt := sid.1.SetContent content
  let bx5 := if cnt.2 then cnt.1.SetSender sender else cnt.1
  { tx := bx5,
    shortID := shortID1,
    assigner := assigner1,
    result :=
      { Transaction := some bx5,
        NewTx := newTx,
        NewContent := cnt.2,
        NewSID := sid.2,
        Reprocess := reprocess,
        AlreadySeen := bloomHit,
        AssignedShortID := if mint then shortID1 else ShortIDEmpty,
        DebugData := if bloomHit then "Transaction ignored due to already seen in bloom filter"
                     else "" } }

/-- `Add` adds a new transaction to the store (lines 160-238). The two ignored
parameters of the source are left out; `DebugData` keeps the fixed part of the
message. -/
def Add (t : BxTxStore) (hash : SHA256Hash) (content : TxContent) (shortID : ShortID)
    (networkNum : NetworkNum) (flags : TxFlags) (timestamp : Int) (sender : Sender) :
    BxTxStore × Except Fault TransactionResult :=
  if shortID = ShortIDEmpty ∧ content.length = 0 then (t, .error Fault.badUsage)
  else if Time.Sub t.clock timestamp > t.maxTxAge then
    (t, .ok { Transaction := some (NewBxTransaction hash networkNum flags timestamp),
              DebugData := "Transaction is too old" })
  else
    let seen := (t.refreshSeenTx hash).2
    let t1 := (t.refreshSeenTx hash).1
    if seen ∧ shortID = ShortIDEmpty then
      (t1, .ok { Transaction := some (NewBxTransaction hash networkNum flags timestamp),
                 DebugData := "Transaction already seen and deleted from store",
                 AlreadySeen := true })
    else
      let t2 : BxTxStore := if seen then { t1 with seenTxs := t1.seenTxs.Remove hash } else t1
      let los := LoadOrStore t2.hashToContent hash (NewBxTransaction hash networkNum flags timestamp)
      let u := t2.addLocked los.2.1 (!los.2.2) hash content shortID flags sender
      ({ t2 with
           hashToContent := Store los.1 hash u.tx,
           shortIDToHash := if u.result.NewSID then Store t2.shortIDToHash u.shortID u.tx.hash
                            else t2.shortIDToHash,
           assigner := u.assigner },
       .ok u.result)

end BxTxStore

/-- The struct `networkData` of the aging sweep. -/
structure networkData where
  maxAge : Int := 0
  ages : List Int := []
  cleanAge : Nat := 0
  cleanNoSID : Nat := 0
deriving DecidableEq

namespace BxTxStore

/-- First `Range` of `clean` (lines 253-263): per network, the ages in whole
seconds of its records. -/
def cleanCensus (currTime : Int) (txs : List (SHA256Hash × BxTransaction))
    (networks : List (NetworkNum × networkData)) : List (NetworkNum × networkData) :=
  txs.foldl (fun nets e =>
    let netData := (Load nets e.2.networkNum).getD {}
    let txAge := (Time.Sub currTime e.2.addTime).tdiv Second
    Store nets e.2.networkNum { netData with ages := netData.ages ++ [txAge] }) networks

/-- Body of the loop over the networks in `clean` (lines 266-279): the effective
maximal age of one network. `int(bxgateway.TxStoreMaxSize*0.9)` is
`TxStoreMaxSize * 9 / 10`. -/
def cleanMaxAge (t : BxTxStore) (netData : networkData) : Except Fault networkData :=
  if netData.ages.length ≤ t.TxStoreMaxSize then .ok { netData with maxAge := t.maxTxAge }
  else
    let sorted := netData.ages.insertionSort (fun a b => a ≤ b)
    if t.TxStoreMaxSize * 9 / 10 = 0 then .error Fault.indexOutOfRange
    else
      match sorted.get? (t.TxStoreMaxSize * 9 / 10 - 1) with
      | none => .error Fault.indexOutOfRange
      | some age =>
        .ok { netData with
                ages := sorted,
                maxAge := if age * Second > t.maxTxAge then t.maxTxAge else age * Second }

/-- The loop over the networks in `clean` (lines 265-280). -/
def cleanMaxAges (t : BxTxStore) :
    List (NetworkNum × networkData) → Except Fault (List (NetworkNum × networkData))
  | [] => .ok []
  | e :: rest =>
    match t.cleanMaxAge e.2 with
    | .error f => .error f
    | .ok netData =>
      match cleanMaxAges t rest with
      | .error f => .error f
      | .ok rest1 => .ok ((e.1, netData) :: rest1)

/-- Loop state of the second `Range` of `clean`. -/
structure cleanState where
  store : BxTxStore
  networks : List (NetworkNum × networkData)
  cleanedShortIDs : ShortIDsByNetwork
deriving DecidableEq

/-- Second `Range` of `clean` (lines 282-308), over the entries `txs` of the hash
index: remove the records that are too old for their network or that are old
and have no short ID. -/
def cleanEvict (currTime : Int) :
    List (SHA256Hash × BxTransaction) → cleanState → cleanState × Option Fault
  | [], c => (c, none)
  | e :: rest, c =>
    let networkNum := e.2.networkNum
    let txAge := Time.Sub currTime e.2.addTime
    let noSID := decide (txAge > c.store.noSIDAge) && decide (e.2.shortIDs.length = 0)
    -- the verdict: the updated counters when the record is to be removed
    let verdict : Except Fault (Option (List (NetworkNum × networkData))) :=
      match Load c.networks networkNum with
      | some netData =>
        if txAge > netData.maxAge then
          .ok (some (Store c.networks networkNum { netData with cleanAge := netData.cleanAge + 1 }))
        else if noSID then
          .ok (some (Store c.networks networkNum
            { netData with cleanNoSID := netData.cleanNoSID + 1 }))
        else .ok none
      | none => if noSID then .error Fault.nilNetworkData else .ok none
    match verdict with
    | .error f => (c, some f)
    | .ok none => cleanEvict currTime rest c
    | .ok (some networks1) =>
      match c.store.remove e.1 FullReEntryProtection with
      | (t1, some f) => ({ c with store := t1, networks := networks1 }, some f)
      | (t1, none) =>
        cleanEvict currTime rest
          { store := t1, networks := networks1,
            cleanedShortIDs := Store c.cleanedShortIDs networkNum
              ((Load c.cleanedShortIDs networkNum).getD [] ++ e.2.shortIDs) }

/-- Last loop of `clean` (lines 310-314): the number of cleaned records. -/
def cleanCount (networks : List (NetworkNum × networkData)) : Nat :=
  (networks.map (fun e => e.2.cleanNoSID + e.2.cleanAge)).sum

/-- `clean`: one aging sweep (lines 247-317). -/
def clean (t : BxTxStore) : BxTxStore × Except Fault (Nat × ShortIDsByNetwork) :=
  let currTime := t.clock
  match t.cleanMaxAges (cleanCensus currTime t.hashToContent []) with
  | .error f => (t, .error f)
  | .ok networks =>
    match cleanEvict currTime t.hashToContent
        { store := t, networks := networks, cleanedShortIDs := [] } with
    | (c, some f) => (c.store, .error f)
    | (c, none) => (c.store, .ok (cleanCount c.networks, c.cleanedShortIDs))

/-- `CleanNow` performs an immediate cleanup and publishes the released short
IDs. -/
def CleanNow (t : BxTxStore) : BxTxStore × Option Fault :=
  match t.clean with
  | (t1, .error f) => (t1, some f)
  | (t1, .ok (_, cleanedShortIDs)) =>
    match t1.cleanedShortIDsChannel with
    | some sent =>
      if cleanedShortIDs.length > 0 then
        ({ t1 with cleanedShortIDsChannel := some (sent ++ [cleanedShortIDs]) }, none)
      else (t1, none)
    | none => (t1, none)

end BxTxStore

/-! ## Sequential executions -/

/-- One call on the store, or an advance of the clock. -/
inductive Op where
  | add (hash : SHA256Hash) (content : TxContent) (shortID : ShortID) (networkNum : NetworkNum)
      (flags : TxFlags) (timestamp : Int) (sender : Sender)
  | get (hash : SHA256Hash)
  | known (hash : SHA256Hash)
  | removeHashes (hashes : SHA256HashList) (reEntryProtection : ReEntryProtectionFlags)
  | removeShortIDs (shortIDs : ShortIDList) (reEntryProtection : ReEntryProtectionFlags)
  | getTxByShortID (shortID : ShortID)
  | cleanNow
  | clear
  | tick (d : Nat)
deriving DecidableEq

/-- The store after one call, with the fault if the call did not return. -/
def step (t : BxTxStore) : Op → BxTxStore × Option Fault
  | .add hash content shortID networkNum flags timestamp sender =>
    match t.Add hash content shortID networkNum flags timestamp sender with
    | (t1, .ok _) => (t1, none)
    | (t1, .error f) => (t1, some f)
  | .get hash => ((t.Get hash).1, none)
  | .known hash => ((t.Known hash).1, none)
  | .removeHashes hashes reEntryProtection => t.RemoveHashes hashes reEntryProtection
  | .removeShortIDs shortIDs reEntryProtection => t.RemoveShortIDs shortIDs reEntryProtection
  | .getTxByShortID _ => (t, none)
  | .cleanNow => t.CleanNow
  | .clear => (t.Clear, none)
  | .tick d => ({ t with clock := t.clock + d }, none)

/-- The store after a sequence of calls; the run stops at the first fault. -/
def run (t : BxTxStore) : List Op → BxTxStore × Option Fault
  | [] => (t, none)
  | op :: ops =>
    match step t op with
    | (t1, none) => run t1 ops
    | (t1, some f) => (t1, some f)

/-- States reached from `t0` by a sequence of calls that all return. -/
inductive Reachable (t0 : BxTxStore) : BxTxStore → Prop where
  | start : Reachable t0 t0
  | next {t t1 : BxTxStore} (op : Op) : Reachable t0 t → step t op = (t1, none) → Reachable t0 t1

/-- The two indexes are empty. -/
def IsEmpty (t : BxTxStore) : Prop := t.hashToContent = [] ∧ t.shortIDToHash = []

instance (t : BxTxStore) : Decidable (IsEmpty t) := by unfold IsEmpty; infer_instance

/-! ## Invariants -/

/-- Every record of the hash index is stored under its own hash. -/
def Keyed (t : BxTxStore) : Prop :=
  ∀ k r, Load t.hashToContent k = some r → r.hash = k

/-- (I1) every entry of the short-ID index points to a stored record that lists
the short ID. -/
def ShortIDsBound (t : BxTxStore) : Prop :=
  ∀ sid h, Load t.shortIDToHash sid = some h →
    ∃ r, Load t.hashToContent h = some r ∧ sid ∈ r.shortIDs

/-- (P2) no stored hash is in the history. -/
def SeenNotStored (t : BxTxStore) : Prop :=
  ∀ h r, Load t.hashToContent h = some r → t.seenTxs.Exists t.clock h = false

/-! ## Vocabulary of the statements -/

namespace BxTxStore

/-- The protection value is one of `None`, `Short`, `Full`. -/
def ValidProtection (p : ReEntryProtectionFlags) : Prop :=
  p = NoReEntryProtection ∨ p = ShortReEntryProtection ∨ p = FullReEntryProtection

instance (p : ReEntryProtectionFlags) : Decidable (ValidProtection p) := by
  unfold ValidProtection; infer_instance

/-- The record after the two flag updates of the locked section (lines 200-207). -/
def flagsUpdated (bx : BxTransaction) (flags : TxFlags) : BxTransaction :=
  let bx1 := if (!bx.flags.IsPaid && flags.IsPaid) = true then bx.AddFlags TFPaidTx else bx
  if (!bx1.flags.ShouldDeliverToNode && flags.ShouldDeliverToNode) = true then
    bx1.AddFlags TFDeliverToNode
  else bx1

/-- The guard of the short-ID minting (line 219). -/
def mints (bx : BxTransaction) (newTx : Bool) (shortID : ShortID) (flags : TxFlags) : Bool :=
  newTx && decide (shortID = ShortIDEmpty) && !(flagsUpdated bx flags).flags.IsValidatorsOnly
    && !(flagsUpdated bx flags).flags.IsNextValidator
    && !(flagsUpdated bx flags).flags.IsValidatorsOnly

/-- The short ID handed to `AddShortID` (line 224). -/
def boundShortID (t : BxTxStore) (bx : BxTransaction) (newTx : Bool) (shortID : ShortID)
    (flags : TxFlags) : ShortID :=
  if mints bx newTx shortID flags = true then t.assigner.Next.1 else shortID

/-- The store on which `Add` performs its load-or-store: the history entry of the
hash has been refreshed and then dropped if there was one. -/
def afterSeenCheck (t : BxTxStore) (hash : SHA256Hash) : BxTxStore :=
  if (t.refreshSeenTx hash).2 then
    { (t.refreshSeenTx hash).1 with seenTxs := (t.refreshSeenTx hash).1.seenTxs.Remove hash }
  else (t.refreshSeenTx hash).1

/-- The call is neither a misuse, nor too old, nor suppressed by the history: it
reaches the load-or-store. -/
def Stores (t : BxTxStore) (hash : SHA256Hash) (content : TxContent) (shortID : ShortID)
    (timestamp : Int) : Prop :=
  ¬ (shortID = ShortIDEmpty ∧ content.length = 0) ∧ ¬ (Time.Sub t.clock timestamp > t.maxTxAge) ∧
    ¬ ((t.refreshSeenTx hash).2 = true ∧ shortID = ShortIDEmpty)

instance (t : BxTxStore) (hash : SHA256Hash) (content : TxContent) (shortID : ShortID)
    (timestamp : Int) : Decidable (Stores t hash content shortID timestamp) := by
  unfold Stores; infer_instance

/-- The record `Add` works on after its load-or-store, with the flag telling
whether it existed already. -/
def loaded (t : BxTxStore) (hash : SHA256Hash) (networkNum : NetworkNum) (flags : TxFlags)
    (timestamp : Int) : BxTransaction × Bool :=
  (LoadOrStore t.hashToContent hash (NewBxTransaction hash networkNum flags timestamp)).2

/-- What the locked section of `Add` produces in a call that reaches the
load-or-store. -/
def locked (t : BxTxStore) (hash : SHA256Hash) (content : TxContent) (shortID : ShortID)
    (networkNum : NetworkNum) (flags : TxFlags) (timestamp : Int) (sender : Sender) :
    lockedSection :=
  (t.afterSeenCheck hash).addLocked (t.loaded hash networkNum flags timestamp).1
    (!(t.loaded hash networkNum flags timestamp).2) hash content shortID flags sender

end BxTxStore

/-- The invariants of the store: records are stored under their hash, the short-ID
index is bound to stored records (I1), and no stored hash is in the history
(P2). -/
def Inv (t : BxTxStore) : Prop := Keyed t ∧ ShortIDsBound t ∧ SeenNotStored t

/-! ## Concrete stores used to evaluate the statements -/

/-- An empty store at clock 1000 with `maxTxAge` 500, `noSIDAge` 100,
`timeToAvoidReEntry` 300, the short duration 50, `TxStoreMaxSize` 10, an
assigner that hands out 7, 8, 9, an empty bloom filter and an egress channel. -/
def demoStore : BxTxStore :=
  newBxTxStore 1000 500 100 { upcoming := [7, 8, 9], calls := 0 } { data := [] } (some []) 300
    (some { added := [], falsePositives := [] }) 10 50

/-- The store `demoStore` after the fresh admission of hash 11 with content and
no short ID: the assigner mints 7. -/
def demoStore1 : BxTxStore :=
  (step demoStore (.add 11 [170] ShortIDEmpty 1 0 1000 5)).1

/-- The store `demoStore1` after `RemoveHashes([11], Full)`: hash 11 is in the
history until 1300. -/
def demoStore2 : BxTxStore :=
  (step demoStore1 (.removeHashes [11] FullReEntryProtection)).1

/-- The store `demoStore2` after hash 11 came back with short ID 42 and no
content. -/
def demoStore3 : BxTxStore :=
  (step demoStore2 (.add 11 [] 42 1 0 1000 5)).1

/-- The call is not an `Add` of `hash` that carries a short ID. -/
def NotAddWithShortID (hash : SHA256Hash) : Op → Prop
  | .add h _ s _ _ _ _ => h ≠ hash ∨ s = ShortIDEmpty
  | _ => True

instance (hash : SHA256Hash) (op : Op) : Decidable (NotAddWithShortID hash op) := by
  cases op <;> unfold NotAddWithShortID <;> infer_instance

/-- The hash was removed at `tRem` with the full protection `ttl`: until
`tRem + ttl` it has no record and the history answers true for it. -/
def Suppressed (hash : SHA256Hash) (tRem ttl : Int) (t : BxTxStore) : Prop :=
  t.timeToAvoidReEntry = ttl ∧ tRem ≤ t.clock ∧
    (t.clock < tRem + ttl →
      Load t.hashToContent hash = none ∧
        ∀ now, now < tRem + ttl → t.seenTxs.Exists now hash = true)

/-- Calls made on `demoStore2` after the removal of hash 11: clock advances, a
look-up of hash 11, the admission of another hash with a short ID, an `Add` of
hash 11 without short ID, and a sweep. None is an `Add` of hash 11 with a short
ID. -/
def demoOps : List Op :=
  [.tick 50, .get 11, .add 12 [1] 44 1 0 1040 6, .add 11 [2] ShortIDEmpty 1 0 1050 5,
   .cleanNow, .tick 100]

/-- The store `demoStore` after hash 22 arrived with short ID 9, no content and no
flags. -/
def demoStore4 : BxTxStore :=
  (step demoStore (.add 22 [] 9 1 0 1000 0)).1

/-- The store `demoStore` after hash 33 arrived with content, no short ID and the
flag `ValidatorsOnly`: no short ID is minted. -/
def demoStore5 : BxTxStore :=
  (step demoStore (.add 33 [1] ShortIDEmpty 1 TFValidatorsOnly 1000 5)).1

/-- The store `demoStore2` (hash 11 removed with full protection at 1000, in the
bloom filter) at clock 1400, when the history entry of hash 11 has expired. -/
def demoStore6 : BxTxStore :=
  (step demoStore2 (.tick 400)).1

/-! ## Vocabulary of the statements on sequences of calls -/

/-- The call is not an `Add`. -/
def NotAdd : Op → Prop
  | .add _ _ _ _ _ _ _ => False
  | _ => True

/-- The hash has a record in the store `t` and after each of the calls `ops` made
from `t`: the record is not removed in between. -/
def persists (hash : SHA256Hash) : BxTxStore → List Op → Bool
  | t, [] => (Load t.hashToContent hash).isSome
  | t, op :: ops => (Load t.hashToContent hash).isSome && persists hash (step t op).1 ops

/-- The flags expected on the record of `hash` after the call `op` made in `t`,
when it carries `acc` before: an `Add` of the hash that reaches the
load-or-store (neither a misuse, nor too old, nor suppressed by the history)
contributes the `Paid` and `DeliverToNode` bits of its flags. -/
def flagsRaised (hash : SHA256Hash) (t : BxTxStore) (op : Op) (acc : TxFlags) : TxFlags :=
  match op with
  | .add h content shortID _ flags timestamp _ =>
    if h = hash ∧ BxTxStore.Stores t h content shortID timestamp then
      acc ||| (flags &&& (TFPaidTx ||| TFDeliverToNode))
    else acc
  | _ => acc

/-- The flags expected on the record of `hash` after the calls `ops` made from
`t`, when it carries `acc` in `t`. -/
def flagsAfter (hash : SHA256Hash) : BxTxStore → List Op → TxFlags → TxFlags
  | _, [], acc => acc
  | t, op :: ops, acc => flagsAfter hash (step t op).1 ops (flagsRaised hash t op acc)

/-- The bitwise OR of `acc` with the flags of the call `op` made in `t`, if it is
an `Add` of `hash` that reaches the load-or-store. -/
def flagsJoined (hash : SHA256Hash) (t : BxTxStore) (op : Op) (acc : TxFlags) : TxFlags :=
  match op with
  | .add h content shortID _ flags timestamp _ =>
    if h = hash ∧ BxTxStore.Stores t h content shortID timestamp then acc ||| flags else acc
  | _ => acc

/-- The bitwise OR of the flags of every `Add` of `hash` among the calls `ops`
made from `t` that reaches the load-or-store, starting from `acc`. -/
def flagsUnion (hash : SHA256Hash) : BxTxStore → List Op → TxFlags → TxFlags
  | _, [], acc => acc
  | t, op :: ops, acc => flagsUnion hash (step t op).1 ops (flagsJoined hash t op acc)

/-- The call is an `Add` for a hash other than `h` that binds the short ID `sid`:
it reports `NewSID` and the short ID bound (the one minted if there is one,
the supplied one otherwise) is `sid`. -/
def rebinds (sid : ShortID) (h : SHA256Hash) (t : BxTxStore) : Op → Bool
  | .add h1 content shortID networkNum flags timestamp sender =>
    decide (h1 ≠ h) &&
      (match (t.Add h1 content shortID networkNum flags timestamp sender).2 with
       | .ok res =>
         res.NewSID &&
           decide ((if res.AssignedShortID = ShortIDEmpty then shortID
                    else res.AssignedShortID) = sid)
       | .error _ => false)
  | _ => false

/-- None of the calls `ops` made from `t` is an `Add` for a hash other than `h`
that binds `sid`. -/
def noRebind (sid : ShortID) (h : SHA256Hash) : BxTxStore → List Op → Bool
  | _, [] => true
  | t, op :: ops => !rebinds sid h t op && noRebind sid h (step t op).1 ops

/-- Calls made on `demoStore4` (hash 22 stored with no flags): hash 22 comes back
with content and the flag `Paid`, then with the flag `ValidatorsOnly`, another
hash arrives with `DeliverToNode`, hash 22 comes back too old with
`DeliverToNode`, and hash 22 is looked up. -/
def demoOps2 : List Op :=
  [.add 22 [187] ShortIDEmpty 1 TFPaidTx 1000 5, .tick 10,
   .add 22 [] 9 1 TFValidatorsOnly 1005 0, .add 23 [1] ShortIDEmpty 1 TFDeliverToNode 1010 5,
   .add 22 [] 9 1 TFDeliverToNode 100 0, .get 22]

/-- Calls made on `demoStore1` (short ID 7 bound to hash 11): another hash arrives
with short ID 44, hash 11 comes back with short ID 7, the clock advances, the
other hash is removed and a sweep runs. -/
def demoOps3 : List Op :=
  [.add 12 [1] 44 1 0 1000 6, .add 11 [] 7 1 0 1000 5, .tick 50,
   .removeHashes [12] NoReEntryProtection, .cleanNow]

/-- The store `demoStore1` after `RemoveHashes([11], Short)`: hash 11 is in the
history until 1050. -/
def demoStore7 : BxTxStore :=
  (step demoStore1 (.removeHashes [11] ShortReEntryProtection)).1

/-- The store `demoStore1` after hash 11 came again with short ID 42: its record
holds the short IDs 7 and 42. -/
def demoStore8 : BxTxStore :=
  (step demoStore1 (.add 11 [] 42 1 0 1000 5)).1

/-! ## Vocabulary of the statements on removals by short ID -/

/-- The list without the later occurrences of its elements, the elements of
`seen` counting as having occurred. -/
def firstOccurrences : SHA256HashList → SHA256HashList → SHA256HashList
  | [], _ => []
  | h :: rest, seen =>
    if h ∈ seen then firstOccurrences rest seen else h :: firstOccurrences rest (h :: seen)

/-- The store `demoStore1` at clock 1600: the record of hash 11, added at 1000,
is older than `maxTxAge`. -/
def demoStore9 : BxTxStore :=
  (step demoStore1 (.tick 600)).1


/-- Calls that fill network 1 of `demoStore` with three records: hash 11 (short ID
7) added at 1000, then at clock 1400 hash 33 (no short ID) and hash 12 (short ID
8), and the clock moved to 1600. -/
def demoOps4 : List Op :=
  [.add 11 [170] ShortIDEmpty 1 0 1000 5, .tick 400,
   .add 33 [1] ShortIDEmpty 1 TFValidatorsOnly 1400 5, .add 12 [2] ShortIDEmpty 1 0 1400 6,
   .tick 200]

/-- The store `demoStore` after the calls `demoOps4`: at clock 1600 the record of
hash 11 has age 600, those of the hashes 33 and 12 have age 200. -/
def demoStore10 : BxTxStore := (run demoStore demoOps4).1

/-- The store `demoStore` built without a bloom filter (`bloom` is nil). -/
def demoStoreNoBloom : BxTxStore :=
  newBxTxStore 1000 500 100 { upcoming := [7, 8, 9], calls := 0 } { data := [] } (some []) 300
    none 10 50

/-- The store without bloom filter after the admission of hash 11 at 1000, at
clock 1600: the record of hash 11 is older than `maxTxAge`. -/
def demoStore11 : BxTxStore :=
  (run demoStoreNoBloom [.add 11 [170] ShortIDEmpty 1 0 1000 5, .tick 600]).1

/-- The store `demoStore5` at clock 1200: the record of hash 33, which has no
short ID, is older than `noSIDAge`. -/
def demoStore12 : BxTxStore :=
  (step demoStore5 (.tick 200)).1

/-- An empty store with times in nanoseconds: clock at 20 s, `maxTxAge` 100 s,
`noSIDAge` 50 s, `timeToAvoidReEntry` 300 s, `TxStoreMaxSize` 10, a bloom filter
and an egress channel. -/
def demoStoreSeconds : BxTxStore :=
  newBxTxStore (20 * Second) (100 * Second) (50 * Second) { upcoming := [], calls := 0 }
    { data := [] } (some []) (300 * Second) (some { added := [], falsePositives := [] }) 10
    (50 * Second)

/-- Eleven admissions on network 1, of the hashes 100 to 110 with the short IDs
200 to 210, added 1 s, 2 s, ..., 11 s before the clock of `demoStoreSeconds`. -/
def demoOps5 : List Op :=
  (List.range 11).map
    (fun i => Op.add (100 + i) [1] (200 + i) 1 0 (20 * Second - ((i : Int) + 1) * Second) 5)

/-- Eleven admissions on network 1, of the hashes 100 to 110 with the short IDs
200 to 210, added 1.5 s, 2.5 s, ..., 11.5 s before the clock of
`demoStoreSeconds`. -/
def demoOps6 : List Op :=
  (List.range 11).map
    (fun i => Op.add (100 + i) [1] (200 + i) 1 0
      (20 * Second - ((i : Int) + 1) * Second - 500000000) 5)

/-- The store with eleven records of network 1 whose ages are 1 s, ..., 11 s. -/
def demoStore13 : BxTxStore := (run demoStoreSeconds demoOps5).1

/-- The store with eleven records of network 1 whose ages are 1.5 s, ..., 11.5 s. -/
def demoStore14 : BxTxStore := (run demoStoreSeconds demoOps6).1

/-- An empty store at clock 0 whose `maxTxAge` is the largest duration, with
`noSIDAge` 100, `timeToAvoidReEntry` 300, `TxStoreMaxSize` 10, an assigner that
hands out 7, 8, 9, an empty bloom filter and an egress channel. -/
def demoStoreMaxAge : BxTxStore :=
  newBxTxStore 0 maxDuration 100 { upcoming := [7, 8, 9], calls := 0 } { data := [] } (some [])
    300 (some { added := [], falsePositives := [] }) 10 50

/-- The store `demoStoreMaxAge` after an `Add` of hash 11 whose timestamp lies
9300000000000000000 ns before the clock, more than the largest duration. -/
def demoStore15 : BxTxStore :=
  (step demoStoreMaxAge (.add 11 [170] ShortIDEmpty 1 0 (-9300000000000000000) 5)).1

/-- The store `demoStore` built with `timeToAvoidReEntry` 0. -/
def demoStoreNoTTL : BxTxStore :=
  newBxTxStore 1000 500 100 { upcoming := [7, 8, 9], calls := 0 } { data := [] } (some []) 0
    (some { added := [], falsePositives := [] }) 10 50

/-- The store with `timeToAvoidReEntry` 0 after the admission of hash 11 at 1000,
at clock 1600: the record of hash 11 is older than `maxTxAge`. -/
def demoStore16 : BxTxStore :=
  (run demoStoreNoTTL [.add 11 [170] ShortIDEmpty 1 0 1000 5, .tick 600]).1

/-! ## Vocabulary of the statements on the sweep -/

/-- What the sweep started in `t` has done to the hash `k` in the store `s`: the
clock and `timeToAvoidReEntry` are those of `t`, a configured bloom filter stays
configured, and once the record of `k` is gone the history holds `k` with the
expiry `clock + timeToAvoidReEntry` and the bloom filter answers true on `k`. -/
def BxTxStore.sweptFrom (t : BxTxStore) (k : SHA256Hash) (s : BxTxStore) : Prop :=
  s.clock = t.clock ∧ s.timeToAvoidReEntry = t.timeToAvoidReEntry ∧
    (t.bloom ≠ none → s.bloom ≠ none) ∧
    (Load t.hashToContent k ≠ none → Load s.hashToContent k = none →
      Load s.seenTxs.data k = some (t.clock + t.timeToAvoidReEntry) ∧
        ∀ b, s.bloom = some b → b.Check k = true)

/-- The keys of the map are pairwise distinct, as in a Go map. -/
def DistinctKeys {K V : Type} (m : List (K × V)) : Prop := (m.map Prod.fst).Nodup

namespace BxTxStore

/-- The age limit that the second pass of the sweep has set for each network
that has an entry. -/
def maxAges (networks : List (NetworkNum × networkData)) (net : NetworkNum) : Option Int :=
  (Load networks net).map (fun netData => netData.maxAge)

/-- The test of the third pass of the sweep on a record (lines 291-301), the age
limits of the networks being given: the record is older than the limit of its
network, or it is older than `noSIDAge` and has no short ID. -/
def due (currTime noSIDAge : Int) (limits : NetworkNum → Option Int)
    (e : SHA256Hash × BxTransaction) : Bool :=
  match limits e.2.networkNum with
  | some maxAge =>
    decide (Time.Sub currTime e.2.addTime > maxAge) ||
      (decide (Time.Sub currTime e.2.addTime > noSIDAge) && decide (e.2.shortIDs.length = 0))
  | none => false

/-- The age limit that the second pass of the sweep computes from the ages, in
whole seconds, of the records of a network (lines 270-279). -/
def ageLimit (t : BxTxStore) (ages : List Int) : Int :=
  if ages.length ≤ t.TxStoreMaxSize then t.maxTxAge
  else
    let age :=
      ((ages.insertionSort (fun a b => a ≤ b)).get? (t.TxStoreMaxSize * 9 / 10 - 1)).getD 0
    if age * Second > t.maxTxAge then t.maxTxAge else age * Second

/-- The records of a network in the hash index, in the order of the index. -/
def recordsOf (t : BxTxStore) (net : NetworkNum) : List (SHA256Hash × BxTransaction) :=
  t.hashToContent.filter (fun e => decide (e.2.networkNum = net))

/-- The ages, in whole seconds, of the records of a network when the sweep
starts (line 262). -/
def agesOf (t : BxTxStore) (net : NetworkNum) : List Int :=
  (t.recordsOf net).map (fun e => (Time.Sub t.clock e.2.addTime).tdiv Second)

/-- The age limit of each network that has a record when the sweep starts. -/
def sweepLimits (t : BxTxStore) (net : NetworkNum) : Option Int :=
  if t.recordsOf net = [] then none else some (t.ageLimit (t.agesOf net))

/-- The records that `CleanNow` removes: those of the hash index whose hash has
no record after the call. -/
def swept (t : BxTxStore) : List (SHA256Hash × BxTransaction) :=
  t.hashToContent.filter (fun e => (Load t.CleanNow.1.hashToContent e.1).isNone)

/-- The records of a network that `CleanNow` removes. -/
def sweptOf (t : BxTxStore) (net : NetworkNum) : List (SHA256Hash × BxTransaction) :=
  (t.recordsOf net).filter (fun e => (Load t.CleanNow.1.hashToContent e.1).isNone)

end BxTxStore
/-! ## Lemmas on the maps -/

namespace SyncMap

variable {K V : Type} [DecidableEq K]

theorem Load_Store (m : List (K × V)) (k k1 : K) (v : V) :
    Load (Store m k v) k1 = if k = k1 then some v else Load m k1 := by
  induction m with
  | nil => simp [Store, Load]
  | cons e m ih =>
    by_cases h : e.1 = k <;> by_cases h1 : k = k1 <;> by_cases h2 : e.1 = k1 <;>
      simp_all [Store, Load]

theorem Load_Store_self (m : List (K × V)) (k : K) (v : V) :
    Load (Store m k v) k = some v := by
  simp [Load_Store]

theorem Load_Store_ne (m : List (K × V)) {k k1 : K} (v : V) (h : k ≠ k1) :
    Load (Store m k v) k1 = Load m k1 := by
  simp [Load_Store, h]

theorem Load_Delete (m : List (K × V)) (k k1 : K) :
    Load (Delete m k) k1 = if k = k1 then none else Load m k1 := by
  induction m with
  | nil => simp [Delete, Load]
  | cons e m ih =>
    by_cases h : e.1 = k <;> by_cases h1 : k = k1 <;> by_cases h2 : e.1 = k1 <;>
      simp_all [Delete, Load]

theorem Load_Delete_self (m : List (K × V)) (k : K) : Load (Delete m k) k = none := by
  simp [Load_Delete]

theorem Load_Delete_ne (m : List (K × V)) {k k1 : K} (h : k ≠ k1) :
    Load (Delete m k) k1 = Load m k1 := by
  simp [Load_Delete, h]

theorem Delete_of_Load_none (m : List (K × V)) (k : K) (h : Load m k = none) :
    Delete m k = m := by
  induction m with
  | nil => rfl
  | cons e m ih =>
    by_cases h1 : e.1 = k
    · simp [Load, h1] at h
    · simp only [Load, h1, if_false] at h
      simp [Delete, h1, ih h]

theorem Load_DeleteAll (m : List (K × V)) (ks : List K) (k1 : K) :
    Load (DeleteAll m ks) k1 = if k1 ∈ ks then none else Load m k1 := by
  induction ks generalizing m with
  | nil => simp [DeleteAll]
  | cons k ks ih =>
    have h : DeleteAll m (k :: ks) = DeleteAll (Delete m k) ks := rfl
    rw [h, ih, Load_Delete]
    by_cases h1 : k1 ∈ ks
    · simp [h1]
    · by_cases h2 : k = k1
      · simp [h2]
      · have h3 : k1 ≠ k := fun e => h2 e.symm
        simp [h1, h2, h3]

end SyncMap

/-! ## Lemmas on `remove` -/

namespace BxTxStore

theorem remove_of_absent (t : BxTxStore) (h : SHA256Hash) (p : ReEntryProtectionFlags)
    (hl : Load t.hashToContent h = none) : t.remove h p = (t, none) := by
  simp [remove, LoadAndDelete, hl]

theorem remove_hashToContent (t : BxTxStore) (h : SHA256Hash) (p : ReEntryProtectionFlags) :
    (t.remove h p).1.hashToContent = Delete t.hashToContent h := by
  cases hl : Load t.hashToContent h with
  | none => rw [remove_of_absent t h p hl, Delete_of_Load_none _ _ hl]
  | some r =>
    simp only [remove, LoadAndDelete, hl]
    split_ifs <;> (try split) <;> rfl

theorem remove_shortIDToHash (t : BxTxStore) (h : SHA256Hash) (p : ReEntryProtectionFlags)
    (r : BxTransaction) (hl : Load t.hashToContent h = some r) :
    (t.remove h p).1.shortIDToHash = DeleteAll t.shortIDToHash r.shortIDs := by
  simp only [remove, LoadAndDelete, hl]
  split_ifs <;> (try split) <;> rfl

theorem remove_clock (t : BxTxStore) (h : SHA256Hash) (p : ReEntryProtectionFlags) :
    (t.remove h p).1.clock = t.clock := by
  cases hl : Load t.hashToContent h with
  | none => rw [remove_of_absent t h p hl]
  | some r =>
    simp only [remove, LoadAndDelete, hl]
    split_ifs <;> (try split) <;> rfl

theorem short_ne_no : ShortReEntryProtection ≠ NoReEntryProtection := by decide

theorem full_ne_no : FullReEntryProtection ≠ NoReEntryProtection := by decide

theorem full_ne_short : FullReEntryProtection ≠ ShortReEntryProtection := by decide

/-- The history after `remove` of a stored hash: untouched for `None` (and for an
unknown value), the hash entered with the short or the full duration
otherwise. -/
theorem remove_seenTxs (t : BxTxStore) (h : SHA256Hash) (p : ReEntryProtectionFlags)
    (r : BxTransaction) (hl : Load t.hashToContent h = some r) :
    (t.remove h p).1.seenTxs =
      if p = ShortReEntryProtection then
        t.seenTxs.Add t.clock h t.ShortReEntryProtectionDuration
      else if p = FullReEntryProtection then t.seenTxs.Add t.clock h t.timeToAvoidReEntry
      else t.seenTxs := by
  simp only [remove, LoadAndDelete, hl]
  by_cases h0 : p = NoReEntryProtection
  · subst h0
    simp [Ne.symm short_ne_no, Ne.symm full_ne_no]
  · by_cases h1 : p = ShortReEntryProtection
    · subst h1
      simp only [short_ne_no, if_true, if_false]
      split <;> rfl
    · by_cases h2 : p = FullReEntryProtection
      · subst h2
        simp only [full_ne_no, full_ne_short, if_true, if_false]
        split <;> rfl
      · simp [h0, h1, h2]

theorem remove_seenTxs_of_absent (t : BxTxStore) (h : SHA256Hash) (p : ReEntryProtectionFlags)
    (hl : Load t.hashToContent h = none) : (t.remove h p).1.seenTxs = t.seenTxs := by
  rw [remove_of_absent t h p hl]

/-- With a valid protection value, `remove` returns, provided a bloom filter is
configured or no protection is asked. -/
theorem remove_returns (t : BxTxStore) (h : SHA256Hash) (p : ReEntryProtectionFlags)
    (hp : ValidProtection p) (hb : t.bloom ≠ none ∨ p = NoReEntryProtection) :
    (t.remove h p).2 = none := by
  cases hl : Load t.hashToContent h with
  | none => rw [remove_of_absent t h p hl]
  | some r =>
    simp only [remove, LoadAndDelete, hl]
    rcases hb with hb | hb
    · cases hbl : t.bloom with
      | none => exact absurd hbl hb
      | some b =>
        rcases hp with hp | hp | hp <;> subst hp <;>
          simp [hbl, short_ne_no, full_ne_no, full_ne_short]
    · simp [hb]

/-! ## Lemmas on `Add` -/

theorem LoadOrStore_of_some {K V : Type} [DecidableEq K] (m : List (K × V)) (k : K) (v w : V)
    (h : Load m k = some w) : LoadOrStore m k v = (m, w, true) := by
  simp [LoadOrStore, h]

theorem LoadOrStore_of_none {K V : Type} [DecidableEq K] (m : List (K × V)) (k : K) (v : V)
    (h : Load m k = none) : LoadOrStore m k v = (Store m k v, v, false) := by
  simp [LoadOrStore, h]

theorem Load_LoadOrStore {K V : Type} [DecidableEq K] (m : List (K × V)) (k k1 : K) (v : V) :
    Load (LoadOrStore m k v).1 k1 =
      if k = k1 then some (LoadOrStore m k v).2.1 else Load m k1 := by
  cases h : Load m k with
  | some w =>
    rw [LoadOrStore_of_some m k v w h]
    by_cases h1 : k = k1
    · subst h1; simp [h]
    · simp [h1]
  | none =>
    rw [LoadOrStore_of_none m k v h]
    simp [Load_Store]

theorem AddShortID_hash (bt : BxTransaction) (s : ShortID) : (bt.AddShortID s).1.hash = bt.hash := by
  unfold BxTransaction.AddShortID; split_ifs <;> rfl

theorem SetContent_hash (bt : BxTransaction) (c : TxContent) : (bt.SetContent c).1.hash = bt.hash := by
  unfold BxTransaction.SetContent; split_ifs <;> rfl

theorem SetContent_shortIDs (bt : BxTransaction) (c : TxContent) :
    (bt.SetContent c).1.shortIDs = bt.shortIDs := by
  unfold BxTransaction.SetContent; split_ifs <;> rfl

theorem AddShortID_mono (bt : BxTransaction) (s x : ShortID) (hx : x ∈ bt.shortIDs) :
    x ∈ (bt.AddShortID s).1.shortIDs := by
  unfold BxTransaction.AddShortID; split_ifs
  · exact hx
  · exact hx
  · simp [hx]

theorem AddShortID_true (bt : BxTransaction) (s : ShortID) (h : (bt.AddShortID s).2 = true) :
    s ∈ (bt.AddShortID s).1.shortIDs ∧ s ≠ ShortIDEmpty ∧ s ∉ bt.shortIDs := by
  unfold BxTransaction.AddShortID at h ⊢
  split_ifs at h ⊢ with h1 h2
  exact ⟨by simp, h1, h2⟩

theorem flagsUpdated_hash (bx : BxTransaction) (f : TxFlags) : (flagsUpdated bx f).hash = bx.hash := by
  unfold flagsUpdated; simp only []; split_ifs <;> rfl

theorem flagsUpdated_shortIDs (bx : BxTransaction) (f : TxFlags) :
    (flagsUpdated bx f).shortIDs = bx.shortIDs := by
  unfold flagsUpdated; simp only []; split_ifs <;> rfl

theorem flagsUpdated_content (bx : BxTransaction) (f : TxFlags) :
    (flagsUpdated bx f).content = bx.content := by
  unfold flagsUpdated; simp only []; split_ifs <;> rfl

theorem addLocked_shortID (t : BxTxStore) (bx : BxTransaction) (n : Bool) (h : SHA256Hash)
    (c : TxContent) (s : ShortID) (f : TxFlags) (snd : Sender) :
    (t.addLocked bx n h c s f snd).shortID = boundShortID t bx n s f := rfl

theorem addLocked_NewSID (t : BxTxStore) (bx : BxTransaction) (n : Bool) (h : SHA256Hash)
    (c : TxContent) (s : ShortID) (f : TxFlags) (snd : Sender) :
    (t.addLocked bx n h c s f snd).result.NewSID =
      ((flagsUpdated bx f).AddShortID (boundShortID t bx n s f)).2 := rfl

theorem addLocked_tx (t : BxTxStore) (bx : BxTransaction) (n : Bool) (h : SHA256Hash)
    (c : TxContent) (s : ShortID) (f : TxFlags) (snd : Sender) :
    (t.addLocked bx n h c s f snd).tx =
      if ((((flagsUpdated bx f).AddShortID (boundShortID t bx n s f)).1).SetContent c).2 = true
      then ((((flagsUpdated bx f).AddShortID (boundShortID t bx n s f)).1).SetContent c).1.SetSender
        snd
      else ((((flagsUpdated bx f).AddShortID (boundShortID t bx n s f)).1).SetContent c).1 := rfl

theorem addLocked_tx_shortIDs (t : BxTxStore) (bx : BxTransaction) (n : Bool) (h : SHA256Hash)
    (c : TxContent) (s : ShortID) (f : TxFlags) (snd : Sender) :
    (t.addLocked bx n h c s f snd).tx.shortIDs =
      ((flagsUpdated bx f).AddShortID (boundShortID t bx n s f)).1.shortIDs := by
  rw [addLocked_tx]
  split_ifs <;> simp [BxTransaction.SetSender, SetContent_shortIDs]

theorem addLocked_tx_hash (t : BxTxStore) (bx : BxTransaction) (n : Bool) (h : SHA256Hash)
    (c : TxContent) (s : ShortID) (f : TxFlags) (snd : Sender) :
    (t.addLocked bx n h c s f snd).tx.hash = bx.hash := by
  rw [addLocked_tx]
  split_ifs <;>
    simp [BxTransaction.SetSender, SetContent_hash, AddShortID_hash, flagsUpdated_hash]

theorem addLocked_shortIDs_mono (t : BxTxStore) (bx : BxTransaction) (n : Bool) (h : SHA256Hash)
    (c : TxContent) (s : ShortID) (f : TxFlags) (snd : Sender) (x : ShortID)
    (hx : x ∈ bx.shortIDs) : x ∈ (t.addLocked bx n h c s f snd).tx.shortIDs := by
  rw [addLocked_tx_shortIDs]
  apply AddShortID_mono
  rw [flagsUpdated_shortIDs]; exact hx

theorem addLocked_newSID (t : BxTxStore) (bx : BxTransaction) (n : Bool) (h : SHA256Hash)
    (c : TxContent) (s : ShortID) (f : TxFlags) (snd : Sender)
    (hn : (t.addLocked bx n h c s f snd).result.NewSID = true) :
    (t.addLocked bx n h c s f snd).shortID ∈ (t.addLocked bx n h c s f snd).tx.shortIDs ∧
      (t.addLocked bx n h c s f snd).shortID ≠ ShortIDEmpty := by
  rw [addLocked_NewSID] at hn
  rw [addLocked_tx_shortIDs, addLocked_shortID]
  have h1 := AddShortID_true _ _ hn
  exact ⟨h1.1, h1.2.1⟩

theorem addLocked_result_tx (t : BxTxStore) (bx : BxTransaction) (n : Bool) (h : SHA256Hash)
    (c : TxContent) (s : ShortID) (f : TxFlags) (snd : Sender) :
    (t.addLocked bx n h c s f snd).result.Transaction = some (t.addLocked bx n h c s f snd).tx := rfl

theorem Add_of_Stores (t : BxTxStore) (hash : SHA256Hash) (content : TxContent)
    (shortID : ShortID) (networkNum : NetworkNum) (flags : TxFlags) (timestamp : Int)
    (sender : Sender) (hs : Stores t hash content shortID timestamp) :
    t.Add hash content shortID networkNum flags timestamp sender =
      (let t2 := t.afterSeenCheck hash
       let los := LoadOrStore t2.hashToContent hash
         (NewBxTransaction hash networkNum flags timestamp)
       let u := t2.addLocked los.2.1 (!los.2.2) hash content shortID flags sender
       ({ t2 with
            hashToContent := Store los.1 hash u.tx,
            shortIDToHash := if u.result.NewSID then Store t2.shortIDToHash u.shortID u.tx.hash
                             else t2.shortIDToHash,
            assigner := u.assigner },
        .ok u.result)) := by
  obtain ⟨h1, h2, h3⟩ := hs
  unfold Add afterSeenCheck
  rw [if_neg h1, if_neg h2]
  simp only [if_neg h3]

theorem Add_of_suppressed (t : BxTxStore) (hash : SHA256Hash) (content : TxContent)
    (shortID : ShortID) (networkNum : NetworkNum) (flags : TxFlags) (timestamp : Int)
    (sender : Sender) (h1 : ¬ (shortID = ShortIDEmpty ∧ content.length = 0))
    (h2 : ¬ (Time.Sub t.clock timestamp > t.maxTxAge))
    (h3 : (t.refreshSeenTx hash).2 = true ∧ shortID = ShortIDEmpty) :
    t.Add hash content shortID networkNum flags timestamp sender =
      ((t.refreshSeenTx hash).1,
        .ok { Transaction := some (NewBxTransaction hash networkNum flags timestamp),
              DebugData := "Transaction already seen and deleted from store",
              AlreadySeen := true }) := by
  unfold Add
  rw [if_neg h1, if_neg h2]
  simp only [if_pos h3]

theorem Add_of_not_Stores (t : BxTxStore) (hash : SHA256Hash) (content : TxContent)
    (shortID : ShortID) (networkNum : NetworkNum) (flags : TxFlags) (timestamp : Int)
    (sender : Sender) (hs : ¬ Stores t hash content shortID timestamp) :
    (t.Add hash content shortID networkNum flags timestamp sender).1 = t ∨
      (t.Add hash content shortID networkNum flags timestamp sender).1 =
        (t.refreshSeenTx hash).1 := by
  unfold Add
  by_cases h1 : shortID = ShortIDEmpty ∧ content.length = 0
  · left; rw [if_pos h1]
  · rw [if_neg h1]
    by_cases h2 : Time.Sub t.clock timestamp > t.maxTxAge
    · left; rw [if_pos h2]
    · rw [if_neg h2]
      by_cases h3 : (t.refreshSeenTx hash).2 = true ∧ shortID = ShortIDEmpty
      · right; simp only [if_pos h3]
      · exact absurd ⟨h1, h2, h3⟩ hs

/-! ## Lemmas on the history -/

theorem Exists_Add (hh : HashHistory) (now now1 : Int) (h k : SHA256Hash) (ttl : Int) :
    (hh.Add now h ttl).Exists now1 k =
      if h = k then decide (now1 < now + ttl) else hh.Exists now1 k := by
  unfold HashHistory.Exists HashHistory.Add
  simp only [Load_Store]
  split_ifs <;> rfl

theorem Exists_Remove (hh : HashHistory) (now : Int) (h k : SHA256Hash) :
    (hh.Remove h).Exists now k = if h = k then false else hh.Exists now k := by
  unfold HashHistory.Exists HashHistory.Remove
  simp only [Load_Delete]
  split_ifs <;> rfl

theorem Exists_later (hh : HashHistory) (now : Int) (d : Nat) (k : SHA256Hash)
    (h : hh.Exists now k = false) : hh.Exists (now + d) k = false := by
  unfold HashHistory.Exists at h ⊢
  cases hl : Load hh.data k with
  | none => rfl
  | some e =>
    simp only [hl, decide_eq_false_iff_not] at h ⊢
    omega

/-! ## Preservation of a property of the store by the calls -/

theorem RemoveHashes_preserves (P : BxTxStore → Prop)
    (hrem : ∀ t h p, P t → P (t.remove h p).1) (hs : SHA256HashList)
    (p : ReEntryProtectionFlags) : ∀ t : BxTxStore, P t → P (t.RemoveHashes hs p).1 := by
  induction hs with
  | nil => intro t ht; exact ht
  | cons h rest ih =>
    intro t ht
    have h1 := hrem t h p ht
    unfold RemoveHashes
    cases hr : t.remove h p with
    | mk t1 o =>
      rw [hr] at h1
      cases o with
      | none => exact ih t1 h1
      | some f => exact h1

theorem cleanEvict_preserves (P : BxTxStore → Prop)
    (hrem : ∀ t h p, P t → P (t.remove h p).1) (currTime : Int)
    (txs : List (SHA256Hash × BxTransaction)) :
    ∀ c : cleanState, P c.store → P (cleanEvict currTime txs c).1.store := by
  induction txs with
  | nil => intro c hc; exact hc
  | cons e rest ih =>
    intro c hc
    unfold cleanEvict
    simp only []
    split
    · exact hc
    · exact ih c hc
    · have h1 := hrem c.store e.1 FullReEntryProtection hc
      cases hr : c.store.remove e.1 FullReEntryProtection with
      | mk t1 o =>
        rw [hr] at h1
        cases o with
        | none => exact ih _ h1
        | some f => exact h1

theorem clean_preserves (P : BxTxStore → Prop)
    (hrem : ∀ t h p, P t → P (t.remove h p).1) (t : BxTxStore) (ht : P t) : P t.clean.1 := by
  unfold clean
  simp only []
  split
  · exact ht
  · rename_i networks _
    have h1 := cleanEvict_preserves P hrem t.clock t.hashToContent
      { store := t, networks := networks, cleanedShortIDs := [] } ht
    split <;> (rename_i heq; rw [heq] at h1; exact h1)

theorem CleanNow_preserves (P : BxTxStore → Prop)
    (hrem : ∀ t h p, P t → P (t.remove h p).1)
    (hch : ∀ (t : BxTxStore) ch, P t → P { t with cleanedShortIDsChannel := ch })
    (t : BxTxStore) (ht : P t) : P t.CleanNow.1 := by
  have h1 := clean_preserves P hrem t ht
  unfold CleanNow
  split
  · rename_i heq; rw [heq] at h1; exact h1
  · rename_i heq; rw [heq] at h1
    split
    · split
      · exact hch _ _ h1
      · exact h1
    · exact h1

theorem step_preserves (P : BxTxStore → Prop) (A : Op → Prop)
    (hadd : ∀ (t : BxTxStore) hash content shortID networkNum flags timestamp sender,
      A (.add hash content shortID networkNum flags timestamp sender) → P t →
      P (t.Add hash content shortID networkNum flags timestamp sender).1)
    (href : ∀ (t : BxTxStore) hash, P t → P (t.refreshSeenTx hash).1)
    (hrem : ∀ t h p, P t → P (t.remove h p).1)
    (hch : ∀ (t : BxTxStore) ch, P t → P { t with cleanedShortIDsChannel := ch })
    (hclear : ∀ t : BxTxStore, P t → P t.Clear)
    (htick : ∀ (t : BxTxStore) (d : Nat), P t → P { t with clock := t.clock + d })
    (t : BxTxStore) (op : Op) (hop : A op) (ht : P t) : P (step t op).1 := by
  cases op with
  | add hash content shortID networkNum flags timestamp sender =>
    have h1 := hadd t hash content shortID networkNum flags timestamp sender hop ht
    simp only [step]
    split <;> (rename_i heq; rw [heq] at h1; exact h1)
  | get hash =>
    have h1 := href t hash ht
    show P (t.Get hash).1
    unfold Get
    split <;> (rename_i heq; rw [heq] at h1)
    · exact h1
    · split <;> exact h1
  | known hash => exact href t hash ht
  | removeHashes hashes p => exact RemoveHashes_preserves P hrem hashes p t ht
  | removeShortIDs shortIDs p => exact RemoveHashes_preserves P hrem _ p t ht
  | getTxByShortID _ => exact ht
  | cleanNow => exact CleanNow_preserves P hrem hch t ht
  | clear => exact hclear t ht
  | tick d => exact htick t d ht

theorem run_preserves (P : BxTxStore → Prop) (A : Op → Prop)
    (hstep : ∀ t op, A op → P t → P (step t op).1) (ops : List Op) (hops : ∀ op ∈ ops, A op) :
    ∀ t : BxTxStore, P t → P (run t ops).1 := by
  induction ops with
  | nil => intro t ht; exact ht
  | cons op rest ih =>
    intro t ht
    have h1 := hstep t op (hops op (List.mem_cons_self _ _)) ht
    unfold run
    cases hr : step t op with
    | mk t1 o =>
      rw [hr] at h1
      cases o with
      | none => exact ih (fun o ho => hops o (List.mem_cons_of_mem _ ho)) t1 h1
      | some f => exact h1

theorem Reachable_preserves (P : BxTxStore → Prop)
    (hstep : ∀ t op, P t → P (step t op).1) (t0 t : BxTxStore) (h0 : P t0)
    (hr : Reachable t0 t) : P t := by
  induction hr with
  | start => exact h0
  | next op _ hs ih =>
    have h1 := hstep _ op ih
    rw [hs] at h1
    exact h1

/-! ## The invariants hold in every reachable state -/

theorem refreshSeenTx_hashToContent (t : BxTxStore) (h : SHA256Hash) :
    (t.refreshSeenTx h).1.hashToContent = t.hashToContent := by
  unfold refreshSeenTx; split_ifs <;> rfl

theorem refreshSeenTx_shortIDToHash (t : BxTxStore) (h : SHA256Hash) :
    (t.refreshSeenTx h).1.shortIDToHash = t.shortIDToHash := by
  unfold refreshSeenTx; split_ifs <;> rfl

theorem refreshSeenTx_clock (t : BxTxStore) (h : SHA256Hash) :
    (t.refreshSeenTx h).1.clock = t.clock := by
  unfold refreshSeenTx; split_ifs <;> rfl

theorem refreshSeenTx_snd (t : BxTxStore) (h : SHA256Hash) :
    (t.refreshSeenTx h).2 = t.seenTxs.Exists t.clock h := by
  unfold refreshSeenTx; split_ifs with h1 <;> simp [h1]

theorem afterSeenCheck_hashToContent (t : BxTxStore) (h : SHA256Hash) :
    (t.afterSeenCheck h).hashToContent = t.hashToContent := by
  unfold afterSeenCheck; split_ifs <;> simp [refreshSeenTx_hashToContent]

theorem afterSeenCheck_shortIDToHash (t : BxTxStore) (h : SHA256Hash) :
    (t.afterSeenCheck h).shortIDToHash = t.shortIDToHash := by
  unfold afterSeenCheck; split_ifs <;> simp [refreshSeenTx_shortIDToHash]

theorem afterSeenCheck_clock (t : BxTxStore) (h : SHA256Hash) :
    (t.afterSeenCheck h).clock = t.clock := by
  unfold afterSeenCheck; split_ifs <;> simp [refreshSeenTx_clock]

/-- After the history check of `Add`, the hash is not in the history. -/
theorem afterSeenCheck_Exists_self (t : BxTxStore) (h : SHA256Hash) :
    (t.afterSeenCheck h).seenTxs.Exists t.clock h = false := by
  unfold afterSeenCheck
  split_ifs with h1
  · simp [Exists_Remove]
  · rw [refreshSeenTx_snd] at h1
    unfold refreshSeenTx
    simp [h1]

/-- The history check of `Add` leaves the entries of the other hashes alone. -/
theorem afterSeenCheck_Exists_ne (t : BxTxStore) (h k : SHA256Hash) (now : Int) (hk : h ≠ k) :
    (t.afterSeenCheck h).seenTxs.Exists now k = t.seenTxs.Exists now k := by
  unfold afterSeenCheck refreshSeenTx
  split_ifs <;> simp_all [Exists_Remove, Exists_Add]

theorem refreshSeenTx_Exists_ne (t : BxTxStore) (h k : SHA256Hash) (now : Int) (hk : h ≠ k) :
    (t.refreshSeenTx h).1.seenTxs.Exists now k = t.seenTxs.Exists now k := by
  unfold refreshSeenTx
  split_ifs <;> simp_all [Exists_Add]

theorem refreshSeenTx_of_not_Exists (t : BxTxStore) (h : SHA256Hash)
    (he : t.seenTxs.Exists t.clock h = false) : t.refreshSeenTx h = (t, false) := by
  unfold refreshSeenTx
  simp [he]

/-! ## The store after `Add` -/

theorem Add_eq_of_Stores (t : BxTxStore) (hash : SHA256Hash) (content : TxContent)
    (shortID : ShortID) (networkNum : NetworkNum) (flags : TxFlags) (timestamp : Int)
    (sender : Sender) (hs : Stores t hash content shortID timestamp) :
    t.Add hash content shortID networkNum flags timestamp sender =
      ({ t.afterSeenCheck hash with
           hashToContent := Store
             (LoadOrStore t.hashToContent hash (NewBxTransaction hash networkNum flags timestamp)).1
             hash (t.locked hash content shortID networkNum flags timestamp sender).tx,
           shortIDToHash :=
             if (t.locked hash content shortID networkNum flags timestamp sender).result.NewSID
             then Store t.shortIDToHash
               (t.locked hash content shortID networkNum flags timestamp sender).shortID
               (t.locked hash content shortID networkNum flags timestamp sender).tx.hash
             else t.shortIDToHash,
           assigner := (t.locked hash content shortID networkNum flags timestamp sender).assigner },
       .ok (t.locked hash content shortID networkNum flags timestamp sender).result) := by
  rw [Add_of_Stores _ _ _ _ _ _ _ _ hs]
  simp only [locked, loaded, afterSeenCheck_hashToContent, afterSeenCheck_shortIDToHash]

theorem Load_Add (t : BxTxStore) (hash : SHA256Hash) (content : TxContent)
    (shortID : ShortID) (networkNum : NetworkNum) (flags : TxFlags) (timestamp : Int)
    (sender : Sender) (hs : Stores t hash content shortID timestamp) (k : SHA256Hash) :
    Load (t.Add hash content shortID networkNum flags timestamp sender).1.hashToContent k =
      if hash = k then some (t.locked hash content shortID networkNum flags timestamp sender).tx
      else Load t.hashToContent k := by
  rw [Add_eq_of_Stores _ _ _ _ _ _ _ _ hs]
  simp only [Load_Store, Load_LoadOrStore]
  split_ifs <;> rfl

theorem loaded_hash (t : BxTxStore) (hash : SHA256Hash) (networkNum : NetworkNum)
    (flags : TxFlags) (timestamp : Int) (hk : Keyed t) :
    (t.loaded hash networkNum flags timestamp).1.hash = hash := by
  unfold loaded
  cases hl : Load t.hashToContent hash with
  | some w => rw [LoadOrStore_of_some _ _ _ w hl]; exact hk hash w hl
  | none => rw [LoadOrStore_of_none _ _ _ hl]; rfl

theorem loaded_of_some (t : BxTxStore) (hash : SHA256Hash) (networkNum : NetworkNum)
    (flags : TxFlags) (timestamp : Int) (r : BxTransaction)
    (hl : Load t.hashToContent hash = some r) :
    t.loaded hash networkNum flags timestamp = (r, true) := by
  unfold loaded; rw [LoadOrStore_of_some _ _ _ r hl]

theorem loaded_of_none (t : BxTxStore) (hash : SHA256Hash) (networkNum : NetworkNum)
    (flags : TxFlags) (timestamp : Int) (hl : Load t.hashToContent hash = none) :
    t.loaded hash networkNum flags timestamp =
      (NewBxTransaction hash networkNum flags timestamp, false) := by
  unfold loaded; rw [LoadOrStore_of_none _ _ _ hl]

theorem locked_tx_hash (t : BxTxStore) (hash : SHA256Hash) (content : TxContent)
    (shortID : ShortID) (networkNum : NetworkNum) (flags : TxFlags) (timestamp : Int)
    (sender : Sender) (hk : Keyed t) :
    (t.locked hash content shortID networkNum flags timestamp sender).tx.hash = hash := by
  unfold locked
  rw [addLocked_tx_hash, loaded_hash t hash networkNum flags timestamp hk]

theorem Add_clock (t : BxTxStore) (hash : SHA256Hash) (content : TxContent)
    (shortID : ShortID) (networkNum : NetworkNum) (flags : TxFlags) (timestamp : Int)
    (sender : Sender) :
    (t.Add hash content shortID networkNum flags timestamp sender).1.clock = t.clock := by
  by_cases hs : Stores t hash content shortID timestamp
  · rw [Add_eq_of_Stores _ _ _ _ _ _ _ _ hs]
    exact afterSeenCheck_clock t hash
  · rcases Add_of_not_Stores t hash content shortID networkNum flags timestamp sender hs with
      h | h <;> rw [h]
    exact refreshSeenTx_clock t hash

/-! ## The invariants are preserved -/

theorem Inv_remove (t : BxTxStore) (h : SHA256Hash) (p : ReEntryProtectionFlags) (ht : Inv t) :
    Inv (t.remove h p).1 := by
  obtain ⟨hk, hb, hsn⟩ := ht
  cases hl : Load t.hashToContent h with
  | none => rw [remove_of_absent t h p hl]; exact ⟨hk, hb, hsn⟩
  | some r =>
    refine ⟨?_, ?_, ?_⟩
    · intro k r1 h1
      rw [remove_hashToContent, Load_Delete] at h1
      split_ifs at h1
      exact hk k r1 h1
    · intro sid h1 hs
      rw [remove_shortIDToHash t h p r hl, Load_DeleteAll] at hs
      split_ifs at hs with hmem
      obtain ⟨r1, hr1, hin⟩ := hb sid h1 hs
      have hne : h ≠ h1 := by
        intro e; subst e
        rw [hl] at hr1
        cases hr1
        exact hmem hin
      exact ⟨r1, by rw [remove_hashToContent, Load_Delete_ne _ hne]; exact hr1, hin⟩
    · intro k r1 h1
      rw [remove_hashToContent, Load_Delete] at h1
      split_ifs at h1 with hne
      rw [remove_clock, remove_seenTxs t h p r hl]
      have := hsn k r1 h1
      split_ifs <;> simp [Exists_Add, hne, this]

theorem Inv_refreshSeenTx (t : BxTxStore) (h : SHA256Hash) (ht : Inv t) :
    Inv (t.refreshSeenTx h).1 := by
  obtain ⟨hk, hb, hsn⟩ := ht
  refine ⟨?_, ?_, ?_⟩
  · intro k r h1
    rw [refreshSeenTx_hashToContent] at h1
    exact hk k r h1
  · intro sid h1 hs
    rw [refreshSeenTx_shortIDToHash] at hs
    rw [refreshSeenTx_hashToContent]
    exact hb sid h1 hs
  · intro k r h1
    rw [refreshSeenTx_hashToContent] at h1
    rw [refreshSeenTx_clock]
    by_cases hne : h = k
    · subst hne
      rw [refreshSeenTx_of_not_Exists t h (hsn h r h1)]
      exact hsn h r h1
    · rw [refreshSeenTx_Exists_ne t h k _ hne]
      exact hsn k r h1

theorem Inv_Add (t : BxTxStore) (hash : SHA256Hash) (content : TxContent)
    (shortID : ShortID) (networkNum : NetworkNum) (flags : TxFlags) (timestamp : Int)
    (sender : Sender) (ht : Inv t) :
    Inv (t.Add hash content shortID networkNum flags timestamp sender).1 := by
  by_cases hs : Stores t hash content shortID timestamp
  · obtain ⟨hk, hb, hsn⟩ := ht
    have hh := locked_tx_hash t hash content shortID networkNum flags timestamp sender hk
    refine ⟨?_, ?_, ?_⟩
    · intro k r h1
      rw [Load_Add _ _ _ _ _ _ _ _ hs] at h1
      split_ifs at h1 with he
      · cases h1; rw [hh]; exact he
      · exact hk k r h1
    · intro sid h1 hl
      have key : ∀ h2, Load t.shortIDToHash sid = some h2 →
          ∃ r, Load (t.Add hash content shortID networkNum flags timestamp sender).1.hashToContent
            h2 = some r ∧ sid ∈ r.shortIDs := by
        intro h2 hl2
        obtain ⟨r1, hr1, hin⟩ := hb sid h2 hl2
        rw [Load_Add _ _ _ _ _ _ _ _ hs]
        by_cases he : hash = h2
        · subst he
          refine ⟨_, if_pos rfl, ?_⟩
          unfold locked
          apply addLocked_shortIDs_mono
          rw [loaded_of_some t hash networkNum flags timestamp r1 hr1]
          exact hin
        · exact ⟨r1, by simp [he, hr1], hin⟩
      rw [Add_eq_of_Stores _ _ _ _ _ _ _ _ hs] at hl
      simp only [] at hl
      split_ifs at hl with hn
      · rw [Load_Store] at hl
        split_ifs at hl with he
        · cases hl
          rw [hh, Load_Add _ _ _ _ _ _ _ _ hs]
          refine ⟨_, if_pos rfl, ?_⟩
          rw [← he]
          exact (addLocked_newSID _ _ _ _ _ _ _ _ hn).1
        · exact key h1 hl
      · exact key h1 hl
    · intro k r h1
      rw [Load_Add _ _ _ _ _ _ _ _ hs] at h1
      rw [Add_clock]
      rw [Add_eq_of_Stores _ _ _ _ _ _ _ _ hs]
      simp only []
      split_ifs at h1 with he
      · subst he; exact afterSeenCheck_Exists_self t hash
      · rw [afterSeenCheck_Exists_ne t hash k _ he]
        exact hsn k r h1
  · rcases Add_of_not_Stores t hash content shortID networkNum flags timestamp sender hs with
      h | h <;> rw [h]
    · exact ht
    · exact Inv_refreshSeenTx t hash ht

theorem Inv_channel (t : BxTxStore) (ch : Option (List ShortIDsByNetwork)) (ht : Inv t) :
    Inv { t with cleanedShortIDsChannel := ch } := ht

theorem Inv_Clear (t : BxTxStore) (_ht : Inv t) : Inv t.Clear := by
  refine ⟨?_, ?_, ?_⟩
  · intro k r h1; simp [Clear, Load] at h1
  · intro sid h1 hs; simp [Clear, Load] at hs
  · intro k r h1; simp [Clear, Load] at h1

theorem Inv_tick (t : BxTxStore) (d : Nat) (ht : Inv t) :
    Inv { t with clock := t.clock + d } := by
  obtain ⟨hk, hb, hsn⟩ := ht
  exact ⟨hk, hb, fun k r h1 => Exists_later _ _ _ _ (hsn k r h1)⟩

theorem Inv_step (t : BxTxStore) (op : Op) (ht : Inv t) : Inv (step t op).1 :=
  step_preserves Inv (fun _ => True)
    (fun t hash content shortID networkNum flags timestamp sender _ ht =>
      Inv_Add t hash content shortID networkNum flags timestamp sender ht)
    Inv_refreshSeenTx Inv_remove Inv_channel Inv_Clear Inv_tick t op trivial ht

theorem Reachable_of_step (t0 t : BxTxStore) (op : Op) (hr : Reachable t0 t)
    (hs : (step t op).2 = none) : Reachable t0 (step t op).1 :=
  Reachable.next op hr (Prod.ext rfl hs)

theorem Inv_of_IsEmpty (t : BxTxStore) (h : IsEmpty t) : Inv t := by
  obtain ⟨h1, h2⟩ := h
  refine ⟨?_, ?_, ?_⟩
  · intro k r hl; simp [h1, Load] at hl
  · intro sid h3 hs; simp [h2, Load] at hs
  · intro k r hl; simp [h1, Load] at hl

theorem Inv_of_Reachable (t0 t : BxTxStore) (h0 : IsEmpty t0) (hr : Reachable t0 t) : Inv t :=
  Reachable_preserves Inv Inv_step t0 t (Inv_of_IsEmpty t0 h0) hr

/-! ## Re-entry suppression after a removal with full protection -/

theorem refreshSeenTx_timeToAvoidReEntry (t : BxTxStore) (h : SHA256Hash) :
    (t.refreshSeenTx h).1.timeToAvoidReEntry = t.timeToAvoidReEntry := by
  unfold refreshSeenTx; split_ifs <;> rfl

theorem remove_timeToAvoidReEntry (t : BxTxStore) (h : SHA256Hash)
    (p : ReEntryProtectionFlags) :
    (t.remove h p).1.timeToAvoidReEntry = t.timeToAvoidReEntry := by
  cases hl : Load t.hashToContent h with
  | none => rw [remove_of_absent t h p hl]
  | some r =>
    simp only [remove, LoadAndDelete, hl]
    split_ifs <;> (try split) <;> rfl

theorem afterSeenCheck_timeToAvoidReEntry (t : BxTxStore) (h : SHA256Hash) :
    (t.afterSeenCheck h).timeToAvoidReEntry = t.timeToAvoidReEntry := by
  unfold afterSeenCheck; split_ifs <;> simp [refreshSeenTx_timeToAvoidReEntry]

theorem Add_timeToAvoidReEntry (t : BxTxStore) (hash : SHA256Hash) (content : TxContent)
    (shortID : ShortID) (networkNum : NetworkNum) (flags : TxFlags) (timestamp : Int)
    (sender : Sender) :
    (t.Add hash content shortID networkNum flags timestamp sender).1.timeToAvoidReEntry =
      t.timeToAvoidReEntry := by
  by_cases hs : Stores t hash content shortID timestamp
  · rw [Add_eq_of_Stores _ _ _ _ _ _ _ _ hs]
    exact afterSeenCheck_timeToAvoidReEntry t hash
  · rcases Add_of_not_Stores t hash content shortID networkNum flags timestamp sender hs with
      h | h <;> rw [h]
    exact refreshSeenTx_timeToAvoidReEntry t hash

theorem refreshSeenTx_Exists_self (t : BxTxStore) (h : SHA256Hash) (now : Int)
    (he : t.seenTxs.Exists t.clock h = true) :
    (t.refreshSeenTx h).1.seenTxs.Exists now h =
      decide (now < t.clock + t.timeToAvoidReEntry) := by
  unfold refreshSeenTx
  simp [he, Exists_Add]

theorem Suppressed_refreshSeenTx (hash : SHA256Hash) (tRem ttl : Int) (t : BxTxStore)
    (h : SHA256Hash) (ht : Suppressed hash tRem ttl t) :
    Suppressed hash tRem ttl (t.refreshSeenTx h).1 := by
  obtain ⟨h1, h2, h3⟩ := ht
  refine ⟨by rw [refreshSeenTx_timeToAvoidReEntry]; exact h1,
    by rw [refreshSeenTx_clock]; exact h2, ?_⟩
  rw [refreshSeenTx_clock, refreshSeenTx_hashToContent]
  intro hc
  obtain ⟨h4, h5⟩ := h3 hc
  refine ⟨h4, ?_⟩
  intro now hnow
  by_cases he : h = hash
  · subst he
    rw [refreshSeenTx_Exists_self t h now (h5 t.clock hc), h1]
    simp only [decide_eq_true_eq]
    omega
  · rw [refreshSeenTx_Exists_ne t h hash now he]
    exact h5 now hnow

theorem Suppressed_remove (hash : SHA256Hash) (tRem ttl : Int) (t : BxTxStore)
    (h : SHA256Hash) (p : ReEntryProtectionFlags) (ht : Suppressed hash tRem ttl t) :
    Suppressed hash tRem ttl (t.remove h p).1 := by
  obtain ⟨h1, h2, h3⟩ := ht
  refine ⟨by rw [remove_timeToAvoidReEntry]; exact h1, by rw [remove_clock]; exact h2, ?_⟩
  rw [remove_clock, remove_hashToContent]
  intro hc
  obtain ⟨h4, h5⟩ := h3 hc
  refine ⟨by rw [Load_Delete]; split_ifs <;> simp [h4], ?_⟩
  intro now hnow
  cases hl : Load t.hashToContent h with
  | none => rw [remove_seenTxs_of_absent t h p hl]; exact h5 now hnow
  | some r =>
    have hne : h ≠ hash := by
      intro e; subst e; rw [h4] at hl; cases hl
    rw [remove_seenTxs t h p r hl]
    split_ifs <;> simp [Exists_Add, hne, h5 now hnow]

theorem Suppressed_Add (hash : SHA256Hash) (tRem ttl : Int) (t : BxTxStore) (h : SHA256Hash)
    (content : TxContent) (shortID : ShortID) (networkNum : NetworkNum) (flags : TxFlags)
    (timestamp : Int) (sender : Sender)
    (hop : NotAddWithShortID hash (.add h content shortID networkNum flags timestamp sender))
    (ht : Suppressed hash tRem ttl t) :
    Suppressed hash tRem ttl (t.Add h content shortID networkNum flags timestamp sender).1 := by
  by_cases hs : Stores t h content shortID timestamp
  · obtain ⟨h1, h2, h3⟩ := ht
    refine ⟨by rw [Add_timeToAvoidReEntry]; exact h1, by rw [Add_clock]; exact h2, ?_⟩
    rw [Add_clock]
    intro hc
    obtain ⟨h4, h5⟩ := h3 hc
    have hne : h ≠ hash := by
      intro e; subst e
      rcases hop with hop | hop
      · exact hop rfl
      · apply hs.2.2
        exact ⟨by rw [refreshSeenTx_snd]; exact h5 t.clock hc, hop⟩
    refine ⟨by rw [Load_Add _ _ _ _ _ _ _ _ hs, if_neg hne]; exact h4, ?_⟩
    intro now hnow
    rw [Add_eq_of_Stores _ _ _ _ _ _ _ _ hs]
    simp only []
    rw [afterSeenCheck_Exists_ne t h hash now hne]
    exact h5 now hnow
  · rcases Add_of_not_Stores t h content shortID networkNum flags timestamp sender hs with
      e | e <;> rw [e]
    · exact ht
    · exact Suppressed_refreshSeenTx hash tRem ttl t h ht

theorem Suppressed_step (hash : SHA256Hash) (tRem ttl : Int) (t : BxTxStore) (op : Op)
    (hop : NotAddWithShortID hash op) (ht : Suppressed hash tRem ttl t) :
    Suppressed hash tRem ttl (step t op).1 := by
  refine step_preserves (Suppressed hash tRem ttl) (NotAddWithShortID hash)
    (fun t h content shortID networkNum flags timestamp sender hop ht =>
      Suppressed_Add hash tRem ttl t h content shortID networkNum flags timestamp sender hop ht)
    (Suppressed_refreshSeenTx hash tRem ttl) (Suppressed_remove hash tRem ttl)
    (fun t ch ht => ht) ?_ ?_ t op hop ht
  · intro t ht
    obtain ⟨h1, h2, h3⟩ := ht
    exact ⟨h1, h2, fun hc => ⟨by simp [Clear, Load], (h3 hc).2⟩⟩
  · intro t d ht
    obtain ⟨h1, h2, h3⟩ := ht
    refine ⟨h1, ?_, ?_⟩
    · show tRem ≤ t.clock + d
      omega
    · intro hc
      have hc1 : t.clock + (d : Int) < tRem + ttl := hc
      exact h3 (by omega)

theorem RemoveHashes_singleton (t : BxTxStore) (h : SHA256Hash) (p : ReEntryProtectionFlags) :
    t.RemoveHashes [h] p = t.remove h p := by
  unfold RemoveHashes
  cases hr : t.remove h p with
  | mk t1 o =>
    cases o with
    | none => simp [RemoveHashes]
    | some f => rfl

/-- After the removal of a stored hash with full protection the hash is
suppressed until `clock + timeToAvoidReEntry`. -/
theorem Suppressed_after_remove (t : BxTxStore) (hash : SHA256Hash) (r : BxTransaction)
    (hl : Load t.hashToContent hash = some r) :
    Suppressed hash t.clock t.timeToAvoidReEntry (t.remove hash FullReEntryProtection).1 := by
  refine ⟨remove_timeToAvoidReEntry _ _ _, by rw [remove_clock], ?_⟩
  intro _
  refine ⟨by rw [remove_hashToContent, Load_Delete_self], ?_⟩
  intro now hnow
  rw [remove_seenTxs t hash _ r hl]
  simp [full_ne_short, Exists_Add, hnow]

/-- A suppressed hash offered without short ID, with content and a fresh
timestamp, is reported as already seen. -/
theorem Add_of_Suppressed (hash : SHA256Hash) (tRem ttl : Int) (t : BxTxStore)
    (ht : Suppressed hash tRem ttl t) (hwin : t.clock < tRem + ttl) (content : TxContent)
    (networkNum : NetworkNum) (flags : TxFlags) (timestamp : Int) (sender : Sender)
    (hc : content.length > 0) (hnew : ¬ (Time.Sub t.clock timestamp > t.maxTxAge)) :
    ∃ res, (t.Add hash content ShortIDEmpty networkNum flags timestamp sender).2 = .ok res ∧
      res.AlreadySeen = true := by
  have hpre : ¬ (ShortIDEmpty = ShortIDEmpty ∧ content.length = 0) := by
    intro h; omega
  have hs : (t.refreshSeenTx hash).2 = true ∧ ShortIDEmpty = ShortIDEmpty :=
    ⟨by rw [refreshSeenTx_snd]; exact (ht.2.2 hwin).2 t.clock hwin, rfl⟩
  rw [Add_of_suppressed t hash content ShortIDEmpty networkNum flags timestamp sender hpre hnew hs]
  exact ⟨_, rfl, rfl⟩

/-! ## An `Add` that carries a short ID -/

theorem mints_of_shortID (bx : BxTransaction) (n : Bool) (s : ShortID) (f : TxFlags)
    (hX : s ≠ ShortIDEmpty) : mints bx n s f = false := by
  unfold mints; simp [hX]

theorem boundShortID_of_shortID (t : BxTxStore) (bx : BxTransaction) (n : Bool) (s : ShortID)
    (f : TxFlags) (hX : s ≠ ShortIDEmpty) : boundShortID t bx n s f = s := by
  unfold boundShortID; simp [mints_of_shortID bx n s f hX]

theorem AddShortID_mem (bt : BxTransaction) (s : ShortID) (hX : s ≠ ShortIDEmpty) :
    s ∈ (bt.AddShortID s).1.shortIDs := by
  unfold BxTransaction.AddShortID
  rw [if_neg hX]
  split_ifs with h
  · exact h
  · simp

theorem addLocked_AlreadySeen_of_shortID (t : BxTxStore) (bx : BxTransaction) (n : Bool)
    (h : SHA256Hash) (c : TxContent) (s : ShortID) (f : TxFlags) (snd : Sender)
    (hX : s ≠ ShortIDEmpty) : (t.addLocked bx n h c s f snd).result.AlreadySeen = false := by
  unfold addLocked
  simp only []
  cases t.bloom <;> simp [hX]

theorem addLocked_NewTx (t : BxTxStore) (bx : BxTransaction) (n : Bool)
    (h : SHA256Hash) (c : TxContent) (s : ShortID) (f : TxFlags) (snd : Sender) :
    (t.addLocked bx n h c s f snd).result.NewTx = n := rfl

theorem Stores_of_shortID (t : BxTxStore) (hash : SHA256Hash) (content : TxContent)
    (shortID : ShortID) (timestamp : Int) (hX : shortID ≠ ShortIDEmpty)
    (hnew : ¬ (Time.Sub t.clock timestamp > t.maxTxAge)) : Stores t hash content shortID timestamp :=
  ⟨fun h => hX h.1, hnew, fun h => hX h.2⟩

/-- An `Add` that carries a short ID and is not too old, in a state where records
are stored under their hash: the report, the record and the history. -/
theorem Add_with_shortID (t : BxTxStore) (hk : Keyed t) (hash : SHA256Hash)
    (content : TxContent) (X : ShortID) (networkNum : NetworkNum) (flags : TxFlags)
    (timestamp : Int) (sender : Sender) (hX : X ≠ ShortIDEmpty)
    (hnew : ¬ (Time.Sub t.clock timestamp > t.maxTxAge)) :
    ∃ res r, (t.Add hash content X networkNum flags timestamp sender).2 = .ok res ∧
      res.AlreadySeen = false ∧ res.Transaction = some r ∧
      Load (t.Add hash content X networkNum flags timestamp sender).1.hashToContent hash =
        some r ∧
      r.hash = hash ∧ X ∈ r.shortIDs ∧
      (res.NewSID = true →
        Load (t.Add hash content X networkNum flags timestamp sender).1.shortIDToHash X =
          some hash) ∧
      (Load t.hashToContent hash = none → res.NewTx = true ∧ res.NewSID = true) ∧
      (t.Add hash content X networkNum flags timestamp sender).1.seenTxs.Exists
        (t.Add hash content X networkNum flags timestamp sender).1.clock hash = false := by
  have hs := Stores_of_shortID t hash content X timestamp hX hnew
  have hh := locked_tx_hash t hash content X networkNum flags timestamp sender hk
  have hb : (t.locked hash content X networkNum flags timestamp sender).shortID = X := by
    unfold locked; rw [addLocked_shortID, boundShortID_of_shortID _ _ _ _ _ hX]
  refine ⟨(t.locked hash content X networkNum flags timestamp sender).result,
    (t.locked hash content X networkNum flags timestamp sender).tx, ?_, ?_, ?_, ?_, hh, ?_, ?_,
    ?_, ?_⟩
  · rw [Add_eq_of_Stores _ _ _ _ _ _ _ _ hs]
  · unfold locked; exact addLocked_AlreadySeen_of_shortID _ _ _ _ _ _ _ _ hX
  · unfold locked; exact addLocked_result_tx _ _ _ _ _ _ _ _
  · rw [Load_Add _ _ _ _ _ _ _ _ hs, if_pos rfl]
  · unfold locked
    rw [addLocked_tx_shortIDs, boundShortID_of_shortID _ _ _ _ _ hX]
    exact AddShortID_mem _ X hX
  · intro hn
    rw [Add_eq_of_Stores _ _ _ _ _ _ _ _ hs]
    simp only [hn, if_true, hb, hh, Load_Store_self]
  · intro hl
    have hld := loaded_of_none t hash networkNum flags timestamp hl
    unfold locked
    rw [addLocked_NewTx, addLocked_NewSID, boundShortID_of_shortID _ _ _ _ _ hX, hld]
    refine ⟨rfl, ?_⟩
    simp only []
    unfold BxTransaction.AddShortID
    rw [if_neg hX, flagsUpdated_shortIDs]
    simp [NewBxTransaction]
  · rw [Add_clock, Add_eq_of_Stores _ _ _ _ _ _ _ _ hs]
    exact afterSeenCheck_Exists_self t hash

/-! ## Look-ups right after an `Add` that bound a short ID -/

theorem addLocked_AssignedShortID (t : BxTxStore) (bx : BxTransaction) (n : Bool)
    (h : SHA256Hash) (c : TxContent) (s : ShortID) (f : TxFlags) (snd : Sender) :
    (t.addLocked bx n h c s f snd).result.AssignedShortID =
      if mints bx n s f = true then boundShortID t bx n s f else ShortIDEmpty := rfl

/-- The short ID bound by the locked section, read off the report: the assigned
one if there is one, the supplied one otherwise. -/
theorem addLocked_bound_of_NewSID (t : BxTxStore) (bx : BxTransaction) (n : Bool)
    (h : SHA256Hash) (c : TxContent) (s : ShortID) (f : TxFlags) (snd : Sender)
    (hn : (t.addLocked bx n h c s f snd).result.NewSID = true) :
    (if (t.addLocked bx n h c s f snd).result.AssignedShortID = ShortIDEmpty then s
      else (t.addLocked bx n h c s f snd).result.AssignedShortID) =
      (t.addLocked bx n h c s f snd).shortID := by
  have h1 := (addLocked_newSID t bx n h c s f snd hn).2
  rw [addLocked_shortID] at h1 ⊢
  rw [addLocked_AssignedShortID]
  by_cases hm : mints bx n s f = true
  · rw [if_pos hm, if_neg h1]
  · rw [if_neg hm, if_pos rfl]
    unfold boundShortID
    rw [if_neg hm]

theorem Stores_of_NewSID (t : BxTxStore) (hash : SHA256Hash) (content : TxContent)
    (shortID : ShortID) (networkNum : NetworkNum) (flags : TxFlags) (timestamp : Int)
    (sender : Sender) (res : TransactionResult)
    (hres : (t.Add hash content shortID networkNum flags timestamp sender).2 = .ok res)
    (hn : res.NewSID = true) : Stores t hash content shortID timestamp := by
  by_contra hs
  unfold Stores at hs
  unfold Add at hres
  by_cases h1 : shortID = ShortIDEmpty ∧ content.length = 0
  · rw [if_pos h1] at hres; cases hres
  · rw [if_neg h1] at hres
    by_cases h2 : Time.Sub t.clock timestamp > t.maxTxAge
    · rw [if_pos h2] at hres
      cases hres
      cases hn
    · rw [if_neg h2] at hres
      by_cases h3 : (t.refreshSeenTx hash).2 = true ∧ shortID = ShortIDEmpty
      · simp only [if_pos h3] at hres
        cases hres
        cases hn
      · exact hs ⟨h1, h2, h3⟩

/-- After an `Add` that reports `NewSID` in a state where records are stored
under their hash, the short ID bound leads to the record returned, which has
the given hash and is what `Get` returns. -/
theorem lookups_after_NewSID (t : BxTxStore) (hk : Keyed t) (hash : SHA256Hash)
    (content : TxContent) (shortID : ShortID) (networkNum : NetworkNum) (flags : TxFlags)
    (timestamp : Int) (sender : Sender) (res : TransactionResult)
    (hres : (t.Add hash content shortID networkNum flags timestamp sender).2 = .ok res)
    (hn : res.NewSID = true) :
    ∃ r, res.Transaction = some r ∧
      (t.Add hash content shortID networkNum flags timestamp sender).1.GetTxByShortID
        (if res.AssignedShortID = ShortIDEmpty then shortID else res.AssignedShortID) = .ok r ∧
      r.hash = hash ∧
      (t.Add hash content shortID networkNum flags timestamp sender).1.Get hash =
        ((t.Add hash content shortID networkNum flags timestamp sender).1, some r, true) := by
  have hs := Stores_of_NewSID t hash content shortID networkNum flags timestamp sender res hres hn
  have hh := locked_tx_hash t hash content shortID networkNum flags timestamp sender hk
  have hl := Load_Add t hash content shortID networkNum flags timestamp sender hs hash
  rw [if_pos rfl] at hl
  have hres1 : res = (t.locked hash content shortID networkNum flags timestamp sender).result := by
    rw [Add_eq_of_Stores _ _ _ _ _ _ _ _ hs] at hres
    cases hres; rfl
  have hn1 : (t.locked hash content shortID networkNum flags timestamp sender).result.NewSID
      = true := by rw [← hres1]; exact hn
  have hsid : (if res.AssignedShortID = ShortIDEmpty then shortID else res.AssignedShortID) =
      (t.locked hash content shortID networkNum flags timestamp sender).shortID := by
    rw [hres1]; unfold locked at hn1 ⊢
    exact addLocked_bound_of_NewSID _ _ _ _ _ _ _ _ hn1
  have hidx : Load (t.Add hash content shortID networkNum flags timestamp sender).1.shortIDToHash
      (t.locked hash content shortID networkNum flags timestamp sender).shortID = some hash := by
    rw [Add_eq_of_Stores _ _ _ _ _ _ _ _ hs]
    simp only [hn1, if_true, hh, Load_Store_self]
  have hex : (t.Add hash content shortID networkNum flags timestamp sender).1.seenTxs.Exists
      (t.Add hash content shortID networkNum flags timestamp sender).1.clock hash = false := by
    rw [Add_clock, Add_eq_of_Stores _ _ _ _ _ _ _ _ hs]
    exact afterSeenCheck_Exists_self t hash
  refine ⟨(t.locked hash content shortID networkNum flags timestamp sender).tx, ?_, ?_, hh, ?_⟩
  · rw [hres1]; unfold locked; exact addLocked_result_tx _ _ _ _ _ _ _ _
  · rw [hsid]
    unfold GetTxByShortID
    rw [hidx]
    simp only [hl]
  · unfold Get
    rw [refreshSeenTx_of_not_Exists _ hash hex]
    simp only [hl]

/-! ## The bloom filter after `remove` -/

theorem remove_bloom (t : BxTxStore) (h : SHA256Hash) (p : ReEntryProtectionFlags)
    (r : BxTransaction) (hl : Load t.hashToContent h = some r) :
    (t.remove h p).1.bloom =
      if p = ShortReEntryProtection ∨ p = FullReEntryProtection then
        t.bloom.map (fun b => b.Add h)
      else t.bloom := by
  simp only [remove, LoadAndDelete, hl]
  by_cases h0 : p = NoReEntryProtection
  · subst h0
    simp [Ne.symm short_ne_no, Ne.symm full_ne_no]
  · by_cases h1 : p = ShortReEntryProtection
    · subst h1
      simp only [short_ne_no, if_true, if_false, true_or]
      cases hb : t.bloom <;> simp
    · by_cases h2 : p = FullReEntryProtection
      · subst h2
        simp only [full_ne_no, full_ne_short, if_true, if_false, or_true]
        cases hb : t.bloom <;> simp
      · simp [h0, h1, h2]

theorem Check_Add_self (b : BloomFilter) (h : SHA256Hash) : (b.Add h).Check h = true := by
  simp [BloomFilter.Check, BloomFilter.Add]

/-! ## Misuse of `Add` -/

theorem Add_of_badUsage (t : BxTxStore) (hash : SHA256Hash) (content : TxContent)
    (shortID : ShortID) (networkNum : NetworkNum) (flags : TxFlags) (timestamp : Int)
    (sender : Sender) (h : shortID = ShortIDEmpty ∧ content.length = 0) :
    t.Add hash content shortID networkNum flags timestamp sender = (t, .error Fault.badUsage) := by
  unfold Add; rw [if_pos h]

theorem Add_returns (t : BxTxStore) (hash : SHA256Hash) (content : TxContent)
    (shortID : ShortID) (networkNum : NetworkNum) (flags : TxFlags) (timestamp : Int)
    (sender : Sender) (h : ¬ (shortID = ShortIDEmpty ∧ content.length = 0)) :
    ∃ res, (t.Add hash content shortID networkNum flags timestamp sender).2 = .ok res := by
  unfold Add
  rw [if_neg h]
  by_cases h2 : Time.Sub t.clock timestamp > t.maxTxAge
  · rw [if_pos h2]; exact ⟨_, rfl⟩
  · rw [if_neg h2]
    by_cases h3 : (t.refreshSeenTx hash).2 = true ∧ shortID = ShortIDEmpty
    · simp only [if_pos h3]; exact ⟨_, rfl⟩
    · simp only [if_neg h3]; exact ⟨_, rfl⟩

/-! ## The flag bits -/

theorem and_two_pow_ne_zero (f k : Nat) : (f &&& 2 ^ k != 0) = f.testBit k := by
  cases h : f.testBit k with
  | true =>
    simp only [bne_iff_ne, ne_eq]
    intro h0
    have h1 : (f &&& 2 ^ k).testBit k = true := by
      rw [Nat.testBit_and, h, Nat.testBit_two_pow_self]; rfl
    rw [h0] at h1
    simp at h1
  | false =>
    have h0 : f &&& 2 ^ k = 0 := by
      apply Nat.eq_of_testBit_eq
      intro i
      rw [Nat.testBit_and, Nat.testBit_two_pow, Nat.zero_testBit]
      by_cases hi : k = i
      · subst hi; simp [h]
      · simp [hi]
    simp [h0]

theorem IsPaid_eq (f : TxFlags) : TxFlags.IsPaid f = Nat.testBit f 1 :=
  and_two_pow_ne_zero f 1

theorem ShouldDeliverToNode_eq (f : TxFlags) : TxFlags.ShouldDeliverToNode f = Nat.testBit f 8 :=
  and_two_pow_ne_zero f 8

theorem IsValidatorsOnly_eq (f : TxFlags) : TxFlags.IsValidatorsOnly f = Nat.testBit f 9 :=
  and_two_pow_ne_zero f 9

theorem IsNextValidator_eq (f : TxFlags) : TxFlags.IsNextValidator f = Nat.testBit f 11 :=
  and_two_pow_ne_zero f 11

theorem testBit_TFPaidTx (i : Nat) : Nat.testBit TFPaidTx i = decide (1 = i) :=
  @Nat.testBit_two_pow 1 i

theorem testBit_TFDeliverToNode (i : Nat) : Nat.testBit TFDeliverToNode i = decide (8 = i) :=
  @Nat.testBit_two_pow 8 i

/-- The flags after the two flag updates: the flags of the record together with
the `Paid` and `DeliverToNode` bits of the incoming flags. -/
theorem flagsUpdated_flags (bx : BxTransaction) (f : TxFlags) :
    (flagsUpdated bx f).flags = bx.flags ||| (f &&& (TFPaidTx ||| TFDeliverToNode)) := by
  apply Nat.eq_of_testBit_eq
  intro i
  unfold flagsUpdated
  simp only [IsPaid_eq, ShouldDeliverToNode_eq, BxTransaction.AddFlags]
  by_cases h1 : i = 1
  · subst h1
    cases ha : Nat.testBit bx.flags 1 <;> cases hb : Nat.testBit f 1 <;>
      split_ifs <;>
      simp_all [Nat.testBit_or, Nat.testBit_and, testBit_TFPaidTx, testBit_TFDeliverToNode]
  · by_cases h8 : i = 8
    · subst h8
      cases ha : Nat.testBit bx.flags 8 <;> cases hb : Nat.testBit f 8 <;>
        split_ifs <;>
        simp_all [Nat.testBit_or, Nat.testBit_and, testBit_TFPaidTx, testBit_TFDeliverToNode]
    · have e1 : ¬ (1 = i) := fun e => h1 e.symm
      have e8 : ¬ (8 = i) := fun e => h8 e.symm
      split_ifs <;>
        simp [Nat.testBit_or, Nat.testBit_and, testBit_TFPaidTx, testBit_TFDeliverToNode, e1, e8]

theorem flagsUpdated_sender (bx : BxTransaction) (f : TxFlags) :
    (flagsUpdated bx f).sender = bx.sender := by
  unfold flagsUpdated; simp only []; split_ifs <;> rfl

/-- A record that carries the incoming flags is left alone by the flag updates. -/
theorem flagsUpdated_of_flags_eq (bx : BxTransaction) (f : TxFlags) (h : bx.flags = f) :
    flagsUpdated bx f = bx := by
  subst h
  unfold flagsUpdated
  simp

/-! ## The report and the record of the locked section -/

theorem AddShortID_flags (bt : BxTransaction) (s : ShortID) :
    (bt.AddShortID s).1.flags = bt.flags := by
  unfold BxTransaction.AddShortID; split_ifs <;> rfl

theorem AddShortID_content (bt : BxTransaction) (s : ShortID) :
    (bt.AddShortID s).1.content = bt.content := by
  unfold BxTransaction.AddShortID; split_ifs <;> rfl

theorem AddShortID_sender (bt : BxTransaction) (s : ShortID) :
    (bt.AddShortID s).1.sender = bt.sender := by
  unfold BxTransaction.AddShortID; split_ifs <;> rfl

theorem SetContent_flags (bt : BxTransaction) (c : TxContent) :
    (bt.SetContent c).1.flags = bt.flags := by
  unfold BxTransaction.SetContent; split_ifs <;> rfl

theorem SetContent_sender (bt : BxTransaction) (c : TxContent) :
    (bt.SetContent c).1.sender = bt.sender := by
  unfold BxTransaction.SetContent; split_ifs <;> rfl

theorem SetContent_snd (bt : BxTransaction) (c : TxContent) :
    (bt.SetContent c).2 = decide (bt.content.length = 0 ∧ c.length > 0) := by
  unfold BxTransaction.SetContent
  split_ifs with h
  · exact (decide_eq_true h).symm
  · exact (decide_eq_false h).symm

theorem SetContent_content (bt : BxTransaction) (c : TxContent) :
    (bt.SetContent c).1.content = if (bt.SetContent c).2 = true then c else bt.content := by
  unfold BxTransaction.SetContent; split_ifs <;> simp_all

theorem addLocked_Reprocess (t : BxTxStore) (bx : BxTransaction) (n : Bool) (h : SHA256Hash)
    (c : TxContent) (s : ShortID) (f : TxFlags) (snd : Sender) :
    (t.addLocked bx n h c s f snd).result.Reprocess =
      ((f.IsPaid && !bx.flags.IsPaid) ||
        (f.ShouldDeliverToNode && !bx.flags.ShouldDeliverToNode)) := by
  unfold addLocked
  simp only [IsPaid_eq, ShouldDeliverToNode_eq, BxTransaction.AddFlags]
  cases ha : Nat.testBit bx.flags 1 <;> cases hb : Nat.testBit f 1 <;>
    cases hc : Nat.testBit bx.flags 8 <;> cases hd : Nat.testBit f 8 <;>
    simp [Nat.testBit_or, testBit_TFPaidTx, hc]

theorem addLocked_AlreadySeen (t : BxTxStore) (bx : BxTransaction) (n : Bool) (h : SHA256Hash)
    (c : TxContent) (s : ShortID) (f : TxFlags) (snd : Sender) :
    (t.addLocked bx n h c s f snd).result.AlreadySeen =
      match t.bloom with
      | some b => decide (s = ShortIDEmpty) &&
          !(t.addLocked bx n h c s f snd).result.Reprocess && n && b.Check h
      | none => false := rfl

theorem addLocked_assigner (t : BxTxStore) (bx : BxTransaction) (n : Bool) (h : SHA256Hash)
    (c : TxContent) (s : ShortID) (f : TxFlags) (snd : Sender) :
    (t.addLocked bx n h c s f snd).assigner =
      if mints bx n s f = true then t.assigner.Next.2 else t.assigner := rfl

theorem addLocked_NewContent (t : BxTxStore) (bx : BxTransaction) (n : Bool) (h : SHA256Hash)
    (c : TxContent) (s : ShortID) (f : TxFlags) (snd : Sender) :
    (t.addLocked bx n h c s f snd).result.NewContent =
      decide (bx.content.length = 0 ∧ c.length > 0) := by
  show ((((flagsUpdated bx f).AddShortID (boundShortID t bx n s f)).1).SetContent c).2 = _
  rw [SetContent_snd, AddShortID_content, flagsUpdated_content]

theorem addLocked_tx_flags (t : BxTxStore) (bx : BxTransaction) (n : Bool) (h : SHA256Hash)
    (c : TxContent) (s : ShortID) (f : TxFlags) (snd : Sender) :
    (t.addLocked bx n h c s f snd).tx.flags =
      bx.flags ||| (f &&& (TFPaidTx ||| TFDeliverToNode)) := by
  rw [addLocked_tx, ← flagsUpdated_flags]
  split_ifs <;> simp [BxTransaction.SetSender, SetContent_flags, AddShortID_flags]

theorem addLocked_tx_content (t : BxTxStore) (bx : BxTransaction) (n : Bool) (h : SHA256Hash)
    (c : TxContent) (s : ShortID) (f : TxFlags) (snd : Sender) :
    (t.addLocked bx n h c s f snd).tx.content =
      if (t.addLocked bx n h c s f snd).result.NewContent = true then c else bx.content := by
  have hn : (t.addLocked bx n h c s f snd).result.NewContent =
      ((((flagsUpdated bx f).AddShortID (boundShortID t bx n s f)).1).SetContent c).2 := rfl
  rw [hn, addLocked_tx]
  split_ifs with h1
  · simp only [BxTransaction.SetSender]
    rw [SetContent_content, if_pos h1]
  · rw [SetContent_content, if_neg h1, AddShortID_content, flagsUpdated_content]

theorem addLocked_tx_sender (t : BxTxStore) (bx : BxTransaction) (n : Bool) (h : SHA256Hash)
    (c : TxContent) (s : ShortID) (f : TxFlags) (snd : Sender) :
    (t.addLocked bx n h c s f snd).tx.sender =
      if (t.addLocked bx n h c s f snd).result.NewContent = true then snd else bx.sender := by
  have hn : (t.addLocked bx n h c s f snd).result.NewContent =
      ((((flagsUpdated bx f).AddShortID (boundShortID t bx n s f)).1).SetContent c).2 := rfl
  rw [hn, addLocked_tx]
  split_ifs with h1
  · rfl
  · rw [SetContent_sender, AddShortID_sender, flagsUpdated_sender]

theorem mints_of_not_newTx (bx : BxTransaction) (s : ShortID) (f : TxFlags) :
    mints bx false s f = false := by
  unfold mints; simp

/-- On a record just created with the incoming flags the minting guard reads the
incoming flags. -/
theorem mints_of_fresh (bx : BxTransaction) (s : ShortID) (f : TxFlags) (h : bx.flags = f) :
    mints bx true s f =
      (decide (s = ShortIDEmpty) && !f.IsValidatorsOnly && !f.IsNextValidator) := by
  unfold mints
  rw [flagsUpdated_of_flags_eq bx f h, h]
  cases decide (s = ShortIDEmpty) <;> cases f.IsValidatorsOnly <;> cases f.IsNextValidator <;> rfl

theorem afterSeenCheck_bloom (t : BxTxStore) (h : SHA256Hash) :
    (t.afterSeenCheck h).bloom = t.bloom := by
  unfold afterSeenCheck refreshSeenTx; split_ifs <;> rfl

theorem afterSeenCheck_assigner (t : BxTxStore) (h : SHA256Hash) :
    (t.afterSeenCheck h).assigner = t.assigner := by
  unfold afterSeenCheck refreshSeenTx; split_ifs <;> rfl

/-! ## The three ways `Add` returns -/

theorem Add_result_of_Stores (t : BxTxStore) (hash : SHA256Hash) (content : TxContent)
    (shortID : ShortID) (networkNum : NetworkNum) (flags : TxFlags) (timestamp : Int)
    (sender : Sender) (hs : Stores t hash content shortID timestamp) :
    (t.Add hash content shortID networkNum flags timestamp sender).2 =
      .ok (t.locked hash content shortID networkNum flags timestamp sender).result := by
  rw [Add_eq_of_Stores _ _ _ _ _ _ _ _ hs]

theorem Add_assigner_of_Stores (t : BxTxStore) (hash : SHA256Hash) (content : TxContent)
    (shortID : ShortID) (networkNum : NetworkNum) (flags : TxFlags) (timestamp : Int)
    (sender : Sender) (hs : Stores t hash content shortID timestamp) :
    (t.Add hash content shortID networkNum flags timestamp sender).1.assigner =
      (t.locked hash content shortID networkNum flags timestamp sender).assigner := by
  rw [Add_eq_of_Stores _ _ _ _ _ _ _ _ hs]

theorem Add_hashToContent_of_not_Stores (t : BxTxStore) (hash : SHA256Hash)
    (content : TxContent) (shortID : ShortID) (networkNum : NetworkNum) (flags : TxFlags)
    (timestamp : Int) (sender : Sender) (hs : ¬ Stores t hash content shortID timestamp) :
    (t.Add hash content shortID networkNum flags timestamp sender).1.hashToContent =
      t.hashToContent := by
  rcases Add_of_not_Stores t hash content shortID networkNum flags timestamp sender hs with
    h | h <;> rw [h]
  exact refreshSeenTx_hashToContent t hash

theorem Add_shortIDToHash_of_not_Stores (t : BxTxStore) (hash : SHA256Hash)
    (content : TxContent) (shortID : ShortID) (networkNum : NetworkNum) (flags : TxFlags)
    (timestamp : Int) (sender : Sender) (hs : ¬ Stores t hash content shortID timestamp) :
    (t.Add hash content shortID networkNum flags timestamp sender).1.shortIDToHash =
      t.shortIDToHash := by
  rcases Add_of_not_Stores t hash content shortID networkNum flags timestamp sender hs with
    h | h <;> rw [h]
  exact refreshSeenTx_shortIDToHash t hash

/-- A report of `Add` comes from the storing path, from the too-old guard, or from
the suppression by the history. -/
theorem Add_ok_cases (t : BxTxStore) (hash : SHA256Hash) (content : TxContent)
    (shortID : ShortID) (networkNum : NetworkNum) (flags : TxFlags) (timestamp : Int)
    (sender : Sender) (res : TransactionResult)
    (hres : (t.Add hash content shortID networkNum flags timestamp sender).2 = .ok res) :
    (Stores t hash content shortID timestamp ∧
        res = (t.locked hash content shortID networkNum flags timestamp sender).result) ∨
      (Time.Sub t.clock timestamp > t.maxTxAge ∧
        res = { Transaction := some (NewBxTransaction hash networkNum flags timestamp),
                DebugData := "Transaction is too old" }) ∨
      (t.seenTxs.Exists t.clock hash = true ∧ shortID = ShortIDEmpty ∧
        res = { Transaction := some (NewBxTransaction hash networkNum flags timestamp),
                DebugData := "Transaction already seen and deleted from store",
                AlreadySeen := true }) := by
  by_cases hs : Stores t hash content shortID timestamp
  · left
    rw [Add_result_of_Stores _ _ _ _ _ _ _ _ hs] at hres
    cases hres
    exact ⟨hs, rfl⟩
  · right
    by_cases h1 : shortID = ShortIDEmpty ∧ content.length = 0
    · rw [Add_of_badUsage _ _ _ _ _ _ _ _ h1] at hres; cases hres
    · by_cases h2 : Time.Sub t.clock timestamp > t.maxTxAge
      · left
        unfold Add at hres
        rw [if_neg h1, if_pos h2] at hres
        cases hres
        exact ⟨h2, rfl⟩
      · right
        by_cases h3 : (t.refreshSeenTx hash).2 = true ∧ shortID = ShortIDEmpty
        · rw [Add_of_suppressed _ _ _ _ _ _ _ _ h1 h2 h3] at hres
          cases hres
          exact ⟨by rw [← refreshSeenTx_snd]; exact h3.1, h3.2, rfl⟩
        · exact absurd ⟨h1, h2, h3⟩ hs

theorem locked_of_some (t : BxTxStore) (hash : SHA256Hash) (content : TxContent)
    (shortID : ShortID) (networkNum : NetworkNum) (flags : TxFlags) (timestamp : Int)
    (sender : Sender) (r : BxTransaction) (hl : Load t.hashToContent hash = some r) :
    t.locked hash content shortID networkNum flags timestamp sender =
      (t.afterSeenCheck hash).addLocked r false hash content shortID flags sender := by
  unfold locked
  rw [loaded_of_some t hash networkNum flags timestamp r hl]
  rfl

theorem locked_of_none (t : BxTxStore) (hash : SHA256Hash) (content : TxContent)
    (shortID : ShortID) (networkNum : NetworkNum) (flags : TxFlags) (timestamp : Int)
    (sender : Sender) (hl : Load t.hashToContent hash = none) :
    t.locked hash content shortID networkNum flags timestamp sender =
      (t.afterSeenCheck hash).addLocked (NewBxTransaction hash networkNum flags timestamp) true
        hash content shortID flags sender := by
  unfold locked
  rw [loaded_of_none t hash networkNum flags timestamp hl]
  rfl

/-! ## Repeating an `Add` -/

theorem Store_of_Load {K V : Type} [DecidableEq K] (m : List (K × V)) (k : K) (v : V)
    (h : Load m k = some v) : Store m k v = m := by
  induction m with
  | nil => simp [Load] at h
  | cons e m ih =>
    by_cases h1 : e.1 = k
    · simp only [Load, h1, if_true, Option.some.injEq] at h
      simp only [Store, h1, if_true]
      rw [← h1, ← h]
    · simp only [Load, h1, if_false] at h
      simp only [Store, h1, if_false, ih h]

theorem afterSeenCheck_of_not_Exists (t : BxTxStore) (h : SHA256Hash)
    (he : t.seenTxs.Exists t.clock h = false) : t.afterSeenCheck h = t := by
  unfold afterSeenCheck
  rw [refreshSeenTx_of_not_Exists t h he]
  simp

theorem flagsUpdated_of_bits (bx : BxTransaction) (f : TxFlags)
    (h1 : f.IsPaid = true → bx.flags.IsPaid = true)
    (h2 : f.ShouldDeliverToNode = true → bx.flags.ShouldDeliverToNode = true) :
    flagsUpdated bx f = bx := by
  unfold flagsUpdated
  have e1 : (!bx.flags.IsPaid && f.IsPaid) = false := by
    cases hf : f.IsPaid
    · simp
    · simp [h1 hf]
  have e2 : (!bx.flags.ShouldDeliverToNode && f.ShouldDeliverToNode) = false := by
    cases hf : f.ShouldDeliverToNode
    · simp
    · simp [h2 hf]
  simp [e1, e2]

theorem AddShortID_of_mem (bt : BxTransaction) (s : ShortID) (h : s ∈ bt.shortIDs) :
    bt.AddShortID s = (bt, false) := by
  unfold BxTransaction.AddShortID
  split_ifs <;> rfl

theorem SetContent_nil (bt : BxTransaction) : bt.SetContent [] = (bt, false) := by
  unfold BxTransaction.SetContent
  simp

/-- An `Add` with a short ID and no content, on a record that already lists the
short ID and carries the `Paid` and `DeliverToNode` bits of the incoming flags,
with the hash out of the history: nothing changes. -/
theorem Add_stable (t : BxTxStore) (hash : SHA256Hash) (X : ShortID) (networkNum : NetworkNum)
    (flags : TxFlags) (timestamp : Int) (sender : Sender) (r : BxTransaction)
    (hX : X ≠ ShortIDEmpty) (hnew : ¬ (Time.Sub t.clock timestamp > t.maxTxAge))
    (hl : Load t.hashToContent hash = some r) (he : t.seenTxs.Exists t.clock hash = false)
    (hm : X ∈ r.shortIDs) (h1 : flags.IsPaid = true → r.flags.IsPaid = true)
    (h2 : flags.ShouldDeliverToNode = true → r.flags.ShouldDeliverToNode = true) :
    t.Add hash [] X networkNum flags timestamp sender = (t, .ok { Transaction := some r }) := by
  have hs := Stores_of_shortID t hash [] X timestamp hX hnew
  have hfu := flagsUpdated_of_bits r flags h1 h2
  have hb : boundShortID t r false X flags = X := boundShortID_of_shortID _ _ _ _ _ hX
  have htx : (t.addLocked r false hash [] X flags sender).tx = r := by
    rw [addLocked_tx, hfu, hb, AddShortID_of_mem r X hm, SetContent_nil]
    simp
  have hres : (t.addLocked r false hash [] X flags sender).result = { Transaction := some r } := by
    have e1 := addLocked_result_tx t r false hash [] X flags sender
    have e2 := addLocked_NewSID t r false hash [] X flags sender
    have e3 := addLocked_NewContent t r false hash [] X flags sender
    have e4 := addLocked_Reprocess t r false hash [] X flags sender
    have e5 := addLocked_AlreadySeen_of_shortID t r false hash [] X flags sender hX
    have e6 := addLocked_AssignedShortID t r false hash [] X flags sender
    have e7 := addLocked_NewTx t r false hash [] X flags sender
    have e8 : (t.addLocked r false hash [] X flags sender).result.DebugData = "" := by
      have := e5
      unfold addLocked at this ⊢
      simp only [] at this ⊢
      rw [this]
      rfl
    rw [htx] at e1
    rw [hfu, hb, AddShortID_of_mem r X hm] at e2
    rw [mints_of_not_newTx] at e6
    have e4b : (t.addLocked r false hash [] X flags sender).result.Reprocess = false := by
      rw [e4]
      cases hf1 : flags.IsPaid <;> cases hf2 : flags.ShouldDeliverToNode <;>
        simp [h1, h2, hf1, hf2]
    cases hr : (t.addLocked r false hash [] X flags sender).result
    rw [hr] at e1 e2 e3 e4b e5 e6 e7 e8
    simp only [] at e1 e2 e3 e4b e5 e6 e7 e8
    subst e1 e2 e4b e5 e7 e8
    simp at e3 e6
    subst e3 e6
    rfl
  have hasg : (t.addLocked r false hash [] X flags sender).assigner = t.assigner := by
    rw [addLocked_assigner, mints_of_not_newTx]; rfl
  rw [Add_eq_of_Stores _ _ _ _ _ _ _ _ hs]
  have hlk := locked_of_some t hash [] X networkNum flags timestamp sender r hl
  rw [afterSeenCheck_of_not_Exists t hash he] at hlk ⊢
  rw [hlk, htx, hres, hasg, LoadOrStore_of_some _ _ _ r hl]
  simp only [Bool.false_eq_true, if_false, Store_of_Load _ _ _ hl]

theorem refreshSeenTx_maxTxAge (t : BxTxStore) (h : SHA256Hash) :
    (t.refreshSeenTx h).1.maxTxAge = t.maxTxAge := by
  unfold refreshSeenTx; split_ifs <;> rfl

theorem afterSeenCheck_maxTxAge (t : BxTxStore) (h : SHA256Hash) :
    (t.afterSeenCheck h).maxTxAge = t.maxTxAge := by
  unfold afterSeenCheck; split_ifs <;> simp [refreshSeenTx_maxTxAge]

theorem Add_maxTxAge (t : BxTxStore) (hash : SHA256Hash) (content : TxContent)
    (shortID : ShortID) (networkNum : NetworkNum) (flags : TxFlags) (timestamp : Int)
    (sender : Sender) :
    (t.Add hash content shortID networkNum flags timestamp sender).1.maxTxAge = t.maxTxAge := by
  by_cases hs : Stores t hash content shortID timestamp
  · rw [Add_eq_of_Stores _ _ _ _ _ _ _ _ hs]
    exact afterSeenCheck_maxTxAge t hash
  · rcases Add_of_not_Stores t hash content shortID networkNum flags timestamp sender hs with
      h | h <;> rw [h]
    exact refreshSeenTx_maxTxAge t hash

theorem Add_of_tooOld (t : BxTxStore) (hash : SHA256Hash) (content : TxContent)
    (shortID : ShortID) (networkNum : NetworkNum) (flags : TxFlags) (timestamp : Int)
    (sender : Sender) (h1 : ¬ (shortID = ShortIDEmpty ∧ content.length = 0))
    (h2 : Time.Sub t.clock timestamp > t.maxTxAge) :
    t.Add hash content shortID networkNum flags timestamp sender =
      (t, .ok { Transaction := some (NewBxTransaction hash networkNum flags timestamp),
                DebugData := "Transaction is too old" }) := by
  unfold Add
  rw [if_neg h1, if_pos h2]

/-- A second `Add` with the same arguments, a short ID and no content, changes
nothing and reports nothing new. -/
theorem Add_twice (t : BxTxStore) (hash : SHA256Hash) (X : ShortID) (networkNum : NetworkNum)
    (flags : TxFlags) (timestamp : Int) (sender : Sender) (hX : X ≠ ShortIDEmpty) :
    ∃ res, (t.Add hash [] X networkNum flags timestamp sender).1.Add hash [] X networkNum flags
        timestamp sender = ((t.Add hash [] X networkNum flags timestamp sender).1, .ok res) ∧
      res.NewTx = false ∧ res.NewSID = false ∧ res.NewContent = false := by
  have hpre : ¬ (X = ShortIDEmpty ∧ ([] : TxContent).length = 0) := fun h => hX h.1
  by_cases hold : Time.Sub t.clock timestamp > t.maxTxAge
  · rw [Add_of_tooOld t hash [] X networkNum flags timestamp sender hpre hold]
    exact ⟨_, Add_of_tooOld t hash [] X networkNum flags timestamp sender hpre hold,
      rfl, rfl, rfl⟩
  · have hs := Stores_of_shortID t hash [] X timestamp hX hold
    have hnew : ¬ (Time.Sub (t.Add hash [] X networkNum flags timestamp sender).1.clock timestamp >
        (t.Add hash [] X networkNum flags timestamp sender).1.maxTxAge) := by
      rw [Add_clock, Add_maxTxAge]; exact hold
    have hl := Load_Add t hash [] X networkNum flags timestamp sender hs hash
    rw [if_pos rfl] at hl
    have he : (t.Add hash [] X networkNum flags timestamp sender).1.seenTxs.Exists
        (t.Add hash [] X networkNum flags timestamp sender).1.clock hash = false := by
      rw [Add_clock, Add_eq_of_Stores _ _ _ _ _ _ _ _ hs]
      exact afterSeenCheck_Exists_self t hash
    have hm : X ∈ (t.locked hash [] X networkNum flags timestamp sender).tx.shortIDs := by
      unfold locked
      rw [addLocked_tx_shortIDs, boundShortID_of_shortID _ _ _ _ _ hX]
      exact AddShortID_mem _ X hX
    have hf : (t.locked hash [] X networkNum flags timestamp sender).tx.flags =
        (t.loaded hash networkNum flags timestamp).1.flags |||
          (flags &&& (TFPaidTx ||| TFDeliverToNode)) := by
      unfold locked; exact addLocked_tx_flags _ _ _ _ _ _ _ _
    have h1 : flags.IsPaid = true →
        (t.locked hash [] X networkNum flags timestamp sender).tx.flags.IsPaid = true := by
      rw [hf, IsPaid_eq, IsPaid_eq]
      intro h
      simp [Nat.testBit_or, Nat.testBit_and, testBit_TFPaidTx, h]
    have h2 : flags.ShouldDeliverToNode = true →
        (t.locked hash [] X networkNum flags timestamp
          sender).tx.flags.ShouldDeliverToNode = true := by
      rw [hf, ShouldDeliverToNode_eq, ShouldDeliverToNode_eq]
      intro h
      simp [Nat.testBit_or, Nat.testBit_and, testBit_TFDeliverToNode, h]
    exact ⟨_, Add_stable _ hash X networkNum flags timestamp sender _ hX hnew hl he hm h1 h2,
      rfl, rfl, rfl⟩

/-! ## Calls other than `Add` only delete entries -/

theorem step_frame_hashToContent (t : BxTxStore) (op : Op) (hop : NotAdd op) (k : SHA256Hash)
    (r : BxTransaction) (h : Load (step t op).1.hashToContent k = some r) :
    Load t.hashToContent k = some r := by
  have key := step_preserves
    (fun t1 : BxTxStore => ∀ k r, Load t1.hashToContent k = some r →
      Load t.hashToContent k = some r) NotAdd
    (fun _ _ _ _ _ _ _ _ hf _ => absurd hf (by simp [NotAdd]))
    (fun t1 h1 ht k r hl => ht k r (by rw [refreshSeenTx_hashToContent] at hl; exact hl))
    (fun t1 h1 p ht k r hl => ht k r (by
      rw [remove_hashToContent, Load_Delete] at hl
      split_ifs at hl
      exact hl))
    (fun t1 ch ht => ht)
    (fun t1 ht k r hl => by simp [Clear, Load] at hl)
    (fun t1 d ht => ht) t op hop (fun _ _ hl => hl)
  exact key k r h

theorem step_frame_shortIDToHash (t : BxTxStore) (op : Op) (hop : NotAdd op) (sid : ShortID)
    (h : SHA256Hash) (hl : Load (step t op).1.shortIDToHash sid = some h) :
    Load t.shortIDToHash sid = some h := by
  have key := step_preserves
    (fun t1 : BxTxStore => ∀ sid h, Load t1.shortIDToHash sid = some h →
      Load t.shortIDToHash sid = some h) NotAdd
    (fun _ _ _ _ _ _ _ _ hf _ => absurd hf (by simp [NotAdd]))
    (fun t1 h1 ht sid h hl => ht sid h (by rw [refreshSeenTx_shortIDToHash] at hl; exact hl))
    (fun t1 h1 p ht sid h hl => ht sid h (by
      cases hr : Load t1.hashToContent h1 with
      | none => rw [remove_of_absent t1 h1 p hr] at hl; exact hl
      | some r =>
        rw [remove_shortIDToHash t1 h1 p r hr, Load_DeleteAll] at hl
        split_ifs at hl
        exact hl))
    (fun t1 ch ht => ht)
    (fun t1 ht sid h hl => by simp [Clear, Load] at hl)
    (fun t1 d ht => ht) t op hop (fun _ _ hl => hl)
  exact key sid h hl

/-! ## The flags of a record along a sequence of calls -/

theorem step_add (t : BxTxStore) (h : SHA256Hash) (content : TxContent) (shortID : ShortID)
    (networkNum : NetworkNum) (flags : TxFlags) (timestamp : Int) (sender : Sender) :
    (step t (.add h content shortID networkNum flags timestamp sender)).1 =
      (t.Add h content shortID networkNum flags timestamp sender).1 := by
  simp only [step]
  split <;> (rename_i heq; rw [heq])

/-- One call: a record of `hash` that is still there after the call has the flags
it had, with the `Paid` and `DeliverToNode` bits of the incoming flags if the
call is an `Add` of the hash that reaches the load-or-store. -/
theorem flags_step (hash : SHA256Hash) (t : BxTxStore) (op : Op) (r r1 : BxTransaction)
    (hl : Load t.hashToContent hash = some r)
    (hl1 : Load (step t op).1.hashToContent hash = some r1) :
    r1.flags = flagsRaised hash t op r.flags := by
  cases op with
  | add h content shortID networkNum flags timestamp sender =>
    rw [step_add] at hl1
    simp only [flagsRaised]
    by_cases hs : Stores t h content shortID timestamp
    · rw [Load_Add _ _ _ _ _ _ _ _ hs] at hl1
      by_cases he : h = hash
      · subst he
        rw [if_pos rfl] at hl1
        rw [if_pos ⟨rfl, hs⟩]
        cases hl1
        rw [locked_of_some t h content shortID networkNum flags timestamp sender r hl,
          addLocked_tx_flags]
      · rw [if_neg he, hl] at hl1
        cases hl1
        rw [if_neg (fun hc => he hc.1)]
    · rw [Add_hashToContent_of_not_Stores _ _ _ _ _ _ _ _ hs, hl] at hl1
      cases hl1
      rw [if_neg (fun hc => hs hc.2)]
  | get _ | known _ | removeHashes _ _ | removeShortIDs _ _ | getTxByShortID _ | cleanNow
  | clear | tick _ =>
    have := step_frame_hashToContent t _ (by simp [NotAdd]) hash r1 hl1
    rw [hl] at this
    cases this
    rfl

theorem run_cons (t : BxTxStore) (op : Op) (ops : List Op) :
    run t (op :: ops) =
      match step t op with
      | (t1, none) => run t1 ops
      | (t1, some f) => (t1, some f) := rfl

theorem run_cons_of_returns (t : BxTxStore) (op : Op) (ops : List Op)
    (h : (run t (op :: ops)).2 = none) :
    (step t op).2 = none ∧ run t (op :: ops) = run (step t op).1 ops := by
  rw [run_cons] at h ⊢
  cases hs : step t op with
  | mk t1 o =>
    rw [hs] at h
    cases o with
    | none => exact ⟨rfl, rfl⟩
    | some f => simp at h

theorem persists_head (hash : SHA256Hash) (t : BxTxStore) (ops : List Op)
    (h : persists hash t ops = true) : (Load t.hashToContent hash).isSome = true := by
  cases ops with
  | nil => exact h
  | cons op rest =>
    unfold persists at h
    simp only [Bool.and_eq_true] at h
    exact h.1

/-- Along calls that all return and never remove the record of `hash`, the flags
of the record are those computed by `flagsAfter`. -/
theorem flags_run (hash : SHA256Hash) (ops : List Op) :
    ∀ (t : BxTxStore) (r : BxTransaction), Load t.hashToContent hash = some r →
      (run t ops).2 = none → persists hash t ops = true →
      ∃ r1, Load (run t ops).1.hashToContent hash = some r1 ∧
        r1.flags = flagsAfter hash t ops r.flags := by
  induction ops with
  | nil => intro t r hl _ _; exact ⟨r, hl, rfl⟩
  | cons op rest ih =>
    intro t r hl hrun hp
    obtain ⟨_, hr⟩ := run_cons_of_returns t op rest hrun
    rw [hr] at hrun ⊢
    unfold persists at hp
    simp only [Bool.and_eq_true] at hp
    have h1 := persists_head hash _ rest hp.2
    obtain ⟨r1, hl1⟩ := Option.isSome_iff_exists.mp h1
    obtain ⟨r2, hl2, hf⟩ := ih (step t op).1 r1 hl1 hrun hp.2
    refine ⟨r2, hl2, ?_⟩
    rw [hf, flags_step hash t op r r1 hl hl1]
    rfl

theorem or_and_self (a m : Nat) : a ||| (a &&& m) = a := by
  apply Nat.eq_of_testBit_eq
  intro i
  rw [Nat.testBit_or, Nat.testBit_and]
  cases Nat.testBit a i <;> simp

/-- The record created by an `Add` carries the flags of the call. -/
theorem created_flags (t : BxTxStore) (hash : SHA256Hash) (content : TxContent)
    (shortID : ShortID) (networkNum : NetworkNum) (flags : TxFlags) (timestamp : Int)
    (sender : Sender) (hl : Load t.hashToContent hash = none)
    (hs : Stores t hash content shortID timestamp) :
    ∃ r, Load (t.Add hash content shortID networkNum flags timestamp sender).1.hashToContent
        hash = some r ∧ r.flags = flags := by
  refine ⟨_, by rw [Load_Add _ _ _ _ _ _ _ _ hs, if_pos rfl], ?_⟩
  rw [locked_of_none t hash content shortID networkNum flags timestamp sender hl,
    addLocked_tx_flags]
  exact or_and_self flags _

/-! ## The binding of a short ID along a sequence of calls -/

/-- One call that is not an `Add` for another hash binding `sid`: if the short-ID
index maps `sid` to no hash other than `h` before, so it does after. -/
theorem binding_step (sid : ShortID) (h : SHA256Hash) (t : BxTxStore) (hk : Keyed t) (op : Op)
    (hnr : rebinds sid h t op = false)
    (hq : ∀ h1, Load t.shortIDToHash sid = some h1 → h1 = h) :
    ∀ h1, Load (step t op).1.shortIDToHash sid = some h1 → h1 = h := by
  intro h1 hl
  cases op with
  | add hash content shortID networkNum flags timestamp sender =>
    rw [step_add] at hl
    by_cases hs : Stores t hash content shortID timestamp
    · rw [Add_eq_of_Stores _ _ _ _ _ _ _ _ hs] at hl
      simp only [] at hl
      split_ifs at hl with hn
      · rw [Load_Store] at hl
        split_ifs at hl with he
        · cases hl
          rw [locked_tx_hash t hash content shortID networkNum flags timestamp sender hk]
          have hb := addLocked_bound_of_NewSID _ _ _ _ _ _ _ _ hn
          simp only [rebinds, Add_result_of_Stores _ _ _ _ _ _ _ _ hs] at hnr
          unfold locked at hnr he hn
          rw [hb, he, hn] at hnr
          simpa using hnr
        · exact hq h1 hl
      · exact hq h1 hl
    · rw [Add_shortIDToHash_of_not_Stores _ _ _ _ _ _ _ _ hs] at hl
      exact hq h1 hl
  | get _ | known _ | removeHashes _ _ | removeShortIDs _ _ | getTxByShortID _ | cleanNow
  | clear | tick _ =>
    exact hq h1 (step_frame_shortIDToHash t _ (by simp [NotAdd]) sid h1 hl)

theorem binding_run (sid : ShortID) (h : SHA256Hash) (ops : List Op) :
    ∀ t : BxTxStore, Inv t → (∀ h1, Load t.shortIDToHash sid = some h1 → h1 = h) →
      noRebind sid h t ops = true →
      ∀ h1, Load (run t ops).1.shortIDToHash sid = some h1 → h1 = h := by
  induction ops with
  | nil => intro t _ hq _; exact hq
  | cons op rest ih =>
    intro t hi hq hnr
    unfold noRebind at hnr
    simp only [Bool.and_eq_true, Bool.not_eq_true'] at hnr
    have h1 := binding_step sid h t hi.1 op hnr.1 hq
    have h2 := Inv_step t op hi
    rw [run_cons]
    cases hs : step t op with
    | mk t1 o =>
      rw [hs] at h1 h2
      have h3 := hnr.2
      rw [hs] at h3
      cases o with
      | none => exact ih t1 h2 h1 h3
      | some f => exact h1

/-! ## Removal with an unknown protection value -/

theorem remove_of_invalid (t : BxTxStore) (h : SHA256Hash) (p : ReEntryProtectionFlags)
    (hp : ¬ ValidProtection p) (r : BxTransaction) (hl : Load t.hashToContent h = some r) :
    (t.remove h p).2 = some Fault.unknownReEntryProtection := by
  have h0 : p ≠ NoReEntryProtection := fun e => hp (Or.inl e)
  have h1 : p ≠ ShortReEntryProtection := fun e => hp (Or.inr (Or.inl e))
  have h2 : p ≠ FullReEntryProtection := fun e => hp (Or.inr (Or.inr e))
  simp [remove, LoadAndDelete, hl, h0, h1, h2]

theorem RemoveHashes_of_absent (hs : SHA256HashList) (p : ReEntryProtectionFlags) :
    ∀ t : BxTxStore, (∀ h ∈ hs, Load t.hashToContent h = none) →
      t.RemoveHashes hs p = (t, none) := by
  induction hs with
  | nil => intro t _; rfl
  | cons h rest ih =>
    intro t ha
    unfold RemoveHashes
    rw [remove_of_absent t h p (ha h (List.mem_cons_self _ _))]
    exact ih t (fun k hk => ha k (List.mem_cons_of_mem _ hk))

theorem RemoveHashes_of_invalid (hs : SHA256HashList) (p : ReEntryProtectionFlags)
    (hp : ¬ ValidProtection p) :
    ∀ t : BxTxStore, (∃ h ∈ hs, Load t.hashToContent h ≠ none) →
      (t.RemoveHashes hs p).2 = some Fault.unknownReEntryProtection := by
  induction hs with
  | nil => intro t ⟨h, hm, _⟩; cases hm
  | cons h rest ih =>
    intro t he
    unfold RemoveHashes
    cases hl : Load t.hashToContent h with
    | none =>
      rw [remove_of_absent t h p hl]
      apply ih t
      obtain ⟨k, hk, hne⟩ := he
      rcases List.mem_cons.mp hk with e | hk1
      · subst e; exact absurd hl hne
      · exact ⟨k, hk1, hne⟩
    | some r =>
      have hf := remove_of_invalid t h p hp r hl
      cases hr : t.remove h p with
      | mk t1 o =>
        rw [hr] at hf
        simp only [] at hf
        subst hf
        rfl

theorem mem_hashesToRemove (t : BxTxStore) (shortIDs : ShortIDList) (h : SHA256Hash) :
    h ∈ t.hashesToRemove shortIDs ↔ ∃ sid ∈ shortIDs, Load t.shortIDToHash sid = some h := by
  unfold hashesToRemove
  simp [List.mem_filterMap]

/-! ## Claims -/

/-- C1 (I1, P1): in every state reached from an empty store by a sequence of
calls (`Add`, `RemoveHashes`, `RemoveShortIDs`, `CleanNow`, `Clear`, and also
`Get`, `Known`, `GetTxByShortID` and clock advances), every entry `sid -> hash`
of the short-ID index points to a record of the hash index whose short IDs
contain `sid`. -/
theorem C1_shortID_index_points_to_record (t0 t : BxTxStore) (h0 : IsEmpty t0)
    (hr : Reachable t0 t) (sid : ShortID) (hash : SHA256Hash)
    (hl : Load t.shortIDToHash sid = some hash) :
    ∃ r, Load t.hashToContent hash = some r ∧ sid ∈ r.shortIDs :=
  (Inv_of_Reachable t0 t h0 hr).2.1 sid hash hl

theorem C1_witness :
    Load demoStore1.shortIDToHash 7 = some 11 ∧
      ∃ r, Load demoStore1.hashToContent 11 = some r ∧ 7 ∈ r.shortIDs :=
  ⟨by decide,
   C1_shortID_index_points_to_record demoStore demoStore1 (by decide)
    (Reachable_of_step demoStore demoStore _ Reachable.start (by decide)) 7 11 (by decide)⟩

/-- C2 (P2, I3): in every state reached from an empty store by a sequence of
calls (`Add`, `Get`, `Known`, `RemoveHashes`, `RemoveShortIDs`, `CleanNow`, and
also `Clear` and `GetTxByShortID`) and clock advances, whatever the history
initially holds, no hash that has a record in the hash index satisfies
`SeenHistory.Exists`. -/
theorem C2_stored_hash_not_in_history (t0 t : BxTxStore) (h0 : IsEmpty t0)
    (hr : Reachable t0 t) (hash : SHA256Hash) (r : BxTransaction)
    (hl : Load t.hashToContent hash = some r) : t.seenTxs.Exists t.clock hash = false :=
  (Inv_of_Reachable t0 t h0 hr).2.2 hash r hl

theorem C2_witness :
    (Load demoStore3.hashToContent 11).isSome = true ∧
      demoStore2.seenTxs.Exists demoStore2.clock 11 = true ∧
      demoStore3.seenTxs.Exists demoStore3.clock 11 = false :=
  ⟨by decide, by decide,
   C2_stored_hash_not_in_history demoStore demoStore3 (by decide)
    (Reachable_of_step demoStore demoStore2 _
      (Reachable_of_step demoStore demoStore1 _
        (Reachable_of_step demoStore demoStore _ Reachable.start (by decide)) (by decide))
      (by decide))
    11 { hash := 11, content := [], shortIDs := [42], addTime := 1000, flags := 0,
         networkNum := 1, sender := EmptySender } (by decide)⟩

/-- The saturation of `Time.Sub` does not show in a comparison with a duration
below the largest one. -/
theorem Time_Sub_gt_iff (t u m : Int) (hmin : minDuration ≤ m) (hmax : m < maxDuration) :
    Time.Sub t u > m ↔ t - u > m := by
  unfold Time.Sub
  split_ifs <;> constructor <;> intro h <;> omega

/-- C3, as stated, fails: in the empty store at clock 0 whose `maxTxAge` is the
largest duration, an `Add` of hash 11 with content, which respects the input
precondition, and a timestamp 9300000000000000000 ns before the clock has
`now - timestamp > maxTxAge`; yet the call stores the record, mints the short ID
7 and reports `NewTx`, since the age that the guard compares is saturated at the
largest duration. -/
theorem C3_counterexample :
    ¬ (ShortIDEmpty = ShortIDEmpty ∧ ([170] : TxContent).length = 0) ∧
      demoStoreMaxAge.clock - (-9300000000000000000) > demoStoreMaxAge.maxTxAge ∧
      Time.Sub demoStoreMaxAge.clock (-9300000000000000000) = demoStoreMaxAge.maxTxAge ∧
      Load demoStoreMaxAge.hashToContent 11 = none ∧
      (∃ res,
        (demoStoreMaxAge.Add 11 [170] ShortIDEmpty 1 0 (-9300000000000000000) 5).2 = .ok res ∧
          res.NewTx = true ∧ res.NewSID = true ∧ res.AssignedShortID = 7) ∧
      Load (demoStoreMaxAge.Add 11 [170] ShortIDEmpty 1 0
          (-9300000000000000000) 5).1.hashToContent 11 =
        some { hash := 11, content := [170], shortIDs := [7],
               addTime := -9300000000000000000, flags := 0, networkNum := 1, sender := 5 } ∧
      Load (demoStoreMaxAge.Add 11 [170] ShortIDEmpty 1 0
          (-9300000000000000000) 5).1.shortIDToHash 7 = some 11 :=
  ⟨by decide, by decide, by decide, by decide, ⟨_, rfl, by decide, by decide, by decide⟩,
   by decide, by decide⟩

/-- C3 (amended): an `Add` call that respects the input precondition and whose
age `now.Sub(timestamp)`, the difference `now - timestamp` saturated at the
largest duration, is greater than `maxTxAge` leaves the whole store as it was
(hash index, short-ID index, history, bloom filter, and the assigner, which is
not called), and reports `NewTx`, `NewSID`, `NewContent`, `Reprocess`,
`AlreadySeen` all false, no assigned short ID, and a synthetic (non-nil) record
carrying the given hash. -/
theorem C3_too_old_add_changes_nothing (t : BxTxStore) (hash : SHA256Hash)
    (content : TxContent) (shortID : ShortID) (networkNum : NetworkNum) (flags : TxFlags)
    (timestamp : Int) (sender : Sender)
    (hpre : ¬ (shortID = ShortIDEmpty ∧ content.length = 0))
    (hold : Time.Sub t.clock timestamp > t.maxTxAge) :
    (t.Add hash content shortID networkNum flags timestamp sender).1 = t ∧
      ∃ res tx, (t.Add hash content shortID networkNum flags timestamp sender).2 = .ok res ∧
        res.NewTx = false ∧ res.NewSID = false ∧ res.NewContent = false ∧
        res.Reprocess = false ∧ res.AlreadySeen = false ∧
        res.AssignedShortID = ShortIDEmpty ∧ res.Transaction = some tx ∧
        tx = NewBxTransaction hash networkNum flags timestamp ∧ tx.hash = hash := by
  unfold Add
  rw [if_neg hpre, if_pos hold]
  exact ⟨rfl, _, _, rfl, rfl, rfl, rfl, rfl, rfl, rfl, rfl, rfl, rfl⟩

theorem C3_witness :
    ¬ ((0 : ShortID) = ShortIDEmpty ∧ ([1] : TxContent).length = 0) ∧
      Time.Sub demoStore1.clock 400 > demoStore1.maxTxAge ∧
      (demoStore1.Add 12 [1] 0 1 0 400 5).1 = demoStore1 ∧
      ∃ res tx, (demoStore1.Add 12 [1] 0 1 0 400 5).2 = .ok res ∧
        res.NewTx = false ∧ res.NewSID = false ∧ res.NewContent = false ∧
        res.Reprocess = false ∧ res.AlreadySeen = false ∧
        res.AssignedShortID = ShortIDEmpty ∧ res.Transaction = some tx ∧
        tx = NewBxTransaction 12 1 0 400 ∧ tx.hash = 12 :=
  ⟨by decide, by decide,
   C3_too_old_add_changes_nothing demoStore1 12 [1] 0 1 0 400 5 (by decide) (by decide)⟩

/-- C4: an `Add` call that is not too old, carries non-empty content and no short
ID, and whose hash is in the history, reports `AlreadySeen` with `NewTx`,
`NewSID`, `NewContent` false; the hash index and the short-ID index are
unchanged (the record returned is synthetic and is not stored), the assigner
is not called and the bloom filter is unchanged; the history entry of the hash
is refreshed. -/
theorem C4_seen_hash_without_shortID_is_suppressed (t : BxTxStore) (hash : SHA256Hash)
    (content : TxContent) (networkNum : NetworkNum) (flags : TxFlags) (timestamp : Int)
    (sender : Sender) (hnew : ¬ (Time.Sub t.clock timestamp > t.maxTxAge))
    (hc : content.length > 0) (hseen : t.seenTxs.Exists t.clock hash = true) :
    (∃ res, (t.Add hash content ShortIDEmpty networkNum flags timestamp sender).2 = .ok res ∧
        res.AlreadySeen = true ∧ res.NewTx = false ∧ res.NewSID = false ∧
        res.NewContent = false ∧
        res.Transaction = some (NewBxTransaction hash networkNum flags timestamp)) ∧
      (t.Add hash content ShortIDEmpty networkNum flags timestamp sender).1.hashToContent =
        t.hashToContent ∧
      (t.Add hash content ShortIDEmpty networkNum flags timestamp sender).1.shortIDToHash =
        t.shortIDToHash ∧
      (t.Add hash content ShortIDEmpty networkNum flags timestamp sender).1 =
        { t with seenTxs := t.seenTxs.Add t.clock hash t.timeToAvoidReEntry } := by
  have hpre : ¬ (ShortIDEmpty = ShortIDEmpty ∧ content.length = 0) := by
    intro h; omega
  have hs : (t.refreshSeenTx hash).2 = true ∧ ShortIDEmpty = ShortIDEmpty :=
    ⟨by rw [refreshSeenTx_snd]; exact hseen, rfl⟩
  have href : (t.refreshSeenTx hash).1 =
      { t with seenTxs := t.seenTxs.Add t.clock hash t.timeToAvoidReEntry } := by
    unfold refreshSeenTx; simp [hseen]
  rw [Add_of_suppressed t hash content ShortIDEmpty networkNum flags timestamp sender hpre hnew hs]
  refine ⟨⟨_, rfl, rfl, rfl, rfl, rfl, rfl⟩, ?_, ?_, href⟩
  · rw [href]
  · rw [href]

theorem C4_witness :
    ¬ (Time.Sub demoStore2.clock 1000 > demoStore2.maxTxAge) ∧ ([204] : TxContent).length > 0 ∧
      demoStore2.seenTxs.Exists demoStore2.clock 11 = true ∧
      (∃ res, (demoStore2.Add 11 [204] ShortIDEmpty 1 0 1000 5).2 = .ok res ∧
        res.AlreadySeen = true ∧ res.NewTx = false ∧ res.NewSID = false ∧
        res.NewContent = false ∧ res.Transaction = some (NewBxTransaction 11 1 0 1000)) ∧
      (demoStore2.Add 11 [204] ShortIDEmpty 1 0 1000 5).1.hashToContent =
        demoStore2.hashToContent ∧
      (demoStore2.Add 11 [204] ShortIDEmpty 1 0 1000 5).1.shortIDToHash =
        demoStore2.shortIDToHash ∧
      (demoStore2.Add 11 [204] ShortIDEmpty 1 0 1000 5).1 =
        { demoStore2 with
          seenTxs := demoStore2.seenTxs.Add demoStore2.clock 11 demoStore2.timeToAvoidReEntry } :=
  ⟨by decide, by decide, by decide,
   C4_seen_hash_without_shortID_is_suppressed demoStore2 11 [204] 1 0 1000 5 (by decide)
    (by decide) (by decide)⟩

/-- C5, as stated, fails in four ways. (a) The hash has no record: `Remove` does
nothing and the next `Add` without short ID stores the hash. (b) The hash was
stored and removed, but the `Add` is too old: the report is not `AlreadySeen`.
(c) The hash was stored and removed, then came back with short ID 42: the next
`Add` without short ID finds the record and is not `AlreadySeen`. (d) The hash
was stored and removed, the `Add` has neither short ID nor content: it does
not return. -/
theorem C5_counterexample :
    ((demoStore.RemoveHashes [11] FullReEntryProtection).2 = none ∧
      ∃ res, ((demoStore.RemoveHashes [11] FullReEntryProtection).1.Add 11 [170]
        ShortIDEmpty 1 0 1000 5).2 = .ok res ∧ res.AlreadySeen = false) ∧
    ((demoStore1.RemoveHashes [11] FullReEntryProtection).2 = none ∧
      ∃ res, ((demoStore1.RemoveHashes [11] FullReEntryProtection).1.Add 11 [170]
        ShortIDEmpty 1 0 400 5).2 = .ok res ∧ res.AlreadySeen = false) ∧
    (∃ res, (demoStore3.Add 11 [170] ShortIDEmpty 1 0 1000 5).2 = .ok res ∧
        res.AlreadySeen = false) ∧
    ((demoStore1.RemoveHashes [11] FullReEntryProtection).1.Add 11 []
        ShortIDEmpty 1 0 1000 5).2 = .error Fault.badUsage :=
  ⟨⟨by decide, _, rfl, rfl⟩, ⟨by decide, _, rfl, rfl⟩, ⟨_, rfl, rfl⟩, rfl⟩

/-- C5 (amended): for every hash that has a record in the hash index, after
`RemoveHashes([hash], Full)`, and after any further calls and clock advances
among which there is no `Add` of the hash carrying a short ID, an `Add` of the
hash without short ID, with non-empty content and a timestamp not older than
`maxTxAge`, made before `timeToAvoidReEntry` has elapsed since the removal,
returns `AlreadySeen = true`. -/
theorem C5_reentry_suppressed_after_full_removal (t : BxTxStore) (hash : SHA256Hash)
    (r : BxTransaction) (hl : Load t.hashToContent hash = some r) (ops : List Op)
    (hops : ∀ op ∈ ops, NotAddWithShortID hash op)
    (hwin : (run (t.RemoveHashes [hash] FullReEntryProtection).1 ops).1.clock <
      t.clock + t.timeToAvoidReEntry)
    (content : TxContent) (networkNum : NetworkNum) (flags : TxFlags) (timestamp : Int)
    (sender : Sender) (hc : content.length > 0)
    (hnew : ¬ (Time.Sub (run (t.RemoveHashes [hash] FullReEntryProtection).1 ops).1.clock timestamp >
      (run (t.RemoveHashes [hash] FullReEntryProtection).1 ops).1.maxTxAge)) :
    ∃ res, ((run (t.RemoveHashes [hash] FullReEntryProtection).1 ops).1.Add hash content
        ShortIDEmpty networkNum flags timestamp sender).2 = .ok res ∧
      res.AlreadySeen = true := by
  rw [RemoveHashes_singleton] at hwin hnew ⊢
  have h1 := Suppressed_after_remove t hash r hl
  have h2 := run_preserves (Suppressed hash t.clock t.timeToAvoidReEntry)
    (NotAddWithShortID hash) (Suppressed_step hash t.clock t.timeToAvoidReEntry) ops hops _ h1
  exact Add_of_Suppressed hash t.clock t.timeToAvoidReEntry _ h2 hwin content networkNum flags
    timestamp sender hc hnew

theorem C5_witness :
    (Load demoStore1.hashToContent 11).isSome = true ∧
      (∀ op ∈ demoOps, NotAddWithShortID 11 op) ∧
      (run (demoStore1.RemoveHashes [11] FullReEntryProtection).1 demoOps).2 = none ∧
      (run (demoStore1.RemoveHashes [11] FullReEntryProtection).1 demoOps).1.clock = 1150 ∧
      ∃ res, ((run (demoStore1.RemoveHashes [11] FullReEntryProtection).1 demoOps).1.Add 11 [170]
          ShortIDEmpty 1 0 1150 5).2 = .ok res ∧
        res.AlreadySeen = true :=
  ⟨by decide, by decide, by decide, by decide,
   C5_reentry_suppressed_after_full_removal demoStore1 11
    { hash := 11, content := [170], shortIDs := [7], addTime := 1000, flags := 0,
      networkNum := 1, sender := 5 } (by decide) demoOps (by decide) (by decide) [170] 1 0 1150 5
    (by decide) (by decide)⟩

/-- C6, as stated, fails for an `Add` that is too old: after hash 11 was stored
and removed with full protection, the `Add` of hash 11 with short ID 42 and a
timestamp older than `maxTxAge` returns, but no record of the hash is in the
hash index afterwards and the history still holds the hash. -/
theorem C6_counterexample :
    (Load demoStore1.hashToContent 11).isSome = true ∧
    (demoStore1.RemoveHashes [11] FullReEntryProtection).2 = none ∧
    (∃ res, ((demoStore1.RemoveHashes [11] FullReEntryProtection).1.Add 11 [] 42 1 0 400
      5).2 = .ok res) ∧
    Load ((demoStore1.RemoveHashes [11] FullReEntryProtection).1.Add 11 [] 42 1 0 400
      5).1.hashToContent 11 = none ∧
    ((demoStore1.RemoveHashes [11] FullReEntryProtection).1.Add 11 [] 42 1 0 400
      5).1.seenTxs.Exists 1000 11 = true :=
  ⟨by decide, by decide, ⟨_, rfl⟩, by decide, by decide⟩

/-- C6 (amended): in a state reached from an empty store, after
`RemoveHashes([hash], Full)` and any further calls and clock advances, an `Add`
of the hash with a short ID `X != NONE` and a timestamp not older than
`maxTxAge` returns a report that is not `AlreadySeen`; afterwards the hash
index holds for the hash the record returned, which lists `X` among its short
IDs, the short-ID index maps `X` to the hash whenever the call reports
`NewSID`, the call reports `NewTx` and `NewSID` when the hash had no record,
and `SeenHistory.Exists(hash)` is false. -/
theorem C6_add_with_shortID_after_full_removal (t0 t : BxTxStore) (h0 : IsEmpty t0)
    (hr : Reachable t0 t) (hash : SHA256Hash) (ops : List Op) (content : TxContent)
    (X : ShortID) (networkNum : NetworkNum) (flags : TxFlags) (timestamp : Int)
    (sender : Sender) (hX : X ≠ ShortIDEmpty)
    (hnew : ¬ (Time.Sub (run (t.RemoveHashes [hash] FullReEntryProtection).1 ops).1.clock timestamp >
      (run (t.RemoveHashes [hash] FullReEntryProtection).1 ops).1.maxTxAge)) :
    ∃ res r,
      ((run (t.RemoveHashes [hash] FullReEntryProtection).1 ops).1.Add hash content X
        networkNum flags timestamp sender).2 = .ok res ∧
      res.AlreadySeen = false ∧ res.Transaction = some r ∧
      Load ((run (t.RemoveHashes [hash] FullReEntryProtection).1 ops).1.Add hash content X
        networkNum flags timestamp sender).1.hashToContent hash = some r ∧
      r.hash = hash ∧ X ∈ r.shortIDs ∧
      (res.NewSID = true →
        Load ((run (t.RemoveHashes [hash] FullReEntryProtection).1 ops).1.Add hash content X
          networkNum flags timestamp sender).1.shortIDToHash X = some hash) ∧
      (Load (run (t.RemoveHashes [hash] FullReEntryProtection).1 ops).1.hashToContent hash =
          none → res.NewTx = true ∧ res.NewSID = true) ∧
      ((run (t.RemoveHashes [hash] FullReEntryProtection).1 ops).1.Add hash content X
        networkNum flags timestamp sender).1.seenTxs.Exists
        ((run (t.RemoveHashes [hash] FullReEntryProtection).1 ops).1.Add hash content X
          networkNum flags timestamp sender).1.clock hash = false := by
  have h1 : Inv (t.RemoveHashes [hash] FullReEntryProtection).1 :=
    RemoveHashes_preserves Inv Inv_remove _ _ t (Inv_of_Reachable t0 t h0 hr)
  have h2 : Inv (run (t.RemoveHashes [hash] FullReEntryProtection).1 ops).1 :=
    run_preserves Inv (fun _ => True) (fun t op _ ht => Inv_step t op ht) ops
      (fun _ _ => trivial) _ h1
  exact Add_with_shortID _ h2.1 hash content X networkNum flags timestamp sender hX hnew

theorem C6_witness :
    (42 : ShortID) ≠ ShortIDEmpty ∧
      ¬ (Time.Sub (run (demoStore1.RemoveHashes [11] FullReEntryProtection).1 [.tick 10]).1.clock 1000 >
        (run (demoStore1.RemoveHashes [11] FullReEntryProtection).1 [.tick 10]).1.maxTxAge) ∧
      (demoStore1.RemoveHashes [11] FullReEntryProtection).1.seenTxs.Exists 1010 11 = true ∧
      ∃ res r,
        ((run (demoStore1.RemoveHashes [11] FullReEntryProtection).1 [.tick 10]).1.Add 11 [] 42
          1 0 1000 5).2 = .ok res ∧
        res.AlreadySeen = false ∧ res.Transaction = some r ∧
        Load ((run (demoStore1.RemoveHashes [11] FullReEntryProtection).1 [.tick 10]).1.Add 11 []
          42 1 0 1000 5).1.hashToContent 11 = some r ∧
        r.hash = 11 ∧ 42 ∈ r.shortIDs ∧
        (res.NewSID = true →
          Load ((run (demoStore1.RemoveHashes [11] FullReEntryProtection).1 [.tick 10]).1.Add 11
            [] 42 1 0 1000 5).1.shortIDToHash 42 = some 11) ∧
        (Load (run (demoStore1.RemoveHashes [11] FullReEntryProtection).1 [.tick
            10]).1.hashToContent 11 = none → res.NewTx = true ∧ res.NewSID = true) ∧
        ((run (demoStore1.RemoveHashes [11] FullReEntryProtection).1 [.tick 10]).1.Add 11 [] 42
          1 0 1000 5).1.seenTxs.Exists
          ((run (demoStore1.RemoveHashes [11] FullReEntryProtection).1 [.tick 10]).1.Add 11 []
            42 1 0 1000 5).1.clock 11 = false :=
  ⟨by decide, by decide, by decide,
   C6_add_with_shortID_after_full_removal demoStore demoStore1 (by decide)
    (Reachable_of_step demoStore demoStore _ Reachable.start (by decide)) 11 [.tick 10] [] 42 1
    0 1000 5 (by decide) (by decide)⟩

/-- C7: in a state reached from an empty store, after an `Add` call that reports
`NewSID = true`, with `s` the short ID that was bound (the one minted by the
assigner if the report carries one, the supplied one otherwise),
`GetTxByShortID(s)` returns without error the record that the call returned,
that record has the given hash, and `Get(hash)` returns that record as present
(and changes nothing). -/
theorem C7_lookups_after_new_shortID (t0 t : BxTxStore) (h0 : IsEmpty t0) (hr : Reachable t0 t)
    (hash : SHA256Hash) (content : TxContent) (shortID : ShortID) (networkNum : NetworkNum)
    (flags : TxFlags) (timestamp : Int) (sender : Sender) (res : TransactionResult)
    (hres : (t.Add hash content shortID networkNum flags timestamp sender).2 = .ok res)
    (hn : res.NewSID = true) :
    ∃ r, res.Transaction = some r ∧
      (t.Add hash content shortID networkNum flags timestamp sender).1.GetTxByShortID
        (if res.AssignedShortID = ShortIDEmpty then shortID else res.AssignedShortID) = .ok r ∧
      r.hash = hash ∧
      (t.Add hash content shortID networkNum flags timestamp sender).1.Get hash =
        ((t.Add hash content shortID networkNum flags timestamp sender).1, some r, true) :=
  lookups_after_NewSID t (Inv_of_Reachable t0 t h0 hr).1 hash content shortID networkNum flags
    timestamp sender res hres hn

theorem C7_witness :
    (demoStore.Add 11 [170] ShortIDEmpty 1 0 1000 5).2 =
        .ok { Transaction := some { hash := 11, content := [170], shortIDs := [7],
                                    addTime := 1000, flags := 0, networkNum := 1, sender := 5 },
              NewTx := true, NewContent := true, NewSID := true, AssignedShortID := 7 } ∧
      ∃ r, some { hash := 11, content := [170], shortIDs := [7], addTime := 1000, flags := 0,
                  networkNum := 1, sender := 5 } = some r ∧
        (demoStore.Add 11 [170] ShortIDEmpty 1 0 1000 5).1.GetTxByShortID 7 = .ok r ∧
        r.hash = 11 ∧
        (demoStore.Add 11 [170] ShortIDEmpty 1 0 1000 5).1.Get 11 =
          ((demoStore.Add 11 [170] ShortIDEmpty 1 0 1000 5).1, some r, true) :=
  ⟨rfl,
   C7_lookups_after_new_shortID demoStore demoStore (by decide) Reachable.start 11 [170]
    ShortIDEmpty 1 0 1000 5 _ rfl rfl⟩

/-- C8: for every hash that has a record in the hash index, after
`RemoveHashes([hash], protection)` the hash index no longer contains the hash,
every short ID that the removed record held is absent from the short-ID index,
and the records of all other hashes are in the hash index unchanged. With a
valid protection value the call returns, provided a bloom filter is configured
or the protection is `None`. -/
theorem C8_remove_deletes_record_and_shortIDs (t : BxTxStore) (hash : SHA256Hash)
    (r : BxTransaction) (p : ReEntryProtectionFlags)
    (hl : Load t.hashToContent hash = some r) :
    Load (t.RemoveHashes [hash] p).1.hashToContent hash = none ∧
      (∀ sid ∈ r.shortIDs, Load (t.RemoveHashes [hash] p).1.shortIDToHash sid = none) ∧
      (∀ k, k ≠ hash →
        Load (t.RemoveHashes [hash] p).1.hashToContent k = Load t.hashToContent k) ∧
      (ValidProtection p → (t.bloom ≠ none ∨ p = NoReEntryProtection) →
        (t.RemoveHashes [hash] p).2 = none) := by
  rw [RemoveHashes_singleton]
  refine ⟨?_, ?_, ?_, ?_⟩
  · rw [remove_hashToContent, Load_Delete_self]
  · intro sid hsid
    rw [remove_shortIDToHash t hash p r hl, Load_DeleteAll, if_pos hsid]
  · intro k hk
    rw [remove_hashToContent, Load_Delete_ne _ (Ne.symm hk)]
  · intro hp hb
    exact remove_returns t hash p hp hb

theorem C8_witness :
    Load demoStore3.hashToContent 11 =
        some { hash := 11, content := [], shortIDs := [42], addTime := 1000, flags := 0,
               networkNum := 1, sender := EmptySender } ∧
      Load demoStore3.shortIDToHash 42 = some 11 ∧
      Load (demoStore3.RemoveHashes [11] ShortReEntryProtection).1.hashToContent 11 = none ∧
      (∀ sid ∈ [42],
        Load (demoStore3.RemoveHashes [11] ShortReEntryProtection).1.shortIDToHash sid = none) ∧
      (∀ k, k ≠ 11 →
        Load (demoStore3.RemoveHashes [11] ShortReEntryProtection).1.hashToContent k =
          Load demoStore3.hashToContent k) ∧
      (ValidProtection ShortReEntryProtection →
        (demoStore3.bloom ≠ none ∨ ShortReEntryProtection = NoReEntryProtection) →
        (demoStore3.RemoveHashes [11] ShortReEntryProtection).2 = none) :=
  ⟨by decide, by decide,
   C8_remove_deletes_record_and_shortIDs demoStore3 11
    { hash := 11, content := [], shortIDs := [42], addTime := 1000, flags := 0,
      networkNum := 1, sender := EmptySender } ShortReEntryProtection (by decide)⟩

/-- C9: removing a stored hash applies the re-entry protection table. With `None`
the history and the bloom filter are unchanged. With `Short` the hash is
entered into the history with `ShortReEntryProtectionDuration` (so that
`Exists` holds exactly until `clock + ShortReEntryProtectionDuration`) and
added to the bloom filter. With `Full` the hash is entered into the history
with `timeToAvoidReEntry` and added to the bloom filter. The call with `None`
returns; the calls with `Short` and `Full` return when a bloom filter is
configured. -/
theorem C9_remove_applies_protection_table (t : BxTxStore) (hash : SHA256Hash)
    (r : BxTransaction) (hl : Load t.hashToContent hash = some r) :
    ((t.RemoveHashes [hash] NoReEntryProtection).1.seenTxs = t.seenTxs ∧
      (t.RemoveHashes [hash] NoReEntryProtection).1.bloom = t.bloom ∧
      (t.RemoveHashes [hash] NoReEntryProtection).2 = none) ∧
    ((t.RemoveHashes [hash] ShortReEntryProtection).1.seenTxs =
        t.seenTxs.Add t.clock hash t.ShortReEntryProtectionDuration ∧
      (∀ now, (t.RemoveHashes [hash] ShortReEntryProtection).1.seenTxs.Exists now hash =
        decide (now < t.clock + t.ShortReEntryProtectionDuration)) ∧
      (t.RemoveHashes [hash] ShortReEntryProtection).1.bloom =
        t.bloom.map (fun b => b.Add hash) ∧
      (∀ b, t.bloom = some b →
        (t.RemoveHashes [hash] ShortReEntryProtection).1.bloom = some (b.Add hash) ∧
        (b.Add hash).Check hash = true ∧
        (t.RemoveHashes [hash] ShortReEntryProtection).2 = none)) ∧
    ((t.RemoveHashes [hash] FullReEntryProtection).1.seenTxs =
        t.seenTxs.Add t.clock hash t.timeToAvoidReEntry ∧
      (∀ now, (t.RemoveHashes [hash] FullReEntryProtection).1.seenTxs.Exists now hash =
        decide (now < t.clock + t.timeToAvoidReEntry)) ∧
      (t.RemoveHashes [hash] FullReEntryProtection).1.bloom =
        t.bloom.map (fun b => b.Add hash) ∧
      (∀ b, t.bloom = some b →
        (t.RemoveHashes [hash] FullReEntryProtection).1.bloom = some (b.Add hash) ∧
        (b.Add hash).Check hash = true ∧
        (t.RemoveHashes [hash] FullReEntryProtection).2 = none)) := by
  simp only [RemoveHashes_singleton]
  have hs := remove_seenTxs t hash ShortReEntryProtection r hl
  have hf := remove_seenTxs t hash FullReEntryProtection r hl
  have hn := remove_seenTxs t hash NoReEntryProtection r hl
  have bs := remove_bloom t hash ShortReEntryProtection r hl
  have bf := remove_bloom t hash FullReEntryProtection r hl
  have bn := remove_bloom t hash NoReEntryProtection r hl
  rw [if_pos rfl] at hs
  rw [if_neg full_ne_short, if_pos rfl] at hf
  rw [if_neg (Ne.symm short_ne_no), if_neg (Ne.symm full_ne_no)] at hn
  rw [if_pos (Or.inl rfl)] at bs
  rw [if_pos (Or.inr rfl)] at bf
  rw [if_neg (by intro h; rcases h with h | h
                 · exact short_ne_no h.symm
                 · exact full_ne_no h.symm)] at bn
  refine ⟨⟨hn, bn, ?_⟩, ⟨hs, ?_, bs, ?_⟩, ⟨hf, ?_, bf, ?_⟩⟩
  · exact remove_returns t hash _ (Or.inl rfl) (Or.inr rfl)
  · intro now; rw [hs, Exists_Add, if_pos rfl]
  · intro b hb
    refine ⟨by rw [bs, hb]; rfl, Check_Add_self b hash, ?_⟩
    exact remove_returns t hash _ (Or.inr (Or.inl rfl)) (Or.inl (by rw [hb]; simp))
  · intro now; rw [hf, Exists_Add, if_pos rfl]
  · intro b hb
    refine ⟨by rw [bf, hb]; rfl, Check_Add_self b hash, ?_⟩
    exact remove_returns t hash _ (Or.inr (Or.inr rfl)) (Or.inl (by rw [hb]; simp))

theorem C9_witness :
    Load demoStore1.hashToContent 11 =
        some { hash := 11, content := [170], shortIDs := [7], addTime := 1000, flags := 0,
               networkNum := 1, sender := 5 } ∧
      (demoStore1.RemoveHashes [11] NoReEntryProtection).1.seenTxs = { data := [] } ∧
      (demoStore1.RemoveHashes [11] ShortReEntryProtection).1.seenTxs = { data := [(11, 1050)] } ∧
      (demoStore1.RemoveHashes [11] FullReEntryProtection).1.seenTxs = { data := [(11, 1300)] } ∧
      (demoStore1.RemoveHashes [11] FullReEntryProtection).1.bloom =
        some { added := [11], falsePositives := [] } ∧
      (demoStore1.RemoveHashes [11] FullReEntryProtection).2 = none :=
  ⟨by decide,
   (C9_remove_applies_protection_table demoStore1 11
      { hash := 11, content := [170], shortIDs := [7], addTime := 1000, flags := 0,
        networkNum := 1, sender := 5 } (by decide)).1.1,
   (C9_remove_applies_protection_table demoStore1 11
      { hash := 11, content := [170], shortIDs := [7], addTime := 1000, flags := 0,
        networkNum := 1, sender := 5 } (by decide)).2.1.1,
   (C9_remove_applies_protection_table demoStore1 11
      { hash := 11, content := [170], shortIDs := [7], addTime := 1000, flags := 0,
        networkNum := 1, sender := 5 } (by decide)).2.2.1,
   ((C9_remove_applies_protection_table demoStore1 11
      { hash := 11, content := [170], shortIDs := [7], addTime := 1000, flags := 0,
        networkNum := 1, sender := 5 } (by decide)).2.2.2.2.2
      { added := [], falsePositives := [] } rfl).1,
   ((C9_remove_applies_protection_table demoStore1 11
      { hash := 11, content := [170], shortIDs := [7], addTime := 1000, flags := 0,
        networkNum := 1, sender := 5 } (by decide)).2.2.2.2.2
      { added := [], falsePositives := [] } rfl).2.2⟩

/-- C10: `Add` fails (panics) if and only if `shortID = NONE` and the content is
empty; the failure is then the misuse panic and the store is exactly as it was
before the call (hash index, short-ID index, history and all the rest). -/
theorem C10_add_panics_iff_bad_usage (t : BxTxStore) (hash : SHA256Hash)
    (content : TxContent) (shortID : ShortID) (networkNum : NetworkNum) (flags : TxFlags)
    (timestamp : Int) (sender : Sender) :
    ((∃ f, (t.Add hash content shortID networkNum flags timestamp sender).2 = .error f) ↔
        (shortID = ShortIDEmpty ∧ content.length = 0)) ∧
      ((shortID = ShortIDEmpty ∧ content.length = 0) →
        t.Add hash content shortID networkNum flags timestamp sender =
          (t, .error Fault.badUsage)) := by
  refine ⟨⟨?_, ?_⟩, Add_of_badUsage t hash content shortID networkNum flags timestamp sender⟩
  · rintro ⟨f, hf⟩
    by_contra h
    obtain ⟨res, hres⟩ := Add_returns t hash content shortID networkNum flags timestamp sender h
    rw [hres] at hf
    cases hf
  · intro h
    rw [Add_of_badUsage t hash content shortID networkNum flags timestamp sender h]
    exact ⟨_, rfl⟩

/-- C11, as stated, fails for a hash that has no record: on the empty store,
`RemoveHashes([11], 7)` and `RemoveShortIDs([7], 7)`, made with the unknown
protection value 7, return and leave the store as it was. -/
theorem C11_counterexample :
    ¬ ValidProtection 7 ∧ demoStore.RemoveHashes [11] 7 = (demoStore, none) ∧
      demoStore.RemoveShortIDs [7] 7 = (demoStore, none) :=
  ⟨by decide, by decide, by decide⟩

/-- C11 (amended): with a re-entry protection value other than `None`, `Short`
or `Full`, `RemoveHashes` is a fatal error as soon as one hash of the list has
a record (in particular `RemoveHashes([hash])` for a stored hash), and
`RemoveShortIDs` is a fatal error as soon as one short ID of the list is in the
short-ID index with a hash that has a record; when no hash of the list has a
record, and when no short ID of the list is in the index, the call returns and
changes nothing. -/
theorem C11_unknown_protection_is_fatal_for_stored_hashes (t : BxTxStore)
    (p : ReEntryProtectionFlags) (hp : ¬ ValidProtection p) :
    (∀ hash r, Load t.hashToContent hash = some r →
        (t.RemoveHashes [hash] p).2 = some Fault.unknownReEntryProtection) ∧
      (∀ hashes, (∃ h ∈ hashes, Load t.hashToContent h ≠ none) →
        (t.RemoveHashes hashes p).2 = some Fault.unknownReEntryProtection) ∧
      (∀ shortIDs,
        (∃ sid ∈ shortIDs, ∃ h, Load t.shortIDToHash sid = some h ∧
          Load t.hashToContent h ≠ none) →
        (t.RemoveShortIDs shortIDs p).2 = some Fault.unknownReEntryProtection) ∧
      (∀ hashes, (∀ h ∈ hashes, Load t.hashToContent h = none) →
        t.RemoveHashes hashes p = (t, none)) ∧
      (∀ shortIDs, (∀ sid ∈ shortIDs, Load t.shortIDToHash sid = none) →
        t.RemoveShortIDs shortIDs p = (t, none)) := by
  refine ⟨?_, ?_, ?_, ?_, ?_⟩
  · intro hash r hl
    exact RemoveHashes_of_invalid [hash] p hp t
      ⟨hash, List.mem_cons_self _ _, by rw [hl]; simp⟩
  · intro hashes he
    exact RemoveHashes_of_invalid hashes p hp t he
  · intro shortIDs he
    obtain ⟨sid, hsid, h, hl, hne⟩ := he
    unfold RemoveShortIDs
    exact RemoveHashes_of_invalid _ p hp t
      ⟨h, (mem_hashesToRemove t shortIDs h).mpr ⟨sid, hsid, hl⟩, hne⟩
  · intro hashes ha
    exact RemoveHashes_of_absent hashes p t ha
  · intro shortIDs ha
    unfold RemoveShortIDs
    apply RemoveHashes_of_absent
    intro h hm
    obtain ⟨sid, hsid, hl⟩ := (mem_hashesToRemove t shortIDs h).mp hm
    rw [ha sid hsid] at hl
    cases hl

theorem C11_witness :
    ¬ ValidProtection 7 ∧
      (demoStore1.RemoveHashes [11] 7).2 = some Fault.unknownReEntryProtection ∧
      (demoStore1.RemoveHashes [12, 11] 7).2 = some Fault.unknownReEntryProtection ∧
      (demoStore1.RemoveShortIDs [7] 7).2 = some Fault.unknownReEntryProtection ∧
      demoStore1.RemoveHashes [12, 13] 7 = (demoStore1, none) ∧
      demoStore1.RemoveShortIDs [8, 9] 7 = (demoStore1, none) :=
  ⟨by decide,
   (C11_unknown_protection_is_fatal_for_stored_hashes demoStore1 7 (by decide)).1 11
     { hash := 11, content := [170], shortIDs := [7], addTime := 1000, flags := 0,
       networkNum := 1, sender := 5 } (by decide),
   (C11_unknown_protection_is_fatal_for_stored_hashes demoStore1 7 (by decide)).2.1 [12, 11]
     ⟨11, by decide, by decide⟩,
   (C11_unknown_protection_is_fatal_for_stored_hashes demoStore1 7 (by decide)).2.2.1 [7]
     ⟨7, by decide, 11, by decide, by decide⟩,
   (C11_unknown_protection_is_fatal_for_stored_hashes demoStore1 7 (by decide)).2.2.2.1 [12, 13]
     (by decide),
   (C11_unknown_protection_is_fatal_for_stored_hashes demoStore1 7 (by decide)).2.2.2.2 [8, 9]
     (by decide)⟩

/-- C12, as stated, fails: hash 22 is stored by an `Add` without flags and comes
back in an `Add` that reaches the load-or-store with the flag `ValidatorsOnly`;
the record still has no flag, while the bitwise OR of the flags of the two calls
is `ValidatorsOnly`. -/
theorem C12_counterexample :
    Load demoStore.hashToContent 22 = none ∧ Stores demoStore 22 [] 9 1000 ∧
      (run (demoStore.Add 22 [] 9 1 0 1000 0).1
        [.add 22 [] 9 1 TFValidatorsOnly 1000 0]).2 = none ∧
      Stores (demoStore.Add 22 [] 9 1 0 1000 0).1 22 [] 9 1000 ∧
      Load (run (demoStore.Add 22 [] 9 1 0 1000 0).1
        [.add 22 [] 9 1 TFValidatorsOnly 1000 0]).1.hashToContent 22 =
        some { hash := 22, content := [], shortIDs := [9], addTime := 1000, flags := 0,
               networkNum := 1, sender := EmptySender } ∧
      flagsUnion 22 (demoStore.Add 22 [] 9 1 0 1000 0).1
        [.add 22 [] 9 1 TFValidatorsOnly 1000 0] 0 = TFValidatorsOnly ∧
      (0 : TxFlags) ≠ TFValidatorsOnly :=
  ⟨by decide, by decide, by decide, by decide, by decide, by decide, by decide⟩

/-- C12 (amended): a record created by an `Add` call with flags `flags` and not
removed during the calls `ops` that follow (all of which return) has, after
these calls, the flags `flags` OR-ed with the `Paid` and `DeliverToNode` bits
of the flags of every later `Add` call for its hash that was neither a misuse,
nor rejected as too old, nor suppressed by the history. -/
theorem C12_record_flags_are_union_of_raised_bits (t : BxTxStore) (hash : SHA256Hash)
    (content : TxContent) (shortID : ShortID) (networkNum : NetworkNum) (flags : TxFlags)
    (timestamp : Int) (sender : Sender) (hl : Load t.hashToContent hash = none)
    (hs : Stores t hash content shortID timestamp) (ops : List Op)
    (hrun : (run (t.Add hash content shortID networkNum flags timestamp sender).1 ops).2 = none)
    (hp : persists hash (t.Add hash content shortID networkNum flags timestamp sender).1 ops
      = true) :
    ∃ r, Load (run (t.Add hash content shortID networkNum flags timestamp sender).1
        ops).1.hashToContent hash = some r ∧
      r.flags = flagsAfter hash (t.Add hash content shortID networkNum flags timestamp sender).1
        ops flags := by
  obtain ⟨r0, hl0, hf0⟩ := created_flags t hash content shortID networkNum flags timestamp
    sender hl hs
  obtain ⟨r1, hl1, hf1⟩ := flags_run hash ops _ r0 hl0 hrun hp
  exact ⟨r1, hl1, by rw [hf1, hf0]⟩

theorem C12_witness :
    Load demoStore.hashToContent 22 = none ∧ Stores demoStore 22 [] 9 1000 ∧
      (run (demoStore.Add 22 [] 9 1 0 1000 0).1 demoOps2).2 = none ∧
      persists 22 (demoStore.Add 22 [] 9 1 0 1000 0).1 demoOps2 = true ∧
      flagsAfter 22 (demoStore.Add 22 [] 9 1 0 1000 0).1 demoOps2 0 = TFPaidTx ∧
      ∃ r, Load (run (demoStore.Add 22 [] 9 1 0 1000 0).1 demoOps2).1.hashToContent 22 =
          some r ∧
        r.flags = flagsAfter 22 (demoStore.Add 22 [] 9 1 0 1000 0).1 demoOps2 0 :=
  ⟨by decide, by decide, by decide, by decide, by decide,
   C12_record_flags_are_union_of_raised_bits demoStore 22 [] 9 1 0 1000 0 (by decide)
    (by decide) demoOps2 (by decide) (by decide)⟩

/-- C13: for every `Add` call on a hash that already has a record, the hash still
has a record after the call and every flag bit set on the record before the
call is set on it after the call. -/
theorem C13_flags_never_cleared (t : BxTxStore) (hash : SHA256Hash) (content : TxContent)
    (shortID : ShortID) (networkNum : NetworkNum) (flags : TxFlags) (timestamp : Int)
    (sender : Sender) (r : BxTransaction) (hl : Load t.hashToContent hash = some r) :
    ∃ r1, Load (t.Add hash content shortID networkNum flags timestamp sender).1.hashToContent
        hash = some r1 ∧
      ∀ i, Nat.testBit r.flags i = true → Nat.testBit r1.flags i = true := by
  by_cases hs : Stores t hash content shortID timestamp
  · refine ⟨_, by rw [Load_Add _ _ _ _ _ _ _ _ hs, if_pos rfl], ?_⟩
    intro i hi
    rw [locked_of_some t hash content shortID networkNum flags timestamp sender r hl,
      addLocked_tx_flags, Nat.testBit_or, hi]
    rfl
  · refine ⟨r, by rw [Add_hashToContent_of_not_Stores _ _ _ _ _ _ _ _ hs]; exact hl, ?_⟩
    intro i hi
    exact hi

theorem C13_witness :
    Load demoStore5.hashToContent 33 =
        some { hash := 33, content := [1], shortIDs := [], addTime := 1000,
               flags := TFValidatorsOnly, networkNum := 1, sender := 5 } ∧
      Load (demoStore5.Add 33 [1] ShortIDEmpty 1 TFPaidTx 1000 5).1.hashToContent 33 =
        some { hash := 33, content := [1], shortIDs := [], addTime := 1000,
               flags := TFValidatorsOnly ||| TFPaidTx, networkNum := 1, sender := 5 } ∧
      ∃ r1, Load (demoStore5.Add 33 [1] ShortIDEmpty 1 TFPaidTx 1000 5).1.hashToContent 33 =
          some r1 ∧
        ∀ i, Nat.testBit TFValidatorsOnly i = true → Nat.testBit r1.flags i = true :=
  ⟨by decide, by decide,
   C13_flags_never_cleared demoStore5 33 [1] ShortIDEmpty 1 TFPaidTx 1000 5
    { hash := 33, content := [1], shortIDs := [], addTime := 1000,
      flags := TFValidatorsOnly, networkNum := 1, sender := 5 } (by decide)⟩

/-- C14: for every `Add` call that reaches the load-or-store (not a misuse, not
too old, not suppressed by the history), `Reprocess` is true if and only if
the incoming flags contain `Paid` while the flags of the record before the call
did not, or the incoming flags contain `DeliverToNode` while the flags of the
record before the call did not; on a first admission (`NewTx = true`, the hash
had no record) `Reprocess` is false. -/
theorem C14_reprocess_iff_flag_raised (t : BxTxStore) (hash : SHA256Hash)
    (content : TxContent) (shortID : ShortID) (networkNum : NetworkNum) (flags : TxFlags)
    (timestamp : Int) (sender : Sender) (hs : Stores t hash content shortID timestamp) :
    ∃ res, (t.Add hash content shortID networkNum flags timestamp sender).2 = .ok res ∧
      (∀ r, Load t.hashToContent hash = some r →
        res.NewTx = false ∧
        (res.Reprocess = true ↔
          (flags.IsPaid = true ∧ r.flags.IsPaid = false) ∨
            (flags.ShouldDeliverToNode = true ∧ r.flags.ShouldDeliverToNode = false))) ∧
      (Load t.hashToContent hash = none → res.NewTx = true ∧ res.Reprocess = false) ∧
      (res.NewTx = true → res.Reprocess = false) := by
  refine ⟨_, Add_result_of_Stores _ _ _ _ _ _ _ _ hs, ?_, ?_, ?_⟩
  · intro r hl
    rw [locked_of_some t hash content shortID networkNum flags timestamp sender r hl,
      addLocked_Reprocess, addLocked_NewTx]
    refine ⟨rfl, ?_⟩
    cases flags.IsPaid <;> cases r.flags.IsPaid <;> cases flags.ShouldDeliverToNode <;>
      cases r.flags.ShouldDeliverToNode <;> simp
  · intro hl
    rw [locked_of_none t hash content shortID networkNum flags timestamp sender hl,
      addLocked_Reprocess, addLocked_NewTx]
    refine ⟨rfl, ?_⟩
    simp [NewBxTransaction]
  · intro hn
    cases hl : Load t.hashToContent hash with
    | some r =>
      rw [locked_of_some t hash content shortID networkNum flags timestamp sender r hl,
        addLocked_NewTx] at hn
      cases hn
    | none =>
      rw [locked_of_none t hash content shortID networkNum flags timestamp sender hl,
        addLocked_Reprocess]
      simp [NewBxTransaction]

theorem C14_witness :
    Stores demoStore4 22 [187] ShortIDEmpty 1000 ∧
      ∃ res, (demoStore4.Add 22 [187] ShortIDEmpty 1 TFPaidTx 1000 5).2 = .ok res ∧
        (∀ r, Load demoStore4.hashToContent 22 = some r →
          res.NewTx = false ∧
          (res.Reprocess = true ↔
            (TxFlags.IsPaid TFPaidTx = true ∧ r.flags.IsPaid = false) ∨
              (TxFlags.ShouldDeliverToNode TFPaidTx = true ∧
                r.flags.ShouldDeliverToNode = false))) ∧
        (Load demoStore4.hashToContent 22 = none → res.NewTx = true ∧ res.Reprocess = false) ∧
        (res.NewTx = true → res.Reprocess = false) :=
  ⟨by decide,
   C14_reprocess_iff_flag_raised demoStore4 22 [187] ShortIDEmpty 1 TFPaidTx 1000 5 (by decide)⟩

/-- C15: for every `Add` call that reaches the load-or-store, if `NewTx` is true,
the supplied short ID is `NONE` and the incoming flags contain neither
`ValidatorsOnly` nor `NextValidator`, then `Next` of the assigner is called
exactly once and its value is reported in `AssignedShortID`; in every other
case the assigner is left as it was (it is not called) and `AssignedShortID`
is `NONE`. -/
theorem C15_assigner_called_iff_minting (t : BxTxStore) (hash : SHA256Hash)
    (content : TxContent) (shortID : ShortID) (networkNum : NetworkNum) (flags : TxFlags)
    (timestamp : Int) (sender : Sender) (hs : Stores t hash content shortID timestamp) :
    ∃ res, (t.Add hash content shortID networkNum flags timestamp sender).2 = .ok res ∧
      ((res.NewTx = true ∧ shortID = ShortIDEmpty ∧ flags.IsValidatorsOnly = false ∧
          flags.IsNextValidator = false) →
        (t.Add hash content shortID networkNum flags timestamp sender).1.assigner =
          t.assigner.Next.2 ∧
        (t.Add hash content shortID networkNum flags timestamp sender).1.assigner.calls =
          t.assigner.calls + 1 ∧
        res.AssignedShortID = t.assigner.Next.1) ∧
      (¬ (res.NewTx = true ∧ shortID = ShortIDEmpty ∧ flags.IsValidatorsOnly = false ∧
          flags.IsNextValidator = false) →
        (t.Add hash content shortID networkNum flags timestamp sender).1.assigner = t.assigner ∧
        res.AssignedShortID = ShortIDEmpty) := by
  have hcalls : t.assigner.Next.2.calls = t.assigner.calls + 1 := by
    unfold ShortIDAssigner.Next; split <;> rfl
  refine ⟨_, Add_result_of_Stores _ _ _ _ _ _ _ _ hs, ?_, ?_⟩
  · rintro ⟨hn, hsid, hv, hnv⟩
    rw [Add_assigner_of_Stores _ _ _ _ _ _ _ _ hs]
    cases hl : Load t.hashToContent hash with
    | some r =>
      rw [locked_of_some t hash content shortID networkNum flags timestamp sender r hl,
        addLocked_NewTx] at hn
      cases hn
    | none =>
      have hm : mints (NewBxTransaction hash networkNum flags timestamp) true shortID flags
          = true := by
        rw [mints_of_fresh (NewBxTransaction hash networkNum flags timestamp) shortID flags rfl,
          hv, hnv]
        simp [hsid]
      rw [locked_of_none t hash content shortID networkNum flags timestamp sender hl,
        addLocked_assigner, addLocked_AssignedShortID, if_pos hm, if_pos hm,
        afterSeenCheck_assigner]
      refine ⟨rfl, hcalls, ?_⟩
      unfold boundShortID
      rw [if_pos hm, afterSeenCheck_assigner]
  · intro hc
    rw [Add_assigner_of_Stores _ _ _ _ _ _ _ _ hs]
    cases hl : Load t.hashToContent hash with
    | some r =>
      rw [locked_of_some t hash content shortID networkNum flags timestamp sender r hl,
        addLocked_assigner, addLocked_AssignedShortID, mints_of_not_newTx,
        afterSeenCheck_assigner]
      exact ⟨rfl, rfl⟩
    | none =>
      rw [locked_of_none t hash content shortID networkNum flags timestamp sender hl,
        addLocked_NewTx] at hc
      have hm : mints (NewBxTransaction hash networkNum flags timestamp) true shortID flags
          = false := by
        rw [mints_of_fresh (NewBxTransaction hash networkNum flags timestamp) shortID flags rfl]
        by_contra hne
        apply hc
        simp only [Bool.not_eq_false, Bool.and_eq_true, decide_eq_true_eq,
          Bool.not_eq_true'] at hne
        exact ⟨rfl, hne.1.1, hne.1.2, hne.2⟩
      rw [locked_of_none t hash content shortID networkNum flags timestamp sender hl,
        addLocked_assigner, addLocked_AssignedShortID, hm, afterSeenCheck_assigner]
      exact ⟨rfl, rfl⟩

theorem C15_witness :
    Stores demoStore 11 [170] ShortIDEmpty 1000 ∧
      (demoStore.Add 11 [170] ShortIDEmpty 1 0 1000 5).1.assigner =
        { upcoming := [8, 9], calls := 1 } ∧
      (demoStore.Add 33 [1] ShortIDEmpty 1 TFValidatorsOnly 1000 5).1.assigner =
        demoStore.assigner ∧
      ∃ res, (demoStore.Add 11 [170] ShortIDEmpty 1 0 1000 5).2 = .ok res ∧
        ((res.NewTx = true ∧ ShortIDEmpty = ShortIDEmpty ∧ TxFlags.IsValidatorsOnly 0 = false ∧
            TxFlags.IsNextValidator 0 = false) →
          (demoStore.Add 11 [170] ShortIDEmpty 1 0 1000 5).1.assigner =
            demoStore.assigner.Next.2 ∧
          (demoStore.Add 11 [170] ShortIDEmpty 1 0 1000 5).1.assigner.calls =
            demoStore.assigner.calls + 1 ∧
          res.AssignedShortID = demoStore.assigner.Next.1) ∧
        (¬ (res.NewTx = true ∧ ShortIDEmpty = ShortIDEmpty ∧
            TxFlags.IsValidatorsOnly 0 = false ∧ TxFlags.IsNextValidator 0 = false) →
          (demoStore.Add 11 [170] ShortIDEmpty 1 0 1000 5).1.assigner = demoStore.assigner ∧
          res.AssignedShortID = ShortIDEmpty) :=
  ⟨by decide, by decide, by decide,
   C15_assigner_called_iff_minting demoStore 11 [170] ShortIDEmpty 1 0 1000 5 (by decide)⟩

/-- C16: `Add` is idempotent on (hash, empty content, same short ID). For every
store and every arguments with empty content and `shortID != NONE`, the second
of two identical calls in a row leaves the whole store as the first call left
it, in particular the hash index with the record (flags, short IDs, content,
sender) and the short-ID index, and reports `NewTx = false`, `NewSID = false`
and `NewContent = false`. -/
theorem C16_add_idempotent (t : BxTxStore) (hash : SHA256Hash) (X : ShortID)
    (networkNum : NetworkNum) (flags : TxFlags) (timestamp : Int) (sender : Sender)
    (hX : X ≠ ShortIDEmpty) :
    ((t.Add hash [] X networkNum flags timestamp sender).1.Add hash [] X networkNum flags
        timestamp sender).1 = (t.Add hash [] X networkNum flags timestamp sender).1 ∧
      ((t.Add hash [] X networkNum flags timestamp sender).1.Add hash [] X networkNum flags
        timestamp sender).1.hashToContent =
        (t.Add hash [] X networkNum flags timestamp sender).1.hashToContent ∧
      ((t.Add hash [] X networkNum flags timestamp sender).1.Add hash [] X networkNum flags
        timestamp sender).1.shortIDToHash =
        (t.Add hash [] X networkNum flags timestamp sender).1.shortIDToHash ∧
      ∃ res, ((t.Add hash [] X networkNum flags timestamp sender).1.Add hash [] X networkNum
          flags timestamp sender).2 = .ok res ∧
        res.NewTx = false ∧ res.NewSID = false ∧ res.NewContent = false := by
  obtain ⟨res, h, h1, h2, h3⟩ := Add_twice t hash X networkNum flags timestamp sender hX
  rw [h]
  exact ⟨rfl, rfl, rfl, res, rfl, h1, h2, h3⟩

theorem C16_witness :
    (9 : ShortID) ≠ ShortIDEmpty ∧
      (demoStore.Add 22 [] 9 1 TFPaidTx 1000 0).1.hashToContent =
        [(22, { hash := 22, content := [], shortIDs := [9], addTime := 1000, flags := TFPaidTx,
                networkNum := 1, sender := EmptySender })] ∧
      ((demoStore.Add 22 [] 9 1 TFPaidTx 1000 0).1.Add 22 [] 9 1 TFPaidTx 1000 0).1 =
        (demoStore.Add 22 [] 9 1 TFPaidTx 1000 0).1 ∧
      ((demoStore.Add 22 [] 9 1 TFPaidTx 1000 0).1.Add 22 [] 9 1 TFPaidTx 1000 0).1.hashToContent
        = (demoStore.Add 22 [] 9 1 TFPaidTx 1000 0).1.hashToContent ∧
      ((demoStore.Add 22 [] 9 1 TFPaidTx 1000 0).1.Add 22 [] 9 1 TFPaidTx 1000 0).1.shortIDToHash
        = (demoStore.Add 22 [] 9 1 TFPaidTx 1000 0).1.shortIDToHash ∧
      ∃ res, ((demoStore.Add 22 [] 9 1 TFPaidTx 1000 0).1.Add 22 [] 9 1 TFPaidTx 1000 0).2 =
          .ok res ∧
        res.NewTx = false ∧ res.NewSID = false ∧ res.NewContent = false :=
  ⟨by decide, by decide, C16_add_idempotent demoStore 22 9 1 TFPaidTx 1000 0 (by decide)⟩

/-- C17: for every `Add` call that reaches the load-or-store, the sender of the
record afterwards is the sender of the call when `NewContent` is true and the
sender the record had before otherwise (the empty sender for a record just
created), and likewise for the content. In particular, when the hash has a
record without content and the call brings non-empty content and no short
ID, the report has `NewTx = false`, `NewSID = false`, `NewContent = true`, no
short ID is minted, and the record gets the content and the sender of the
call; when the record already has content, `NewContent` is false and content
and sender are unchanged. -/
theorem C17_sender_set_only_with_new_content (t : BxTxStore) (hash : SHA256Hash)
    (content : TxContent) (shortID : ShortID) (networkNum : NetworkNum) (flags : TxFlags)
    (timestamp : Int) (sender : Sender) (hs : Stores t hash content shortID timestamp) :
    ∃ res r1, (t.Add hash content shortID networkNum flags timestamp sender).2 = .ok res ∧
      Load (t.Add hash content shortID networkNum flags timestamp sender).1.hashToContent hash =
        some r1 ∧
      (∀ r, Load t.hashToContent hash = some r →
        r1.sender = (if res.NewContent = true then sender else r.sender) ∧
        r1.content = (if res.NewContent = true then content else r.content)) ∧
      (Load t.hashToContent hash = none →
        r1.sender = (if res.NewContent = true then sender else EmptySender) ∧
        r1.content = (if res.NewContent = true then content else [])) ∧
      (∀ r, Load t.hashToContent hash = some r → r.content.length = 0 → content.length > 0 →
        shortID = ShortIDEmpty →
        res.NewTx = false ∧ res.NewSID = false ∧ res.NewContent = true ∧
        res.AssignedShortID = ShortIDEmpty ∧
        (t.Add hash content shortID networkNum flags timestamp sender).1.assigner = t.assigner ∧
        r1.sender = sender ∧ r1.content = content) ∧
      (∀ r, Load t.hashToContent hash = some r → r.content.length ≠ 0 →
        res.NewContent = false ∧ r1.content = r.content ∧ r1.sender = r.sender) := by
  refine ⟨_, _, Add_result_of_Stores _ _ _ _ _ _ _ _ hs,
    by rw [Load_Add _ _ _ _ _ _ _ _ hs, if_pos rfl], ?_, ?_, ?_, ?_⟩
  · intro r hl
    rw [locked_of_some t hash content shortID networkNum flags timestamp sender r hl]
    exact ⟨addLocked_tx_sender _ _ _ _ _ _ _ _, addLocked_tx_content _ _ _ _ _ _ _ _⟩
  · intro hl
    rw [locked_of_none t hash content shortID networkNum flags timestamp sender hl]
    exact ⟨addLocked_tx_sender _ _ _ _ _ _ _ _, addLocked_tx_content _ _ _ _ _ _ _ _⟩
  · intro r hl hr hc hsid
    rw [Add_assigner_of_Stores _ _ _ _ _ _ _ _ hs,
      locked_of_some t hash content shortID networkNum flags timestamp sender r hl]
    have hcnt : ((t.afterSeenCheck hash).addLocked r false hash content shortID flags
        sender).result.NewContent = true := by
      rw [addLocked_NewContent]; exact decide_eq_true ⟨hr, hc⟩
    have hb : boundShortID (t.afterSeenCheck hash) r false shortID flags = ShortIDEmpty := by
      unfold boundShortID; rw [mints_of_not_newTx]; exact hsid
    refine ⟨rfl, ?_, hcnt, ?_, ?_, ?_, ?_⟩
    · rw [addLocked_NewSID, hb]
      unfold BxTransaction.AddShortID
      rw [if_pos rfl]
    · rw [addLocked_AssignedShortID, mints_of_not_newTx]; rfl
    · rw [addLocked_assigner, mints_of_not_newTx, afterSeenCheck_assigner]; rfl
    · rw [addLocked_tx_sender, if_pos hcnt]
    · rw [addLocked_tx_content, if_pos hcnt]
  · intro r hl hr
    rw [locked_of_some t hash content shortID networkNum flags timestamp sender r hl]
    have hcnt : ((t.afterSeenCheck hash).addLocked r false hash content shortID flags
        sender).result.NewContent = false := by
      rw [addLocked_NewContent]; exact decide_eq_false (fun h => hr h.1)
    refine ⟨hcnt, ?_, ?_⟩
    · rw [addLocked_tx_content, hcnt]; rfl
    · rw [addLocked_tx_sender, hcnt]; rfl

theorem C17_witness :
    Stores demoStore4 22 [187] ShortIDEmpty 1000 ∧
      Load demoStore4.hashToContent 22 =
        some { hash := 22, content := [], shortIDs := [9], addTime := 1000, flags := 0,
               networkNum := 1, sender := EmptySender } ∧
      (demoStore4.Add 22 [187] ShortIDEmpty 1 TFPaidTx 1000 5).2 =
        .ok { Transaction := some { hash := 22, content := [187], shortIDs := [9],
                                    addTime := 1000, flags := TFPaidTx, networkNum := 1,
                                    sender := 5 },
              NewContent := true, Reprocess := true } ∧
      ∃ res r1, (demoStore4.Add 22 [187] ShortIDEmpty 1 TFPaidTx 1000 5).2 = .ok res ∧
        Load (demoStore4.Add 22 [187] ShortIDEmpty 1 TFPaidTx 1000 5).1.hashToContent 22 =
          some r1 ∧
        (∀ r, Load demoStore4.hashToContent 22 = some r →
          r1.sender = (if res.NewContent = true then 5 else r.sender) ∧
          r1.content = (if res.NewContent = true then [187] else r.content)) ∧
        (Load demoStore4.hashToContent 22 = none →
          r1.sender = (if res.NewContent = true then 5 else EmptySender) ∧
          r1.content = (if res.NewContent = true then [187] else [])) ∧
        (∀ r, Load demoStore4.hashToContent 22 = some r → r.content.length = 0 →
          ([187] : TxContent).length > 0 → ShortIDEmpty = ShortIDEmpty →
          res.NewTx = false ∧ res.NewSID = false ∧ res.NewContent = true ∧
          res.AssignedShortID = ShortIDEmpty ∧
          (demoStore4.Add 22 [187] ShortIDEmpty 1 TFPaidTx 1000 5).1.assigner =
            demoStore4.assigner ∧
          r1.sender = 5 ∧ r1.content = [187]) ∧
        (∀ r, Load demoStore4.hashToContent 22 = some r → r.content.length ≠ 0 →
          res.NewContent = false ∧ r1.content = r.content ∧ r1.sender = r.sender) :=
  ⟨by decide, by decide, by decide,
   C17_sender_set_only_with_new_content demoStore4 22 [187] ShortIDEmpty 1 TFPaidTx 1000 5
    (by decide)⟩

/-- C18: with a bloom filter `b` configured, an `Add` call that reaches the
load-or-store reports `AlreadySeen` if and only if it has no short ID, the hash
had no record, and `b.Check(hash)` is true; the report then has `NewTx = true`
and `Reprocess = false`. Whatever the report, the hash index holds the record
returned after the call: the insert is not rolled back. An `Add` with a short
ID never reports `AlreadySeen`, and an `Add` on a hash that has a record
reports `AlreadySeen` only when the history holds the hash and the call has no
short ID, that is through the history and not through the bloom filter. -/
theorem C18_bloom_gate (t : BxTxStore) (b : BloomFilter) (hb : t.bloom = some b)
    (hash : SHA256Hash) (content : TxContent) (shortID : ShortID) (networkNum : NetworkNum)
    (flags : TxFlags) (timestamp : Int) (sender : Sender) :
    (Stores t hash content shortID timestamp →
      ∃ res r1, (t.Add hash content shortID networkNum flags timestamp sender).2 = .ok res ∧
        res.Transaction = some r1 ∧
        Load (t.Add hash content shortID networkNum flags timestamp sender).1.hashToContent
          hash = some r1 ∧
        (res.AlreadySeen = true ↔
          shortID = ShortIDEmpty ∧ Load t.hashToContent hash = none ∧ b.Check hash = true) ∧
        (res.AlreadySeen = true → res.NewTx = true ∧ res.Reprocess = false)) ∧
      (∀ res, (t.Add hash content shortID networkNum flags timestamp sender).2 = .ok res →
        shortID ≠ ShortIDEmpty → res.AlreadySeen = false) ∧
      (∀ res r, (t.Add hash content shortID networkNum flags timestamp sender).2 = .ok res →
        Load t.hashToContent hash = some r → res.AlreadySeen = true →
        t.seenTxs.Exists t.clock hash = true ∧ shortID = ShortIDEmpty ∧
          res.DebugData = "Transaction already seen and deleted from store") := by
  have hb1 : (t.afterSeenCheck hash).bloom = some b := by rw [afterSeenCheck_bloom, hb]
  refine ⟨?_, ?_, ?_⟩
  · intro hs
    refine ⟨_, _, Add_result_of_Stores _ _ _ _ _ _ _ _ hs, ?_,
      by rw [Load_Add _ _ _ _ _ _ _ _ hs, if_pos rfl], ?_, ?_⟩
    · unfold locked; exact addLocked_result_tx _ _ _ _ _ _ _ _
    · cases hl : Load t.hashToContent hash with
      | some r =>
        rw [locked_of_some t hash content shortID networkNum flags timestamp sender r hl,
          addLocked_AlreadySeen, hb1]
        simp
      | none =>
        rw [locked_of_none t hash content shortID networkNum flags timestamp sender hl,
          addLocked_AlreadySeen, hb1, addLocked_Reprocess]
        simp [NewBxTransaction]
    · cases hl : Load t.hashToContent hash with
      | some r =>
        rw [locked_of_some t hash content shortID networkNum flags timestamp sender r hl,
          addLocked_AlreadySeen, hb1]
        simp
      | none =>
        rw [locked_of_none t hash content shortID networkNum flags timestamp sender hl,
          addLocked_NewTx, addLocked_Reprocess]
        intro _
        simp [NewBxTransaction]
  · intro res hres hX
    rcases Add_ok_cases t hash content shortID networkNum flags timestamp sender res hres with
      ⟨_, h⟩ | ⟨_, h⟩ | ⟨_, h1, _⟩
    · rw [h]; unfold locked
      exact addLocked_AlreadySeen_of_shortID _ _ _ _ _ _ _ _ hX
    · rw [h]
    · exact absurd h1 hX
  · intro res r hres hl hseen
    rcases Add_ok_cases t hash content shortID networkNum flags timestamp sender res hres with
      ⟨_, h⟩ | ⟨_, h⟩ | ⟨h0, h1, h⟩
    · rw [h, locked_of_some t hash content shortID networkNum flags timestamp sender r hl,
        addLocked_AlreadySeen, hb1] at hseen
      simp at hseen
    · rw [h] at hseen; cases hseen
    · exact ⟨h0, h1, by rw [h]⟩

theorem C18_witness :
    demoStore6.bloom = some { added := [11], falsePositives := [] } ∧
      Stores demoStore6 11 [170] ShortIDEmpty 1400 ∧
      Load demoStore6.hashToContent 11 = none ∧
      (demoStore6.Add 11 [170] ShortIDEmpty 1 0 1400 5).2 =
        .ok { Transaction := some { hash := 11, content := [170], shortIDs := [8],
                                    addTime := 1400, flags := 0, networkNum := 1, sender := 5 },
              NewTx := true, NewContent := true, NewSID := true, AlreadySeen := true,
              AssignedShortID := 8,
              DebugData := "Transaction ignored due to already seen in bloom filter" } ∧
      Load (demoStore6.Add 11 [170] ShortIDEmpty 1 0 1400 5).1.hashToContent 11 =
        some { hash := 11, content := [170], shortIDs := [8], addTime := 1400, flags := 0,
               networkNum := 1, sender := 5 } ∧
      ∃ res r1, (demoStore6.Add 11 [170] ShortIDEmpty 1 0 1400 5).2 = .ok res ∧
        res.Transaction = some r1 ∧
        Load (demoStore6.Add 11 [170] ShortIDEmpty 1 0 1400 5).1.hashToContent 11 = some r1 ∧
        (res.AlreadySeen = true ↔
          ShortIDEmpty = ShortIDEmpty ∧ Load demoStore6.hashToContent 11 = none ∧
            BloomFilter.Check { added := [11], falsePositives := [] } 11 = true) ∧
        (res.AlreadySeen = true → res.NewTx = true ∧ res.Reprocess = false) :=
  ⟨by decide, by decide, by decide, by decide, by decide,
   (C18_bloom_gate demoStore6 { added := [11], falsePositives := [] } (by decide) 11 [170]
      ShortIDEmpty 1 0 1400 5).1 (by decide)⟩

/-- C19, as stated, fails: in the store reached by the admission of hash 11 with
the minted short ID 7, the short-ID index maps 7 to hash 11; an `Add` of hash
12 that supplies short ID 7 returns, and the short-ID index then maps 7 to
hash 12. -/
theorem C19_counterexample :
    Reachable demoStore demoStore1 ∧ Load demoStore1.shortIDToHash 7 = some 11 ∧
      (step demoStore1 (.add 12 [] 7 1 0 1000 5)).2 = none ∧
      Load (step demoStore1 (.add 12 [] 7 1 0 1000 5)).1.shortIDToHash 7 = some 12 :=
  ⟨Reachable_of_step demoStore demoStore _ Reachable.start (by decide), by decide, by decide,
   by decide⟩

/-- C19 (amended): in every state reached from an empty store, once the short-ID
index maps `sid` to the hash `h`, after any later sequence of calls among
which no `Add` for a hash other than `h` binds `sid` (reports `NewSID` with
`sid` as the short ID supplied, or minted by the assigner), the short-ID index
maps `sid` to `h` or to nothing, never to a different hash. -/
theorem C19_shortID_rebound_only_by_add (t0 t : BxTxStore) (h0 : IsEmpty t0)
    (hr : Reachable t0 t) (sid : ShortID) (h : SHA256Hash)
    (hl : Load t.shortIDToHash sid = some h) (ops : List Op)
    (hnr : noRebind sid h t ops = true) :
    ∀ h1, Load (run t ops).1.shortIDToHash sid = some h1 → h1 = h := by
  apply binding_run sid h ops t (Inv_of_Reachable t0 t h0 hr) _ hnr
  intro h1 hl1
  rw [hl] at hl1
  cases hl1
  rfl

theorem C19_witness :
    Load demoStore1.shortIDToHash 7 = some 11 ∧ noRebind 7 11 demoStore1 demoOps3 = true ∧
      (run demoStore1 demoOps3).2 = none ∧
      Load (run demoStore1 demoOps3).1.shortIDToHash 7 = some 11 ∧
      ∀ h1, Load (run demoStore1 demoOps3).1.shortIDToHash 7 = some h1 → h1 = 11 :=
  ⟨by decide, by decide, by decide, by decide,
   C19_shortID_rebound_only_by_add demoStore demoStore1 (by decide)
    (Reachable_of_step demoStore demoStore _ Reachable.start (by decide)) 7 11 (by decide)
    demoOps3 (by decide)⟩

/-- C20: `GetTxByShortID(sid)` returns a record `r` without error if and only if
the short-ID index has an entry `sid -> h` and the hash index has the record
`r` for `h`; when `sid` is not in the short-ID index it returns the error
"transaction with shortID ... does not exist", when `sid` maps to `h` and `h`
has no record it returns the error "transaction content for shortID ... and
hash ... does not exist", and the two errors differ. The call changes no state
and its answer does not depend on the history. -/
theorem C20_GetTxByShortID_chases_both_indexes (t : BxTxStore) (sid : ShortID) :
    (∀ r, t.GetTxByShortID sid = .ok r ↔
        ∃ h, Load t.shortIDToHash sid = some h ∧ Load t.hashToContent h = some r) ∧
      (Load t.shortIDToHash sid = none →
        t.GetTxByShortID sid = .error (LookupError.shortIDDoesNotExist sid)) ∧
      (∀ h, Load t.shortIDToHash sid = some h → Load t.hashToContent h = none →
        t.GetTxByShortID sid = .error (LookupError.contentDoesNotExist sid h)) ∧
      (∀ h, LookupError.shortIDDoesNotExist sid ≠ LookupError.contentDoesNotExist sid h) ∧
      step t (.getTxByShortID sid) = (t, none) ∧
      (∀ hh : HashHistory, ({ t with seenTxs := hh } : BxTxStore).GetTxByShortID sid =
        t.GetTxByShortID sid) := by
  refine ⟨?_, ?_, ?_, ?_, rfl, fun _ => rfl⟩
  · intro r
    unfold GetTxByShortID
    cases h1 : Load t.shortIDToHash sid with
    | none => simp
    | some h =>
      cases h2 : Load t.hashToContent h with
      | none => simp [h2]
      | some r1 =>
        simp only [Option.some.injEq, exists_eq_left', h2]
        constructor
        · intro e; cases e; rfl
        · intro e; rw [e]
  · intro h1
    unfold GetTxByShortID
    rw [h1]
  · intro h h1 h2
    unfold GetTxByShortID
    rw [h1]
    simp only [h2]
  · intro h e
    cases e

/-- C21: `Get(hash)`: if the history holds the hash, `Get` returns no record and
`false`, and the history entry of the hash gets the expiry
`clock + timeToAvoidReEntry`, whatever its expiry was, nothing else changing;
otherwise `Get` returns the entry of the hash index for the hash (present if and
only if the hash index has one) and the store is unchanged. `Known(hash)`
returns `SeenHistory.Exists(hash)` and refreshes the entry in the same way. -/
theorem C21_Get_and_Known (t : BxTxStore) (hash : SHA256Hash) :
    (t.seenTxs.Exists t.clock hash = true →
        t.Get hash =
          ({ t with seenTxs := t.seenTxs.Add t.clock hash t.timeToAvoidReEntry }, none, false) ∧
        Load (t.Get hash).1.seenTxs.data hash = some (t.clock + t.timeToAvoidReEntry) ∧
        t.Known hash =
          ({ t with seenTxs := t.seenTxs.Add t.clock hash t.timeToAvoidReEntry }, true)) ∧
      (t.seenTxs.Exists t.clock hash = false →
        t.Get hash = (t, Load t.hashToContent hash, (Load t.hashToContent hash).isSome) ∧
        t.Known hash = (t, false)) ∧
      (t.Known hash).2 = t.seenTxs.Exists t.clock hash ∧
      (t.Known hash).1 = (t.Get hash).1 := by
  have hk : t.Known hash = t.refreshSeenTx hash := rfl
  refine ⟨?_, ?_, ?_, ?_⟩
  · intro he
    have hr : t.refreshSeenTx hash =
        ({ t with seenTxs := t.seenTxs.Add t.clock hash t.timeToAvoidReEntry }, true) := by
      unfold refreshSeenTx; simp [he]
    have hg : t.Get hash =
        ({ t with seenTxs := t.seenTxs.Add t.clock hash t.timeToAvoidReEntry }, none, false) := by
      unfold Get; rw [hr]
    refine ⟨hg, ?_, by rw [hk, hr]⟩
    rw [hg]
    simp [HashHistory.Add, Load_Store_self]
  · intro he
    have hr := refreshSeenTx_of_not_Exists t hash he
    refine ⟨?_, by rw [hk, hr]⟩
    unfold Get
    rw [hr]
    cases hl : Load t.hashToContent hash <;> simp [hl]
  · rw [hk, refreshSeenTx_snd]
  · rw [hk]
    unfold Get
    split <;> (rename_i heq; rw [heq])
    split <;> rfl

theorem C21_witness :
    Load demoStore7.seenTxs.data 11 = some 1050 ∧
      (demoStore7.Get 11).2 = (none, false) ∧
      Load (demoStore7.Get 11).1.seenTxs.data 11 = some 1300 ∧
      (demoStore7.Known 11).2 = true ∧
      (demoStore1.Get 11).1 = demoStore1 ∧ ((demoStore1.Get 11).2).2 = true :=
  ⟨by decide,
   congrArg Prod.snd ((C21_Get_and_Known demoStore7 11).1 (by decide)).1,
   ((C21_Get_and_Known demoStore7 11).1 (by decide)).2.1,
   congrArg Prod.snd ((C21_Get_and_Known demoStore7 11).1 (by decide)).2.2,
   congrArg Prod.fst ((C21_Get_and_Known demoStore1 11).2.1 (by decide)).1,
   by rw [((C21_Get_and_Known demoStore1 11).2.1 (by decide)).1]; decide⟩

/-! ## Removal by short IDs -/

theorem remove_bloom_ne_none (t : BxTxStore) (h : SHA256Hash) (p : ReEntryProtectionFlags)
    (hb : t.bloom ≠ none) : (t.remove h p).1.bloom ≠ none := by
  cases hl : Load t.hashToContent h with
  | none => rw [remove_of_absent t h p hl]; exact hb
  | some r =>
    rw [remove_bloom t h p r hl]
    split_ifs
    · cases hbl : t.bloom with
      | none => exact absurd hbl hb
      | some b => simp
    · exact hb

theorem RemoveHashes_cons (t : BxTxStore) (h : SHA256Hash) (rest : SHA256HashList)
    (p : ReEntryProtectionFlags) :
    t.RemoveHashes (h :: rest) p =
      match t.remove h p with
      | (t1, none) => RemoveHashes t1 rest p
      | (t1, some f) => (t1, some f) := rfl

theorem RemoveHashes_returns (hs : SHA256HashList) (p : ReEntryProtectionFlags)
    (hp : ValidProtection p) :
    ∀ t : BxTxStore, (t.bloom ≠ none ∨ p = NoReEntryProtection) →
      (t.RemoveHashes hs p).2 = none := by
  induction hs with
  | nil => intro t _; rfl
  | cons h rest ih =>
    intro t hb
    have h1 := remove_returns t h p hp hb
    have h2 : (t.remove h p).1.bloom ≠ none ∨ p = NoReEntryProtection :=
      hb.imp (remove_bloom_ne_none t h p) id
    rw [RemoveHashes_cons]
    cases hr : t.remove h p with
    | mk t1 o =>
      rw [hr] at h1 h2
      simp only at h1
      subst h1
      exact ih t1 h2

/-- A hash without a record has none after the removals. -/
theorem RemoveHashes_absent_stays (hs : SHA256HashList) (p : ReEntryProtectionFlags)
    (t : BxTxStore) (k : SHA256Hash) (hk : Load t.hashToContent k = none) :
    Load (t.RemoveHashes hs p).1.hashToContent k = none :=
  RemoveHashes_preserves (fun s => Load s.hashToContent k = none)
    (fun s h q hs => by
      show Load (s.remove h q).1.hashToContent k = none
      rw [remove_hashToContent, Load_Delete]
      split_ifs
      · rfl
      · exact hs) hs p t hk

theorem remove_shortIDToHash_frame (t : BxTxStore) (h : SHA256Hash)
    (p : ReEntryProtectionFlags) (sid : ShortID) :
    Load (t.remove h p).1.shortIDToHash sid = none ∨
      Load (t.remove h p).1.shortIDToHash sid = Load t.shortIDToHash sid := by
  cases hl : Load t.hashToContent h with
  | none => rw [remove_of_absent t h p hl]; exact Or.inr rfl
  | some r =>
    rw [remove_shortIDToHash t h p r hl, Load_DeleteAll]
    split_ifs
    · exact Or.inl rfl
    · exact Or.inr rfl

/-- The removals only delete entries of the short-ID index. -/
theorem RemoveHashes_shortIDToHash_frame (hs : SHA256HashList) (p : ReEntryProtectionFlags)
    (t : BxTxStore) (sid : ShortID) :
    Load (t.RemoveHashes hs p).1.shortIDToHash sid = none ∨
      Load (t.RemoveHashes hs p).1.shortIDToHash sid = Load t.shortIDToHash sid :=
  RemoveHashes_preserves
    (fun s => Load s.shortIDToHash sid = none ∨ Load s.shortIDToHash sid = Load t.shortIDToHash sid)
    (fun s h q hs => by
      rcases remove_shortIDToHash_frame s h q sid with h1 | h1
      · exact Or.inl h1
      · rcases hs with h2 | h2
        · exact Or.inl (h1.trans h2)
        · exact Or.inr (h1.trans h2)) hs p t (Or.inr rfl)

/-- When the removals return, every hash of the list is without a record. -/
theorem RemoveHashes_removes (hs : SHA256HashList) (p : ReEntryProtectionFlags) :
    ∀ t : BxTxStore, (t.RemoveHashes hs p).2 = none →
      ∀ h ∈ hs, Load (t.RemoveHashes hs p).1.hashToContent h = none := by
  induction hs with
  | nil => intro t _ h hm; cases hm
  | cons h0 rest ih =>
    intro t hret h hm
    rw [RemoveHashes_cons] at hret ⊢
    have h1 : Load (t.remove h0 p).1.hashToContent h0 = none := by
      rw [remove_hashToContent, Load_Delete_self]
    cases hr : t.remove h0 p with
    | mk t1 o =>
      rw [hr] at hret h1
      cases o with
      | some f => simp at hret
      | none =>
        simp only at hret h1 ⊢
        rcases List.mem_cons.mp hm with he | hin
        · subst he
          exact RemoveHashes_absent_stays rest p t1 h h1
        · exact ih t1 hret h hin

/-- Later occurrences of a hash in the list of `RemoveHashes` change nothing. -/
theorem RemoveHashes_firstOccurrences (hs : SHA256HashList) (p : ReEntryProtectionFlags) :
    ∀ (seen : SHA256HashList) (t : BxTxStore), (∀ k ∈ seen, Load t.hashToContent k = none) →
      t.RemoveHashes hs p = t.RemoveHashes (firstOccurrences hs seen) p := by
  induction hs with
  | nil => intro seen t _; rfl
  | cons h rest ih =>
    intro seen t hseen
    by_cases hm : h ∈ seen
    · have h1 : firstOccurrences (h :: rest) seen = firstOccurrences rest seen := by
        simp [firstOccurrences, hm]
      rw [h1, RemoveHashes_cons, remove_of_absent t h p (hseen h hm)]
      exact ih seen t hseen
    · have h1 : firstOccurrences (h :: rest) seen = h :: firstOccurrences rest (h :: seen) := by
        simp [firstOccurrences, hm]
      rw [h1, RemoveHashes_cons, RemoveHashes_cons]
      have h2 : ∀ k ∈ h :: seen, Load (t.remove h p).1.hashToContent k = none := by
        intro k hk
        rw [remove_hashToContent, Load_Delete]
        split_ifs with he
        · rfl
        · rcases List.mem_cons.mp hk with e | hin
          · exact absurd e.symm he
          · exact hseen k hin
      cases hr : t.remove h p with
      | mk t1 o =>
        rw [hr] at h2
        cases o with
        | some f => rfl
        | none => exact ih (h :: seen) t1 h2

theorem hashesToRemove_filter (t : BxTxStore) (shortIDs : ShortIDList) :
    t.hashesToRemove (shortIDs.filter (fun sid => (Load t.shortIDToHash sid).isSome)) =
      t.hashesToRemove shortIDs := by
  unfold hashesToRemove
  induction shortIDs with
  | nil => rfl
  | cons sid rest ih =>
    cases hl : Load t.shortIDToHash sid with
    | none => simp [List.filter, List.filterMap, hl, ih]
    | some h => simp [List.filter, List.filterMap, hl, ih]

/-- C26: in every state reached from an empty store, `RemoveShortIDs(list,
protection)` with a valid protection returns when a bloom filter is configured
or the protection is `None`, and when it has returned: for every short ID of the
list that was in the short-ID index, the hash it mapped to has no record in the
hash index and `GetTxByShortID` fails for the short ID; the short IDs of the
list that were not in the index are ignored (the call does the same as without
them); and a hash that the list reaches through several short IDs is handled as
if it were reached once (the call does the same as `RemoveHashes` on the hashes
without their later occurrences, history included). -/
theorem C26_RemoveShortIDs (t0 t : BxTxStore) (h0 : IsEmpty t0) (hr : Reachable t0 t)
    (shortIDs : ShortIDList) (p : ReEntryProtectionFlags) (hp : ValidProtection p) :
    ((t.bloom ≠ none ∨ p = NoReEntryProtection) → (t.RemoveShortIDs shortIDs p).2 = none) ∧
      ((t.RemoveShortIDs shortIDs p).2 = none →
        ∀ sid ∈ shortIDs, ∀ h, Load t.shortIDToHash sid = some h →
          Load (t.RemoveShortIDs shortIDs p).1.hashToContent h = none ∧
            (t.RemoveShortIDs shortIDs p).1.GetTxByShortID sid =
              .error (.shortIDDoesNotExist sid)) ∧
      t.RemoveShortIDs shortIDs p =
        t.RemoveShortIDs
          (shortIDs.filter (fun sid => (Load t.shortIDToHash sid).isSome)) p ∧
      t.RemoveShortIDs shortIDs p =
        t.RemoveHashes (firstOccurrences (t.hashesToRemove shortIDs) []) p := by
  refine ⟨?_, ?_, ?_, ?_⟩
  · intro hb
    exact RemoveHashes_returns _ p hp t hb
  · intro hret sid hsid h hl
    have hgone : Load (t.RemoveShortIDs shortIDs p).1.hashToContent h = none :=
      RemoveHashes_removes _ p t hret h
        ((mem_hashesToRemove t shortIDs h).mpr ⟨sid, hsid, hl⟩)
    refine ⟨hgone, ?_⟩
    have hinv : Inv (t.RemoveShortIDs shortIDs p).1 :=
      RemoveHashes_preserves Inv (fun s k q hs => Inv_remove s k q hs) _ p t
        (Inv_of_Reachable t0 t h0 hr)
    have hidx : Load (t.RemoveShortIDs shortIDs p).1.shortIDToHash sid = none := by
      rcases RemoveHashes_shortIDToHash_frame (t.hashesToRemove shortIDs) p t sid with h1 | h1
      · exact h1
      · have h2 : Load (t.RemoveShortIDs shortIDs p).1.shortIDToHash sid = some h := h1.trans hl
        obtain ⟨r, hr1, _⟩ := hinv.2.1 sid h h2
        rw [hgone] at hr1
        cases hr1
    unfold GetTxByShortID
    rw [hidx]
  · unfold RemoveShortIDs
    rw [hashesToRemove_filter]
  · exact RemoveHashes_firstOccurrences _ p [] t (fun k hk => by cases hk)

theorem C26_witness :
    Load demoStore8.shortIDToHash 7 = some 11 ∧ Load demoStore8.shortIDToHash 42 = some 11 ∧
      Load demoStore8.shortIDToHash 99 = none ∧
      demoStore8.hashesToRemove [7, 99, 42] = [11, 11] ∧
      firstOccurrences [11, 11] [] = [11] ∧
      (((demoStore8.bloom ≠ none ∨ FullReEntryProtection = NoReEntryProtection) →
          (demoStore8.RemoveShortIDs [7, 99, 42] FullReEntryProtection).2 = none) ∧
        ((demoStore8.RemoveShortIDs [7, 99, 42] FullReEntryProtection).2 = none →
          ∀ sid ∈ [7, 99, 42], ∀ h, Load demoStore8.shortIDToHash sid = some h →
            Load (demoStore8.RemoveShortIDs [7, 99, 42]
                FullReEntryProtection).1.hashToContent h = none ∧
              (demoStore8.RemoveShortIDs [7, 99, 42] FullReEntryProtection).1.GetTxByShortID sid =
                .error (.shortIDDoesNotExist sid)) ∧
        demoStore8.RemoveShortIDs [7, 99, 42] FullReEntryProtection =
          demoStore8.RemoveShortIDs
            ([7, 99, 42].filter (fun sid => (Load demoStore8.shortIDToHash sid).isSome))
            FullReEntryProtection ∧
        demoStore8.RemoveShortIDs [7, 99, 42] FullReEntryProtection =
          demoStore8.RemoveHashes
            (firstOccurrences (demoStore8.hashesToRemove [7, 99, 42]) [])
            FullReEntryProtection) :=
  ⟨by decide, by decide, by decide, by decide, by decide,
   C26_RemoveShortIDs demoStore demoStore8 (by decide)
    (Reachable_of_step demoStore demoStore1 _
      (Reachable_of_step demoStore demoStore _ Reachable.start (by decide)) (by decide))
    [7, 99, 42] FullReEntryProtection (by decide)⟩

/-! ## The sweep: what a removal by the sweep leaves behind -/

theorem cleanEvict_preserves_full (P : BxTxStore → Prop)
    (hrem : ∀ t h, P t → P (t.remove h FullReEntryProtection).1) (currTime : Int)
    (txs : List (SHA256Hash × BxTransaction)) :
    ∀ c : cleanState, P c.store → P (cleanEvict currTime txs c).1.store := by
  induction txs with
  | nil => intro c hc; exact hc
  | cons e rest ih =>
    intro c hc
    unfold cleanEvict
    simp only []
    split
    · exact hc
    · exact ih c hc
    · have h1 := hrem c.store e.1 hc
      cases hr : c.store.remove e.1 FullReEntryProtection with
      | mk t1 o =>
        rw [hr] at h1
        cases o with
        | none => exact ih _ h1
        | some f => exact h1

theorem clean_preserves_full (P : BxTxStore → Prop)
    (hrem : ∀ t h, P t → P (t.remove h FullReEntryProtection).1) (t : BxTxStore) (ht : P t) :
    P t.clean.1 := by
  unfold clean
  simp only []
  split
  · exact ht
  · rename_i networks _
    have h1 := cleanEvict_preserves_full P hrem t.clock t.hashToContent
      { store := t, networks := networks, cleanedShortIDs := [] } ht
    split <;> (rename_i heq; rw [heq] at h1; exact h1)

theorem CleanNow_preserves_full (P : BxTxStore → Prop)
    (hrem : ∀ t h, P t → P (t.remove h FullReEntryProtection).1)
    (hch : ∀ (t : BxTxStore) ch, P t → P { t with cleanedShortIDsChannel := ch })
    (t : BxTxStore) (ht : P t) : P t.CleanNow.1 := by
  have h1 := clean_preserves_full P hrem t ht
  unfold CleanNow
  split
  · rename_i heq; rw [heq] at h1; exact h1
  · rename_i heq; rw [heq] at h1
    split
    · split
      · exact hch _ _ h1
      · exact h1
    · exact h1

theorem Check_Add (b : BloomFilter) (h k : SHA256Hash) (hc : b.Check k = true) :
    (b.Add h).Check k = true := by
  simp only [BloomFilter.Check, BloomFilter.Add, Bool.or_eq_true, decide_eq_true_eq,
    List.mem_cons] at hc ⊢
  rcases hc with h1 | h1
  · exact Or.inl (Or.inr h1)
  · exact Or.inr h1

theorem sweptFrom_remove (t : BxTxStore) (k : SHA256Hash) (s : BxTxStore) (h : SHA256Hash)
    (hs : sweptFrom t k s) : sweptFrom t k (s.remove h FullReEntryProtection).1 := by
  obtain ⟨hc, httl, hb, hk⟩ := hs
  cases hl : Load s.hashToContent h with
  | none => rw [remove_of_absent s h _ hl]; exact ⟨hc, httl, hb, hk⟩
  | some r =>
    refine ⟨?_, ?_, ?_, ?_⟩
    · rw [remove_clock, hc]
    · rw [remove_timeToAvoidReEntry, httl]
    · intro h1
      exact remove_bloom_ne_none s h _ (hb h1)
    · intro h1 h2
      rw [remove_hashToContent, Load_Delete] at h2
      rw [remove_seenTxs s h _ r hl, if_neg full_ne_short, if_pos rfl,
        remove_bloom s h _ r hl, if_pos (Or.inr rfl)]
      by_cases he : h = k
      · subst he
        refine ⟨?_, ?_⟩
        · simp [HashHistory.Add, Load_Store_self, hc, httl]
        · intro b hb1
          cases hsb : s.bloom with
          | none => rw [hsb] at hb1; cases hb1
          | some b0 =>
            rw [hsb] at hb1
            have hb2 : b0.Add h = b := Option.some.inj hb1
            rw [← hb2]
            exact Check_Add_self b0 h
      · rw [if_neg he] at h2
        obtain ⟨h3, h4⟩ := hk h1 h2
        refine ⟨?_, ?_⟩
        · simp only [HashHistory.Add]
          rw [Load_Store_ne _ _ he]
          exact h3
        · intro b hb1
          cases hsb : s.bloom with
          | none => rw [hsb] at hb1; cases hb1
          | some b0 =>
            rw [hsb] at hb1
            have hb2 : b0.Add h = b := Option.some.inj hb1
            rw [← hb2]
            exact Check_Add b0 h k (h4 b0 hsb)

theorem sweptFrom_CleanNow (t : BxTxStore) (k : SHA256Hash) : sweptFrom t k t.CleanNow.1 :=
  CleanNow_preserves_full (sweptFrom t k) (sweptFrom_remove t k) (fun _ _ h => h) t
    ⟨rfl, rfl, id, fun h1 h2 => absurd h2 h1⟩

/-- C24, as stated, fails: in the store built with `timeToAvoidReEntry` 0, the
record of hash 11, added at 1000, is removed by the `CleanNow` sweep at clock
1600, which returns; right after the sweep the history holds hash 11 with the
expiry 1600, the instant of the sweep, and `SeenHistory.Exists` is false on
it. -/
theorem C24_counterexample :
    demoStore16.clock = 1600 ∧ demoStore16.timeToAvoidReEntry = 0 ∧
      demoStore16.bloom ≠ none ∧
      Load demoStore16.hashToContent 11 ≠ none ∧
      demoStore16.CleanNow.2 = none ∧
      Load demoStore16.CleanNow.1.hashToContent 11 = none ∧
      Load demoStore16.CleanNow.1.seenTxs.data 11 = some 1600 ∧
      demoStore16.CleanNow.1.seenTxs.Exists demoStore16.CleanNow.1.clock 11 = false := by
  decide

/-- C24 (amended): for every record that a `CleanNow` sweep removes (its hash has
a record before the sweep and none after it): right after the sweep the hash is
absent from the hash index, the history holds the hash with the expiry
`clock + timeToAvoidReEntry` of the full protection, so that
`SeenHistory.Exists(hash)` is true exactly until that instant (in particular
right after the sweep when `timeToAvoidReEntry` is positive), and in a store
with a bloom filter `BloomFilter.Check` on the hash is true. -/
theorem C24_swept_record_is_protected (t : BxTxStore) (hash : SHA256Hash)
    (hl : Load t.hashToContent hash ≠ none)
    (hgone : Load t.CleanNow.1.hashToContent hash = none) :
    Load t.CleanNow.1.hashToContent hash = none ∧
      Load t.CleanNow.1.seenTxs.data hash = some (t.clock + t.timeToAvoidReEntry) ∧
      (∀ now, t.CleanNow.1.seenTxs.Exists now hash =
        decide (now < t.clock + t.timeToAvoidReEntry)) ∧
      (0 < t.timeToAvoidReEntry →
        t.CleanNow.1.seenTxs.Exists t.CleanNow.1.clock hash = true) ∧
      (∀ b, t.CleanNow.1.bloom = some b → b.Check hash = true) ∧
      (t.bloom ≠ none → ∃ b, t.CleanNow.1.bloom = some b ∧ b.Check hash = true) := by
  obtain ⟨hc, _, hbl, hk⟩ := sweptFrom_CleanNow t hash
  obtain ⟨h1, h2⟩ := hk hl hgone
  have h3 : ∀ now, t.CleanNow.1.seenTxs.Exists now hash =
      decide (now < t.clock + t.timeToAvoidReEntry) := by
    intro now
    unfold HashHistory.Exists
    rw [h1]
  refine ⟨hgone, h1, h3, ?_, h2, ?_⟩
  · intro hpos
    rw [h3, hc]
    exact decide_eq_true (by omega)
  · intro hb
    cases hsb : t.CleanNow.1.bloom with
    | none => exact absurd hsb (hbl hb)
    | some b => exact ⟨b, rfl, h2 b hsb⟩

theorem C24_witness :
    demoStore9.clock = 1600 ∧ demoStore9.timeToAvoidReEntry = 300 ∧
      Load demoStore9.hashToContent 11 ≠ none ∧
      (Load demoStore9.CleanNow.1.hashToContent 11 = none ∧
        Load demoStore9.CleanNow.1.seenTxs.data 11 =
          some (demoStore9.clock + demoStore9.timeToAvoidReEntry) ∧
        (∀ now, demoStore9.CleanNow.1.seenTxs.Exists now 11 =
          decide (now < demoStore9.clock + demoStore9.timeToAvoidReEntry)) ∧
        (0 < demoStore9.timeToAvoidReEntry →
          demoStore9.CleanNow.1.seenTxs.Exists demoStore9.CleanNow.1.clock 11 = true) ∧
        (∀ b, demoStore9.CleanNow.1.bloom = some b → b.Check 11 = true) ∧
        (demoStore9.bloom ≠ none →
          ∃ b, demoStore9.CleanNow.1.bloom = some b ∧ b.Check 11 = true)) :=
  ⟨by decide, by decide, by decide,
   C24_swept_record_is_protected demoStore9 11 (by decide) (by decide)⟩

/-! ## Distinct keys of the hash index -/

theorem keys_Store {K V : Type} [DecidableEq K] (m : List (K × V)) (k : K) (v : V) :
    (Store m k v).map Prod.fst =
      if k ∈ m.map Prod.fst then m.map Prod.fst else m.map Prod.fst ++ [k] := by
  induction m with
  | nil => simp [Store]
  | cons e m ih =>
    by_cases h : e.1 = k
    · simp [Store, h]
    · have h1 : ¬ k = e.1 := fun x => h x.symm
      simp only [Store, if_neg h, List.map_cons, ih, List.mem_cons, h1, false_or]
      split_ifs <;> simp

theorem DistinctKeys_Store {K V : Type} [DecidableEq K] (m : List (K × V)) (k : K) (v : V)
    (h : DistinctKeys m) : DistinctKeys (Store m k v) := by
  unfold DistinctKeys at h ⊢
  rw [keys_Store]
  split_ifs with hk
  · exact h
  · exact List.Nodup.append h (List.nodup_singleton k)
      (by simpa [List.disjoint_singleton] using hk)

theorem Delete_eq_filter {K V : Type} [DecidableEq K] (m : List (K × V)) (k : K) :
    Delete m k = m.filter (fun e => !decide (e.1 = k)) := by
  induction m with
  | nil => rfl
  | cons e m ih =>
    by_cases h : e.1 = k <;> simp [Delete, List.filter, h, ih]

theorem DistinctKeys_Delete {K V : Type} [DecidableEq K] (m : List (K × V)) (k : K)
    (h : DistinctKeys m) : DistinctKeys (Delete m k) := by
  unfold DistinctKeys at h ⊢
  rw [Delete_eq_filter]
  exact List.Nodup.sublist (List.Sublist.map _ (List.filter_sublist _)) h

theorem DistinctKeys_LoadOrStore {K V : Type} [DecidableEq K] (m : List (K × V)) (k : K)
    (v : V) (h : DistinctKeys m) : DistinctKeys (LoadOrStore m k v).1 := by
  cases hl : Load m k with
  | some w => rw [LoadOrStore_of_some m k v w hl]; exact h
  | none => rw [LoadOrStore_of_none m k v hl]; exact DistinctKeys_Store m k v h

theorem mem_of_Load {K V : Type} [DecidableEq K] (m : List (K × V)) (k : K) (v : V)
    (h : Load m k = some v) : (k, v) ∈ m := by
  induction m with
  | nil => simp [Load] at h
  | cons e m ih =>
    by_cases h1 : e.1 = k
    · simp only [Load, if_pos h1, Option.some.injEq] at h
      have : e = (k, v) := Prod.ext h1 h
      rw [this]
      exact List.mem_cons_self _ _
    · simp only [Load, if_neg h1] at h
      exact List.mem_cons_of_mem _ (ih h)

theorem Load_of_mem {K V : Type} [DecidableEq K] (m : List (K × V)) (e : K × V)
    (hd : DistinctKeys m) (h : e ∈ m) : Load m e.1 = some e.2 := by
  induction m with
  | nil => cases h
  | cons e0 m ih =>
    unfold DistinctKeys at hd
    simp only [List.map_cons, List.nodup_cons] at hd
    rcases List.mem_cons.mp h with he | hin
    · subst he
      simp [Load]
    · have hne : e0.1 ≠ e.1 := by
        intro heq
        exact hd.1 (heq ▸ List.mem_map_of_mem Prod.fst hin)
      simp only [Load, if_neg hne]
      exact ih hd.2 hin

theorem DistinctKeys_Add (t : BxTxStore) (hash : SHA256Hash) (content : TxContent)
    (shortID : ShortID) (networkNum : NetworkNum) (flags : TxFlags) (timestamp : Int)
    (sender : Sender) (ht : DistinctKeys t.hashToContent) :
    DistinctKeys (t.Add hash content shortID networkNum flags timestamp sender).1.hashToContent := by
  by_cases hs : Stores t hash content shortID timestamp
  · rw [Add_eq_of_Stores _ _ _ _ _ _ _ _ hs]
    exact DistinctKeys_Store _ _ _ (DistinctKeys_LoadOrStore _ _ _ ht)
  · rw [Add_hashToContent_of_not_Stores _ _ _ _ _ _ _ _ hs]
    exact ht

theorem DistinctKeys_step (t : BxTxStore) (op : Op) (ht : DistinctKeys t.hashToContent) :
    DistinctKeys (step t op).1.hashToContent :=
  step_preserves (fun s => DistinctKeys s.hashToContent) (fun _ => True)
    (fun t hash content shortID networkNum flags timestamp sender _ ht =>
      DistinctKeys_Add t hash content shortID networkNum flags timestamp sender ht)
    (fun t h ht => by
      show DistinctKeys (t.refreshSeenTx h).1.hashToContent
      rw [refreshSeenTx_hashToContent]; exact ht)
    (fun t h p ht => by
      show DistinctKeys (t.remove h p).1.hashToContent
      rw [remove_hashToContent]; exact DistinctKeys_Delete _ _ ht)
    (fun _ _ ht => ht)
    (fun _ _ => List.nodup_nil)
    (fun _ _ ht => ht) t op trivial ht

/-- In every state reached from an empty store the hash index has one entry per
hash. -/
theorem DistinctKeys_of_Reachable (t0 t : BxTxStore) (h0 : IsEmpty t0)
    (hr : Reachable t0 t) : DistinctKeys t.hashToContent :=
  Reachable_preserves (fun s => DistinctKeys s.hashToContent) DistinctKeys_step t0 t
    (by show DistinctKeys t0.hashToContent; rw [h0.1]; exact List.nodup_nil) hr

/-! ## The third pass of the sweep -/

theorem remove_noSIDAge (t : BxTxStore) (h : SHA256Hash) (p : ReEntryProtectionFlags) :
    (t.remove h p).1.noSIDAge = t.noSIDAge := by
  cases hl : Load t.hashToContent h with
  | none => rw [remove_of_absent t h p hl]
  | some r =>
    simp only [remove, LoadAndDelete, hl]
    split_ifs <;> (try split) <;> rfl

theorem maxAges_Store (networks : List (NetworkNum × networkData)) (net : NetworkNum)
    (nd nd1 : networkData) (hl : Load networks net = some nd) (hm : nd1.maxAge = nd.maxAge) :
    maxAges (Store networks net nd1) = maxAges networks := by
  funext k
  unfold maxAges
  rw [Load_Store]
  split_ifs with h
  · subst h
    rw [hl]
    simp [hm]
  · rfl

theorem cleanEvict_cons_skip (currTime : Int) (e : SHA256Hash × BxTransaction)
    (rest : List (SHA256Hash × BxTransaction)) (c : cleanState)
    (hp : maxAges c.networks e.2.networkNum ≠ none)
    (hd : due currTime c.store.noSIDAge (maxAges c.networks) e = false) :
    cleanEvict currTime (e :: rest) c = cleanEvict currTime rest c := by
  unfold maxAges at hp
  unfold due maxAges at hd
  cases hl : Load c.networks e.2.networkNum with
  | none => rw [hl] at hp; exact absurd rfl hp
  | some nd =>
    rw [hl] at hd
    simp only [Option.map_some', Bool.or_eq_false_iff, decide_eq_false_iff_not] at hd
    obtain ⟨h1, h2⟩ := hd
    rw [cleanEvict]
    simp only [hl, if_neg h1, h2]
    simp

theorem cleanEvict_cons_due (currTime : Int) (e : SHA256Hash × BxTransaction)
    (rest : List (SHA256Hash × BxTransaction)) (c : cleanState)
    (hd : due currTime c.store.noSIDAge (maxAges c.networks) e = true) :
    ∃ nd nd1, Load c.networks e.2.networkNum = some nd ∧ nd1.maxAge = nd.maxAge ∧
      nd1.cleanNoSID + nd1.cleanAge = nd.cleanNoSID + nd.cleanAge + 1 ∧
      cleanEvict currTime (e :: rest) c =
        match c.store.remove e.1 FullReEntryProtection with
        | (t1, some f) =>
          ({ c with store := t1, networks := Store c.networks e.2.networkNum nd1 }, some f)
        | (t1, none) =>
          cleanEvict currTime rest
            { store := t1, networks := Store c.networks e.2.networkNum nd1,
              cleanedShortIDs := Store c.cleanedShortIDs e.2.networkNum
                ((Load c.cleanedShortIDs e.2.networkNum).getD [] ++ e.2.shortIDs) } := by
  unfold due maxAges at hd
  cases hl : Load c.networks e.2.networkNum with
  | none => rw [hl] at hd; simp at hd
  | some nd =>
    rw [hl] at hd
    simp only [Option.map_some'] at hd
    by_cases h1 : Time.Sub currTime e.2.addTime > nd.maxAge
    · refine ⟨nd, { nd with cleanAge := nd.cleanAge + 1 }, rfl, rfl, by simp; omega, ?_⟩
      rw [cleanEvict]
      simp only [hl, if_pos h1]
    · simp only [h1, decide_False, Bool.false_or] at hd
      refine ⟨nd, { nd with cleanNoSID := nd.cleanNoSID + 1 }, rfl, rfl, by simp; omega, ?_⟩
      rw [cleanEvict]
      simp only [hl, if_neg h1, hd, if_true]

theorem cleanCount_Store (networks : List (NetworkNum × networkData)) (net : NetworkNum)
    (nd nd1 : networkData) (hl : Load networks net = some nd)
    (hc : nd1.cleanNoSID + nd1.cleanAge = nd.cleanNoSID + nd.cleanAge + 1) :
    cleanCount (Store networks net nd1) = cleanCount networks + 1 := by
  induction networks with
  | nil => simp [Load] at hl
  | cons x rest ih =>
    by_cases h : x.1 = net
    · simp only [Load, if_pos h, Option.some.injEq] at hl
      simp only [Store, if_pos h, cleanCount, List.map_cons, List.sum_cons, hl, hc]
      omega
    · simp only [Load, if_neg h] at hl
      have h1 := ih hl
      simp only [cleanCount] at h1
      simp only [Store, if_neg h, cleanCount, List.map_cons, List.sum_cons, h1]
      omega

/-- With a bloom filter and an entry for the network of every record, the third
pass of the sweep returns. -/
theorem cleanEvict_returns (currTime : Int) (txs : List (SHA256Hash × BxTransaction)) :
    ∀ c : cleanState, c.store.bloom ≠ none →
      (∀ e ∈ txs, maxAges c.networks e.2.networkNum ≠ none) →
      (cleanEvict currTime txs c).2 = none := by
  induction txs with
  | nil => intro c _ _; rfl
  | cons e rest ih =>
    intro c hb hn
    cases hd : due currTime c.store.noSIDAge (maxAges c.networks) e with
    | false =>
      rw [cleanEvict_cons_skip currTime e rest c (hn e (List.mem_cons_self _ _)) hd]
      exact ih c hb (fun x hx => hn x (List.mem_cons_of_mem _ hx))
    | true =>
      obtain ⟨nd, nd1, hl, hm, _, heq⟩ := cleanEvict_cons_due currTime e rest c hd
      rw [heq]
      have h1 := remove_returns c.store e.1 FullReEntryProtection (Or.inr (Or.inr rfl))
        (Or.inl hb)
      have h2 := remove_bloom_ne_none c.store e.1 FullReEntryProtection hb
      cases hr : c.store.remove e.1 FullReEntryProtection with
      | mk t1 o =>
        rw [hr] at h1 h2
        simp only at h1 h2
        subst h1
        simp only
        refine ih _ h2 ?_
        intro x hx
        show maxAges (Store c.networks e.2.networkNum nd1) x.2.networkNum ≠ none
        rw [maxAges_Store c.networks _ nd nd1 hl hm]
        exact hn x (List.mem_cons_of_mem _ hx)

/-- What the third pass of the sweep has done when it returns: it has deleted the
records the test selects, counted them, and collected their short IDs per
network. -/
theorem cleanEvict_spec (currTime noSIDAge : Int) (limits : NetworkNum → Option Int)
    (txs : List (SHA256Hash × BxTransaction)) :
    ∀ c : cleanState, c.store.noSIDAge = noSIDAge → maxAges c.networks = limits →
      (∀ e ∈ txs, limits e.2.networkNum ≠ none) →
      (cleanEvict currTime txs c).2 = none →
      (cleanEvict currTime txs c).1.store.hashToContent =
          DeleteAll c.store.hashToContent
            ((txs.filter (due currTime noSIDAge limits)).map Prod.fst) ∧
        cleanCount (cleanEvict currTime txs c).1.networks =
          cleanCount c.networks + (txs.filter (due currTime noSIDAge limits)).length ∧
        ∀ net, Load (cleanEvict currTime txs c).1.cleanedShortIDs net =
          if txs.filter (fun e => due currTime noSIDAge limits e &&
              decide (e.2.networkNum = net)) = [] then Load c.cleanedShortIDs net
          else some ((Load c.cleanedShortIDs net).getD [] ++
            ((txs.filter (fun e => due currTime noSIDAge limits e &&
              decide (e.2.networkNum = net))).map (fun e => e.2.shortIDs)).flatten) := by
  induction txs with
  | nil =>
    intro c _ _ _ _
    exact ⟨rfl, rfl, fun net => rfl⟩
  | cons e rest ih =>
    intro c hno hlim hn hret
    have hrest : ∀ x ∈ rest, limits x.2.networkNum ≠ none :=
      fun x hx => hn x (List.mem_cons_of_mem _ hx)
    cases hd : due currTime noSIDAge limits e with
    | false =>
      have hd1 : due currTime c.store.noSIDAge (maxAges c.networks) e = false := by
        rw [hno, hlim]; exact hd
      have hskip := cleanEvict_cons_skip currTime e rest c
        (by rw [hlim]; exact hn e (List.mem_cons_self _ _)) hd1
      rw [hskip] at hret ⊢
      obtain ⟨h1, h2, h3⟩ := ih c hno hlim hrest hret
      refine ⟨?_, ?_, ?_⟩
      · rw [h1, List.filter_cons_of_neg (by simp [hd])]
      · rw [h2, List.filter_cons_of_neg (by simp [hd])]
      · intro net
        rw [h3 net, List.filter_cons_of_neg (by simp [hd])]
    | true =>
      have hd1 : due currTime c.store.noSIDAge (maxAges c.networks) e = true := by
        rw [hno, hlim]; exact hd
      obtain ⟨nd, nd1, hl, hm, hc, heq⟩ := cleanEvict_cons_due currTime e rest c hd1
      rw [heq] at hret ⊢
      have hh := remove_hashToContent c.store e.1 FullReEntryProtection
      have hs := remove_noSIDAge c.store e.1 FullReEntryProtection
      cases hr : c.store.remove e.1 FullReEntryProtection with
      | mk t1 o =>
        rw [hr] at hret hh hs
        cases o with
        | some f => simp at hret
        | none =>
          simp only at hret hh hs ⊢
          obtain ⟨h1, h2, h3⟩ := ih _ (hs.trans hno)
            ((maxAges_Store c.networks _ nd nd1 hl hm).trans hlim) hrest hret
          refine ⟨?_, ?_, ?_⟩
          · rw [h1, List.filter_cons_of_pos (by simp [hd])]
            simp only [List.map_cons, hh]
            rfl
          · rw [h2, List.filter_cons_of_pos (by simp [hd])]
            simp only [cleanCount_Store c.networks _ nd nd1 hl hc, List.length_cons]
            omega
          · intro net
            rw [h3 net]
            simp only [Load_Store]
            by_cases hnet : e.2.networkNum = net
            · rw [List.filter_cons_of_pos (by simp [hd, hnet]), if_pos hnet]
              simp only [reduceCtorEq, if_false, List.map_cons, List.flatten_cons, Option.getD_some]
              split_ifs with h4
              · simp [h4, hnet]
              · simp [hnet, List.append_assoc]
            · rw [List.filter_cons_of_neg (by simp [hnet]), if_neg hnet]

/-! ## The first two passes of the sweep -/

theorem cleanCensus_cons (currTime : Int) (e : SHA256Hash × BxTransaction)
    (rest : List (SHA256Hash × BxTransaction)) (acc : List (NetworkNum × networkData)) :
    cleanCensus currTime (e :: rest) acc =
      cleanCensus currTime rest
        (Store acc e.2.networkNum
          { (Load acc e.2.networkNum).getD {} with
            ages := ((Load acc e.2.networkNum).getD {}).ages ++
              [(Time.Sub currTime e.2.addTime).tdiv Second] }) := rfl

/-- The first pass collects, per network, the ages of its records in whole
seconds. -/
theorem cleanCensus_Load (currTime : Int) (txs : List (SHA256Hash × BxTransaction)) :
    ∀ (acc : List (NetworkNum × networkData)) (net : NetworkNum),
      Load (cleanCensus currTime txs acc) net =
        if txs.filter (fun e => decide (e.2.networkNum = net)) = [] then Load acc net
        else some { (Load acc net).getD {} with
          ages := ((Load acc net).getD {}).ages ++
            (txs.filter (fun e => decide (e.2.networkNum = net))).map
              (fun e => (Time.Sub currTime e.2.addTime).tdiv Second) } := by
  induction txs with
  | nil => intro acc net; rfl
  | cons e rest ih =>
    intro acc net
    rw [cleanCensus_cons, ih]
    by_cases hnet : e.2.networkNum = net
    · rw [List.filter_cons_of_pos (by simp [hnet])]
      simp only [Load_Store, if_pos hnet, reduceCtorEq, if_false, Option.getD_some,
        List.map_cons]
      subst hnet
      split_ifs with h
      · simp [h]
      · simp [List.append_assoc]
    · rw [List.filter_cons_of_neg (by simp [hnet])]
      simp only [Load_Store, if_neg hnet]

theorem cleanCount_Store_same (networks : List (NetworkNum × networkData)) (net : NetworkNum)
    (nd nd1 : networkData) (hl : Load networks net = some nd)
    (hc : nd1.cleanNoSID + nd1.cleanAge = nd.cleanNoSID + nd.cleanAge) :
    cleanCount (Store networks net nd1) = cleanCount networks := by
  induction networks with
  | nil => simp [Load] at hl
  | cons x rest ih =>
    by_cases h : x.1 = net
    · simp only [Load, if_pos h, Option.some.injEq] at hl
      simp only [Store, if_pos h, cleanCount, List.map_cons, List.sum_cons, hl, hc]
    · simp only [Load, if_neg h] at hl
      have h1 := ih hl
      simp only [cleanCount] at h1
      simp only [Store, if_neg h, cleanCount, List.map_cons, List.sum_cons, h1]

theorem cleanCount_Store_new (networks : List (NetworkNum × networkData)) (net : NetworkNum)
    (nd1 : networkData) (hl : Load networks net = none) :
    cleanCount (Store networks net nd1) =
      cleanCount networks + (nd1.cleanNoSID + nd1.cleanAge) := by
  induction networks with
  | nil => simp [Store, cleanCount]
  | cons x rest ih =>
    by_cases h : x.1 = net
    · simp [Load, h] at hl
    · simp only [Load, if_neg h] at hl
      have h1 := ih hl
      simp only [cleanCount] at h1
      simp only [Store, if_neg h, cleanCount, List.map_cons, List.sum_cons, h1]
      omega

/-- The first pass leaves the counters of the networks alone. -/
theorem cleanCount_cleanCensus (currTime : Int) (txs : List (SHA256Hash × BxTransaction)) :
    ∀ acc : List (NetworkNum × networkData),
      cleanCount (cleanCensus currTime txs acc) = cleanCount acc := by
  induction txs with
  | nil => intro acc; rfl
  | cons e rest ih =>
    intro acc
    rw [cleanCensus_cons, ih]
    cases hl : Load acc e.2.networkNum with
    | none => rw [cleanCount_Store_new _ _ _ hl]; rfl
    | some nd => exact cleanCount_Store_same _ _ nd _ hl rfl

theorem cleanMaxAge_ok (t : BxTxStore) (netData : networkData)
    (h90 : t.TxStoreMaxSize * 9 / 10 ≠ 0) : ∃ nd, t.cleanMaxAge netData = .ok nd := by
  unfold cleanMaxAge
  by_cases h : netData.ages.length ≤ t.TxStoreMaxSize
  · rw [if_pos h]; exact ⟨_, rfl⟩
  · rw [if_neg h]
    simp only [if_neg h90]
    have hlen : t.TxStoreMaxSize * 9 / 10 - 1 <
        (netData.ages.insertionSort (fun a b => a ≤ b)).length := by
      rw [List.length_insertionSort]
      omega
    rw [List.get?_eq_get hlen]
    exact ⟨_, rfl⟩

/-- What the second pass does to the entry of a network when it returns. -/
theorem cleanMaxAge_spec (t : BxTxStore) (netData nd : networkData)
    (h : t.cleanMaxAge netData = .ok nd) :
    nd.maxAge = t.ageLimit netData.ages ∧ nd.cleanAge = netData.cleanAge ∧
      nd.cleanNoSID = netData.cleanNoSID := by
  unfold cleanMaxAge at h
  unfold ageLimit
  by_cases h1 : netData.ages.length ≤ t.TxStoreMaxSize
  · rw [if_pos h1] at h
    rw [if_pos h1]
    cases h
    exact ⟨rfl, rfl, rfl⟩
  · rw [if_neg h1] at h
    rw [if_neg h1]
    simp only at h
    split_ifs at h with h2
    cases hg : (netData.ages.insertionSort (fun a b => a ≤ b)).get?
        (t.TxStoreMaxSize * 9 / 10 - 1) with
    | none => rw [hg] at h; cases h
    | some age =>
      rw [hg] at h
      simp only [Except.ok.injEq] at h
      subst h
      exact ⟨rfl, rfl, rfl⟩

theorem cleanMaxAges_ok (t : BxTxStore) (h90 : t.TxStoreMaxSize * 9 / 10 ≠ 0) :
    ∀ networks : List (NetworkNum × networkData),
      ∃ networks1, t.cleanMaxAges networks = .ok networks1 := by
  intro networks
  induction networks with
  | nil => exact ⟨[], rfl⟩
  | cons e rest ih =>
    obtain ⟨nd, hnd⟩ := cleanMaxAge_ok t e.2 h90
    obtain ⟨rest1, hrest⟩ := ih
    refine ⟨(e.1, nd) :: rest1, ?_⟩
    simp only [cleanMaxAges, hnd, hrest]

/-- What the second pass has done when it returns: every network has its age
limit, and the counters are untouched. -/
theorem cleanMaxAges_spec (t : BxTxStore) :
    ∀ networks networks1 : List (NetworkNum × networkData),
      t.cleanMaxAges networks = .ok networks1 →
      (∀ net, maxAges networks1 net =
        (Load networks net).map (fun nd => t.ageLimit nd.ages)) ∧
        cleanCount networks1 = cleanCount networks := by
  intro networks
  induction networks with
  | nil =>
    intro networks1 h
    simp only [cleanMaxAges, Except.ok.injEq] at h
    subst h
    exact ⟨fun net => rfl, rfl⟩
  | cons e rest ih =>
    intro networks1 h
    simp only [cleanMaxAges] at h
    cases hnd : t.cleanMaxAge e.2 with
    | error f => rw [hnd] at h; cases h
    | ok nd =>
      rw [hnd] at h
      simp only at h
      cases hrest : t.cleanMaxAges rest with
      | error f => rw [hrest] at h; cases h
      | ok rest1 =>
        rw [hrest] at h
        simp only [Except.ok.injEq] at h
        subst h
        obtain ⟨h1, h2⟩ := ih rest1 hrest
        obtain ⟨h3, h4, h5⟩ := cleanMaxAge_spec t e.2 nd hnd
        refine ⟨?_, ?_⟩
        · intro net
          have h6 := h1 net
          unfold maxAges at h6 ⊢
          by_cases hk : e.1 = net
          · simp [Load, hk, h3]
          · simp only [Load, if_neg hk]
            exact h6
        · simp only [cleanCount] at h2
          simp only [cleanCount, List.map_cons, List.sum_cons, h2, h4, h5]

/-- After the first two passes every network that has a record has the age limit
`sweepLimits`, and all counters are zero. -/
theorem sweep_limits (t : BxTxStore) (networks : List (NetworkNum × networkData))
    (h : t.cleanMaxAges (cleanCensus t.clock t.hashToContent []) = .ok networks) :
    maxAges networks = t.sweepLimits ∧ cleanCount networks = 0 := by
  obtain ⟨h1, h2⟩ := cleanMaxAges_spec t _ networks h
  refine ⟨?_, ?_⟩
  · funext net
    rw [h1 net, cleanCensus_Load]
    unfold sweepLimits agesOf recordsOf
    split_ifs with h3
    · rfl
    · simp [Load]
  · rw [h2, cleanCount_cleanCensus]
    rfl

theorem sweepLimits_ne_none (t : BxTxStore) (e : SHA256Hash × BxTransaction)
    (he : e ∈ t.hashToContent) : t.sweepLimits e.2.networkNum ≠ none := by
  unfold sweepLimits recordsOf
  have h1 : e ∈ t.hashToContent.filter (fun x => decide (x.2.networkNum = e.2.networkNum)) :=
    List.mem_filter.mpr ⟨he, by simp⟩
  rw [if_neg (List.ne_nil_of_mem h1)]
  simp

theorem clean_eq (t : BxTxStore) :
    t.clean =
      match t.cleanMaxAges (cleanCensus t.clock t.hashToContent []) with
      | .error f => (t, .error f)
      | .ok networks =>
        match cleanEvict t.clock t.hashToContent
            { store := t, networks := networks, cleanedShortIDs := [] } with
        | (c, some f) => (c.store, .error f)
        | (c, none) => (c.store, .ok (cleanCount c.networks, c.cleanedShortIDs)) := rfl

/-- With a bloom filter and `TxStoreMaxSize * 9 / 10` at least 1, the sweep
returns. -/
theorem clean_returns (t : BxTxStore) (hb : t.bloom ≠ none)
    (h90 : t.TxStoreMaxSize * 9 / 10 ≠ 0) : ∃ res, t.clean.2 = .ok res := by
  obtain ⟨networks, hn⟩ := cleanMaxAges_ok t h90 (cleanCensus t.clock t.hashToContent [])
  have hlim := (sweep_limits t networks hn).1
  have hret := cleanEvict_returns t.clock t.hashToContent
    { store := t, networks := networks, cleanedShortIDs := [] } hb
    (fun e he => by
      show maxAges networks e.2.networkNum ≠ none
      rw [hlim]; exact sweepLimits_ne_none t e he)
  rw [clean_eq, hn]
  simp only []
  cases hc : cleanEvict t.clock t.hashToContent
      { store := t, networks := networks, cleanedShortIDs := [] } with
  | mk c o =>
    rw [hc] at hret
    simp only at hret
    subst hret
    exact ⟨_, rfl⟩

/-- What the sweep has done when it returns: it has deleted the records that the
test of the third pass selects under the limits `sweepLimits`, it returns their
number, and the short IDs they held, per network. -/
theorem clean_spec (t : BxTxStore) (n : Nat) (ids : ShortIDsByNetwork)
    (h : t.clean.2 = .ok (n, ids)) :
    t.clean.1.hashToContent =
        DeleteAll t.hashToContent
          ((t.hashToContent.filter (due t.clock t.noSIDAge t.sweepLimits)).map Prod.fst) ∧
      n = (t.hashToContent.filter (due t.clock t.noSIDAge t.sweepLimits)).length ∧
      ∀ net, Load ids net =
        if t.hashToContent.filter (fun e => due t.clock t.noSIDAge t.sweepLimits e &&
            decide (e.2.networkNum = net)) = [] then none
        else some ((t.hashToContent.filter (fun e => due t.clock t.noSIDAge t.sweepLimits e &&
            decide (e.2.networkNum = net))).map (fun e => e.2.shortIDs)).flatten := by
  rw [clean_eq] at h ⊢
  cases hn : t.cleanMaxAges (cleanCensus t.clock t.hashToContent []) with
  | error f => rw [hn] at h; cases h
  | ok networks =>
    rw [hn] at h
    simp only at h ⊢
    obtain ⟨hlim, hzero⟩ := sweep_limits t networks hn
    have hs := cleanEvict_spec t.clock t.noSIDAge t.sweepLimits t.hashToContent
      { store := t, networks := networks, cleanedShortIDs := [] } rfl hlim
      (fun e he => sweepLimits_ne_none t e he)
    cases hc : cleanEvict t.clock t.hashToContent
        { store := t, networks := networks, cleanedShortIDs := [] } with
    | mk c o =>
      rw [hc] at h hs
      cases o with
      | some f => cases h
      | none =>
        simp only [Except.ok.injEq, Prod.mk.injEq] at h
        obtain ⟨h1, h2, h3⟩ := hs rfl
        simp only at h1 h2 h3
        refine ⟨h1, ?_, ?_⟩
        · rw [← h.1, h2, hzero, Nat.zero_add]
        · intro net
          rw [← h.2, h3 net]
          simp [Load]

/-! ## The sweep as a whole -/

/-- A sequence of calls that returns leads to a reachable state. -/
theorem Reachable_of_run (t0 : BxTxStore) (ops : List Op) :
    ∀ t : BxTxStore, Reachable t0 t → (run t ops).2 = none → Reachable t0 (run t ops).1 := by
  induction ops with
  | nil => intro t hr _; exact hr
  | cons op rest ih =>
    intro t hr h
    obtain ⟨h1, h2⟩ := run_cons_of_returns t op rest h
    rw [h2] at h ⊢
    exact ih _ (Reachable_of_step t0 t op hr h1) h

theorem DeleteAll_eq_filter {K V : Type} [DecidableEq K] (ks : List K) :
    ∀ m : List (K × V), DeleteAll m ks = m.filter (fun e => !decide (e.1 ∈ ks)) := by
  induction ks with
  | nil => intro m; simp [DeleteAll]
  | cons k ks ih =>
    intro m
    have h : DeleteAll m (k :: ks) = DeleteAll (Delete m k) ks := rfl
    rw [h, ih, Delete_eq_filter, List.filter_filter]
    apply List.filter_congr
    intro e _
    simp only [List.mem_cons, Bool.decide_or, Bool.not_or]
    by_cases h1 : e.1 = k <;> simp [h1, Bool.and_comm]

/-- In a map with distinct keys, an entry is the only one with its key. -/
theorem mem_keys_filter {K V : Type} [DecidableEq K] (m : List (K × V)) (p : K × V → Bool)
    (hd : DistinctKeys m) (e : K × V) (he : e ∈ m) :
    e.1 ∈ (m.filter p).map Prod.fst ↔ p e = true := by
  constructor
  · intro h
    obtain ⟨x, hx, hk⟩ := List.mem_map.mp h
    obtain ⟨hxm, hpx⟩ := List.mem_filter.mp hx
    have h1 := Load_of_mem m x hd hxm
    have h2 := Load_of_mem m e hd he
    rw [hk, h2] at h1
    have h3 : x = e := Prod.ext hk (Option.some.inj h1).symm
    rw [← h3]
    exact hpx
  · intro h
    exact List.mem_map_of_mem Prod.fst (List.mem_filter.mpr ⟨he, h⟩)

/-- The record of a hash after a sweep that returned: gone if the test of the
third pass selects it, untouched otherwise. -/
theorem clean_Load (t : BxTxStore) (n : Nat) (ids : ShortIDsByNetwork)
    (h : t.clean.2 = .ok (n, ids)) (hd : DistinctKeys t.hashToContent) (k : SHA256Hash)
    (r : BxTransaction) (hl : Load t.hashToContent k = some r) :
    Load t.clean.1.hashToContent k =
      if due t.clock t.noSIDAge t.sweepLimits (k, r) = true then none else some r := by
  rw [(clean_spec t n ids h).1, Load_DeleteAll]
  have h1 := mem_keys_filter t.hashToContent (due t.clock t.noSIDAge t.sweepLimits) hd (k, r)
    (mem_of_Load _ k r hl)
  simp only at h1
  by_cases h2 : due t.clock t.noSIDAge t.sweepLimits (k, r) = true
  · rw [if_pos (h1.mpr h2), if_pos h2]
  · rw [if_neg (fun x => h2 (h1.mp x)), if_neg h2, hl]

/-- The records that a sweep that returned has left are those that the test of
the third pass does not select. -/
theorem clean_hashToContent (t : BxTxStore) (n : Nat) (ids : ShortIDsByNetwork)
    (h : t.clean.2 = .ok (n, ids)) (hd : DistinctKeys t.hashToContent) :
    t.clean.1.hashToContent =
      t.hashToContent.filter (fun e => !due t.clock t.noSIDAge t.sweepLimits e) := by
  rw [(clean_spec t n ids h).1, DeleteAll_eq_filter]
  apply List.filter_congr
  intro e he
  have h1 := mem_keys_filter t.hashToContent (due t.clock t.noSIDAge t.sweepLimits) hd e he
  by_cases h2 : due t.clock t.noSIDAge t.sweepLimits e = true
  · simp [h1.mpr h2, h2]
  · have h3 : ¬ e.1 ∈ (t.hashToContent.filter
        (due t.clock t.noSIDAge t.sweepLimits)).map Prod.fst := fun x => h2 (h1.mp x)
    simp only [Bool.not_eq_true] at h2
    simp [h3, h2]

/-- The count that the sweep returns is the number of records it has removed. -/
theorem clean_count (t : BxTxStore) (n : Nat) (ids : ShortIDsByNetwork)
    (h : t.clean.2 = .ok (n, ids)) (hd : DistinctKeys t.hashToContent) :
    n + t.clean.1.Count = t.Count := by
  unfold Count
  rw [clean_hashToContent t n ids h hd, (clean_spec t n ids h).2.1]
  rw [← List.countP_eq_length_filter, ← List.countP_eq_length_filter]
  have h1 := List.length_eq_countP_add_countP (due t.clock t.noSIDAge t.sweepLimits)
    t.hashToContent
  have h2 : List.countP (fun e => !due t.clock t.noSIDAge t.sweepLimits e) t.hashToContent =
      List.countP (fun a => decide ¬due t.clock t.noSIDAge t.sweepLimits a = true)
        t.hashToContent := by
    apply List.countP_congr
    intro e _
    simp
  rw [h2]
  omega

theorem remove_Full_fault (t : BxTxStore) (h : SHA256Hash) (f : Fault)
    (hf : (t.remove h FullReEntryProtection).2 = some f) :
    f = Fault.nilBloom ∧ t.bloom = none := by
  cases hl : Load t.hashToContent h with
  | none => rw [remove_of_absent t h _ hl] at hf; cases hf
  | some r =>
    cases hb : t.bloom with
    | some b =>
      have h1 := remove_returns t h FullReEntryProtection (Or.inr (Or.inr rfl))
        (Or.inl (by rw [hb]; exact Option.some_ne_none b))
      rw [h1] at hf
      cases hf
    | none =>
      simp only [remove, LoadAndDelete, hl, if_neg full_ne_no, if_neg full_ne_short, if_true,
        hb, Option.some.injEq] at hf
      exact ⟨hf.symm, rfl⟩

/-- The third pass can only fail in `remove`, for want of a bloom filter, when
every record has an entry for its network. -/
theorem cleanEvict_fault (currTime : Int) (txs : List (SHA256Hash × BxTransaction)) :
    ∀ (c : cleanState) (f : Fault),
      (∀ e ∈ txs, maxAges c.networks e.2.networkNum ≠ none) →
      (cleanEvict currTime txs c).2 = some f → f = Fault.nilBloom ∧ c.store.bloom = none := by
  induction txs with
  | nil => intro c f _ h; cases h
  | cons e rest ih =>
    intro c f hn hf
    cases hd : due currTime c.store.noSIDAge (maxAges c.networks) e with
    | false =>
      rw [cleanEvict_cons_skip currTime e rest c (hn e (List.mem_cons_self _ _)) hd] at hf
      exact ih c f (fun x hx => hn x (List.mem_cons_of_mem _ hx)) hf
    | true =>
      obtain ⟨nd, nd1, hl, hm, _, heq⟩ := cleanEvict_cons_due currTime e rest c hd
      rw [heq] at hf
      cases hr : c.store.remove e.1 FullReEntryProtection with
      | mk t1 o =>
        rw [hr] at hf
        cases o with
        | some g =>
          simp only [Option.some.injEq] at hf
          subst hf
          exact remove_Full_fault c.store e.1 g (by rw [hr])
        | none =>
          simp only at hf
          have h1 := ih _ f (fun x hx => by
            show maxAges (Store c.networks e.2.networkNum nd1) x.2.networkNum ≠ none
            rw [maxAges_Store c.networks _ nd nd1 hl hm]
            exact hn x (List.mem_cons_of_mem _ hx)) hf
          refine ⟨h1.1, ?_⟩
          by_contra hb
          have h2 := remove_bloom_ne_none c.store e.1 FullReEntryProtection hb
          rw [hr] at h2
          exact h2 h1.2

/-- With `TxStoreMaxSize * 9 / 10` at least 1, the sweep can only fail in
`remove`, for want of a bloom filter: the index into the sorted ages is in range
and every record finds the entry of its network. -/
theorem clean_fault (t : BxTxStore) (h90 : t.TxStoreMaxSize * 9 / 10 ≠ 0) (f : Fault)
    (hf : t.clean.2 = .error f) : f = Fault.nilBloom ∧ t.bloom = none := by
  obtain ⟨networks, hn⟩ := cleanMaxAges_ok t h90 (cleanCensus t.clock t.hashToContent [])
  have hlim := (sweep_limits t networks hn).1
  have hev := cleanEvict_fault t.clock t.hashToContent
    { store := t, networks := networks, cleanedShortIDs := [] }
  rw [clean_eq, hn] at hf
  simp only [] at hf
  cases hc : cleanEvict t.clock t.hashToContent
      { store := t, networks := networks, cleanedShortIDs := [] } with
  | mk c o =>
    rw [hc] at hf hev
    cases o with
    | none => cases hf
    | some g =>
      simp only [Except.error.injEq] at hf
      subst hf
      exact hev g (fun e he => by
        show maxAges networks e.2.networkNum ≠ none
        rw [hlim]; exact sweepLimits_ne_none t e he) rfl

theorem CleanNow_eq (t : BxTxStore) :
    t.CleanNow =
      match t.clean with
      | (t1, .error f) => (t1, some f)
      | (t1, .ok (_, cleanedShortIDs)) =>
        match t1.cleanedShortIDsChannel with
        | some sent =>
          if cleanedShortIDs.length > 0 then
            ({ t1 with cleanedShortIDsChannel := some (sent ++ [cleanedShortIDs]) }, none)
          else (t1, none)
        | none => (t1, none) := rfl

theorem CleanNow_hashToContent (t : BxTxStore) :
    t.CleanNow.1.hashToContent = t.clean.1.hashToContent := by
  rw [CleanNow_eq]
  cases hc : t.clean with
  | mk t1 res =>
    cases res with
    | error f => rfl
    | ok v =>
      simp only
      cases t1.cleanedShortIDsChannel with
      | none => rfl
      | some sent => simp only; split_ifs <;> rfl

/-- `CleanNow` returns exactly when the sweep does. -/
theorem CleanNow_returns_iff (t : BxTxStore) :
    t.CleanNow.2 = none ↔ ∃ n ids, t.clean.2 = .ok (n, ids) := by
  rw [CleanNow_eq]
  cases hc : t.clean with
  | mk t1 res =>
    cases res with
    | error f => simp
    | ok v =>
      simp only
      constructor
      · intro _; exact ⟨v.1, v.2, rfl⟩
      · intro _
        cases t1.cleanedShortIDsChannel with
        | none => rfl
        | some sent => simp only; split_ifs <;> rfl

theorem remove_cleanedShortIDsChannel (t : BxTxStore) (h : SHA256Hash)
    (p : ReEntryProtectionFlags) :
    (t.remove h p).1.cleanedShortIDsChannel = t.cleanedShortIDsChannel := by
  cases hl : Load t.hashToContent h with
  | none => rw [remove_of_absent t h p hl]
  | some r =>
    simp only [remove, LoadAndDelete, hl]
    split_ifs <;> (try split) <;> rfl

theorem clean_cleanedShortIDsChannel (t : BxTxStore) :
    t.clean.1.cleanedShortIDsChannel = t.cleanedShortIDsChannel :=
  clean_preserves_full (fun s => s.cleanedShortIDsChannel = t.cleanedShortIDsChannel)
    (fun s h hs => (remove_cleanedShortIDsChannel s h _).trans hs) t rfl

/-- What `CleanNow` does to the egress channel when the sweep has returned. -/
theorem CleanNow_channel (t : BxTxStore) (n : Nat) (ids : ShortIDsByNetwork)
    (h : t.clean.2 = .ok (n, ids)) :
    t.CleanNow.1.cleanedShortIDsChannel =
      match t.cleanedShortIDsChannel with
      | some sent => if ids.length > 0 then some (sent ++ [ids]) else some sent
      | none => none := by
  have hch := clean_cleanedShortIDsChannel t
  rw [CleanNow_eq]
  cases hc : t.clean with
  | mk t1 res =>
    rw [hc] at h hch
    simp only at h hch
    subst h
    simp only [hch]
    cases hs : t.cleanedShortIDsChannel with
    | none => simp only [hs] at hch ⊢; exact hch
    | some sent =>
      simp only
      split_ifs
      · rfl
      · exact hch.trans hs

/-! ## The sweep on a network below the cap -/

theorem sweepLimits_under_cap (t : BxTxStore) (e : SHA256Hash × BxTransaction)
    (he : e ∈ t.hashToContent)
    (hcap : (t.recordsOf e.2.networkNum).length ≤ t.TxStoreMaxSize) :
    t.sweepLimits e.2.networkNum = some t.maxTxAge := by
  have h1 : e ∈ t.recordsOf e.2.networkNum := List.mem_filter.mpr ⟨he, by simp⟩
  unfold sweepLimits
  rw [if_neg (List.ne_nil_of_mem h1)]
  unfold ageLimit agesOf
  rw [List.length_map, if_pos hcap]

theorem due_of_limit (currTime noSIDAge : Int) (limits : NetworkNum → Option Int)
    (e : SHA256Hash × BxTransaction) (maxAge : Int)
    (h : limits e.2.networkNum = some maxAge) :
    due currTime noSIDAge limits e = true ↔
      (Time.Sub currTime e.2.addTime > maxAge ∨
        (Time.Sub currTime e.2.addTime > noSIDAge ∧ e.2.shortIDs = [])) := by
  unfold due
  rw [h]
  simp [List.length_eq_zero]

/-- C22, as stated, fails: the store whose `maxTxAge` is the largest duration
holds one record of network 1 (`TxStoreMaxSize` is 10), of hash 11 with the
short ID 7, added 9300000000000000000 ns before the clock, so that its age
`now - addTime` is greater than `maxTxAge`; `CleanNow` returns and the record is
still in the hash index, since the age that the sweep compares is saturated at
the largest duration. -/
theorem C22_counterexample :
    Reachable demoStoreMaxAge demoStore15 ∧
      demoStore15.TxStoreMaxSize = 10 ∧ (demoStore15.recordsOf 1).length = 1 ∧
      demoStore15.hashToContent.map
          (fun e => (e.1, e.2.networkNum, e.2.addTime, e.2.shortIDs)) =
        [(11, 1, -9300000000000000000, [7])] ∧
      demoStore15.clock - (-9300000000000000000) > demoStore15.maxTxAge ∧
      Time.Sub demoStore15.clock (-9300000000000000000) = demoStore15.maxTxAge ∧
      demoStore15.CleanNow.2 = none ∧
      Load demoStore15.CleanNow.1.hashToContent 11 = Load demoStore15.hashToContent 11 ∧
      (Load demoStore15.CleanNow.1.hashToContent 11).isSome = true :=
  ⟨Reachable_of_step demoStoreMaxAge demoStoreMaxAge _ Reachable.start (by decide),
   by decide, by decide, by decide, by decide, by decide, by decide, by decide, by decide⟩

/-- C22 (amended): for every network that holds at most `TxStoreMaxSize` records
when the sweep starts, in a state reached from an empty store: `CleanNow`
returns when a bloom filter is configured and `TxStoreMaxSize * 9 / 10` is at
least 1, and when it has returned, a record of that network is gone from the
hash index if and only if its age `now.Sub(addTime)`, the difference
`now - addTime` saturated at the largest duration, is greater than `maxTxAge`,
or this age is greater than `noSIDAge` and the record has no short ID; every
other record of that network is in the hash index as before. -/
theorem C22_sweep_below_cap (t0 t : BxTxStore) (h0 : IsEmpty t0) (hr : Reachable t0 t)
    (net : NetworkNum) (hcap : (t.recordsOf net).length ≤ t.TxStoreMaxSize) :
    (t.bloom ≠ none → t.TxStoreMaxSize * 9 / 10 ≠ 0 → t.CleanNow.2 = none) ∧
      (t.CleanNow.2 = none →
        ∀ k r, Load t.hashToContent k = some r → r.networkNum = net →
          (Load t.CleanNow.1.hashToContent k = none ↔
            (Time.Sub t.clock r.addTime > t.maxTxAge ∨
              (Time.Sub t.clock r.addTime > t.noSIDAge ∧ r.shortIDs = []))) ∧
          (¬ (Time.Sub t.clock r.addTime > t.maxTxAge ∨
              (Time.Sub t.clock r.addTime > t.noSIDAge ∧ r.shortIDs = [])) →
            Load t.CleanNow.1.hashToContent k = some r)) := by
  refine ⟨?_, ?_⟩
  · intro hb h90
    obtain ⟨res, hres⟩ := clean_returns t hb h90
    exact (CleanNow_returns_iff t).mpr ⟨res.1, res.2, hres⟩
  · intro hret k r hl hnet
    obtain ⟨n, ids, hc⟩ := (CleanNow_returns_iff t).mp hret
    have hd := DistinctKeys_of_Reachable t0 t h0 hr
    have hmem := mem_of_Load _ k r hl
    subst hnet
    have hlim := sweepLimits_under_cap t (k, r) hmem hcap
    have hdue := due_of_limit t.clock t.noSIDAge t.sweepLimits (k, r) t.maxTxAge hlim
    simp only at hdue
    rw [CleanNow_hashToContent, clean_Load t n ids hc hd k r hl]
    refine ⟨?_, ?_⟩
    · rw [← hdue]
      split_ifs with h1
      · exact ⟨fun _ => h1, fun _ => rfl⟩
      · exact ⟨fun h2 => (by cases h2), fun h2 => absurd h2 h1⟩
    · intro h1
      rw [if_neg (fun h2 => h1 (hdue.mp h2))]

theorem C22_witness :
    demoStore10.clock = 1600 ∧ demoStore10.maxTxAge = 500 ∧ demoStore10.noSIDAge = 100 ∧
      (demoStore10.hashToContent.map
          (fun e => (e.1, e.2.networkNum, e.2.addTime, e.2.shortIDs))) =
        [(11, 1, 1000, [7]), (33, 1, 1400, []), (12, 1, 1400, [8])] ∧
      (demoStore10.CleanNow.1.hashToContent.map Prod.fst) = [12] ∧
      ((demoStore10.bloom ≠ none → demoStore10.TxStoreMaxSize * 9 / 10 ≠ 0 →
          demoStore10.CleanNow.2 = none) ∧
        (demoStore10.CleanNow.2 = none →
          ∀ k r, Load demoStore10.hashToContent k = some r → r.networkNum = 1 →
            (Load demoStore10.CleanNow.1.hashToContent k = none ↔
              (Time.Sub demoStore10.clock r.addTime > demoStore10.maxTxAge ∨
                (Time.Sub demoStore10.clock r.addTime > demoStore10.noSIDAge ∧ r.shortIDs = []))) ∧
            (¬ (Time.Sub demoStore10.clock r.addTime > demoStore10.maxTxAge ∨
                (Time.Sub demoStore10.clock r.addTime > demoStore10.noSIDAge ∧ r.shortIDs = [])) →
              Load demoStore10.CleanNow.1.hashToContent k = some r))) :=
  ⟨by decide, by decide, by decide, by decide, by decide,
   C22_sweep_below_cap demoStore demoStore10 (by decide)
    (Reachable_of_run demoStore demoOps4 demoStore Reachable.start (by decide)) 1
    (by decide)⟩

/-! ## Safety of the sweep -/

/-- With `TxStoreMaxSize * 9 / 10` at least 1, in every store state: the sweep
can only fail in `remove`, when no bloom filter is configured (the index into
the sorted ages is in range for every network above the cap, and every record
finds the entry of its network in the third pass); with a bloom filter the sweep
returns; and when it returns on a hash index with one entry per hash, the count
it returns is the number of records removed from the hash index. -/
theorem clean_safe (t : BxTxStore) (h90 : t.TxStoreMaxSize * 9 / 10 ≠ 0) :
    (∀ f, t.clean.2 = .error f → f = Fault.nilBloom ∧ t.bloom = none) ∧
      (t.bloom ≠ none → ∃ res, t.clean.2 = .ok res) ∧
      (DistinctKeys t.hashToContent → ∀ n ids, t.clean.2 = .ok (n, ids) →
        n + t.clean.1.Count = t.Count) :=
  ⟨fun f hf => clean_fault t h90 f hf, fun hb => clean_returns t hb h90,
   fun hd n ids h => clean_count t n ids h hd⟩

/-- C27: the sweep fails on a store without bloom filter: in the store built
with a nil bloom filter (`TxStoreMaxSize * 9 / 10` is 9), one record admitted at
1000 and the clock at 1600, the calls before the sweep return, the record of
hash 11 is older than `maxTxAge`, and `clean` and `CleanNow` fail in `remove`,
on the nil bloom filter, after the record was deleted and its hash entered into
the history; on the same store with a bloom filter the sweep returns the count 1
and the short ID 7 of the removed record. -/
theorem C27_sweep_fails_without_bloom_filter :
    demoStoreNoBloom.TxStoreMaxSize * 9 / 10 = 9 ∧ demoStoreNoBloom.bloom = none ∧
      IsEmpty demoStoreNoBloom ∧
      (run demoStoreNoBloom [.add 11 [170] ShortIDEmpty 1 0 1000 5, .tick 600]).2 = none ∧
      demoStore11.hashToContent.map (fun e => (e.1, e.2.networkNum, e.2.addTime)) =
        [(11, 1, 1000)] ∧
      demoStore11.clock = 1600 ∧ demoStore11.maxTxAge = 500 ∧
      demoStore11.clean.2 = .error Fault.nilBloom ∧
      demoStore11.CleanNow.2 = some Fault.nilBloom ∧
      Load demoStore11.CleanNow.1.hashToContent 11 = none ∧
      Load demoStore11.CleanNow.1.seenTxs.data 11 = some 1900 ∧
      demoStore9.bloom ≠ none ∧ demoStore9.clean.2 = .ok (1, [(1, [7])]) := by
  decide

/-! ## The short IDs that the sweep publishes -/

theorem eq_nil_of_Load_none {K V : Type} [DecidableEq K] (m : List (K × V))
    (h : ∀ k, Load m k = none) : m = [] := by
  cases m with
  | nil => rfl
  | cons e m =>
    have h1 := h e.1
    simp [Load] at h1

/-- After a sweep that returned, the hashes without a record are those that the
test of the third pass selects. -/
theorem removed_iff_due (t : BxTxStore) (n : Nat) (ids : ShortIDsByNetwork)
    (h : t.clean.2 = .ok (n, ids)) (hd : DistinctKeys t.hashToContent)
    (e : SHA256Hash × BxTransaction) (he : e ∈ t.hashToContent) :
    (Load t.CleanNow.1.hashToContent e.1).isNone = due t.clock t.noSIDAge t.sweepLimits e := by
  rw [CleanNow_hashToContent, clean_Load t n ids h hd e.1 e.2 (Load_of_mem _ e hd he)]
  cases hdue : due t.clock t.noSIDAge t.sweepLimits e <;> simp [hdue]

theorem swept_eq (t : BxTxStore) (n : Nat) (ids : ShortIDsByNetwork)
    (h : t.clean.2 = .ok (n, ids)) (hd : DistinctKeys t.hashToContent) :
    t.swept = t.hashToContent.filter (due t.clock t.noSIDAge t.sweepLimits) := by
  unfold swept
  apply List.filter_congr
  intro e he
  exact removed_iff_due t n ids h hd e he

theorem sweptOf_eq (t : BxTxStore) (n : Nat) (ids : ShortIDsByNetwork)
    (h : t.clean.2 = .ok (n, ids)) (hd : DistinctKeys t.hashToContent) (net : NetworkNum) :
    t.sweptOf net =
      t.hashToContent.filter (fun e => due t.clock t.noSIDAge t.sweepLimits e &&
        decide (e.2.networkNum = net)) := by
  unfold sweptOf recordsOf
  rw [List.filter_filter]
  apply List.filter_congr
  intro e he
  rw [removed_iff_due t n ids h hd e he]

/-- The map of short IDs that the sweep returns: per network, the short IDs of
the records of the network that were removed; it is empty exactly when no record
was removed. -/
theorem clean_cleanedShortIDs (t : BxTxStore) (n : Nat) (ids : ShortIDsByNetwork)
    (h : t.clean.2 = .ok (n, ids)) (hd : DistinctKeys t.hashToContent) :
    (∀ net, Load ids net =
        if t.sweptOf net = [] then none
        else some ((t.sweptOf net).map (fun e => e.2.shortIDs)).flatten) ∧
      (ids.length > 0 ↔ t.swept ≠ []) := by
  have h3 := (clean_spec t n ids h).2.2
  have hof : ∀ net, Load ids net =
      if t.sweptOf net = [] then none
      else some ((t.sweptOf net).map (fun e => e.2.shortIDs)).flatten := by
    intro net
    rw [sweptOf_eq t n ids h hd net]
    exact h3 net
  refine ⟨hof, ?_⟩
  rw [swept_eq t n ids h hd]
  constructor
  · intro hlen hnil
    have h4 : ∀ net, Load ids net = none := by
      intro net
      rw [h3 net, if_pos]
      apply List.filter_eq_nil_iff.mpr
      intro e he hdue
      have h5 := List.filter_eq_nil_iff.mp hnil e he
      simp only [Bool.and_eq_true] at hdue
      exact h5 hdue.1
    rw [eq_nil_of_Load_none ids h4] at hlen
    simp at hlen
  · intro hne
    obtain ⟨e, he⟩ := List.exists_mem_of_ne_nil _ hne
    obtain ⟨hem, hdue⟩ := List.mem_filter.mp he
    have h6 : e ∈ t.hashToContent.filter (fun x => due t.clock t.noSIDAge t.sweepLimits x &&
        decide (x.2.networkNum = e.2.networkNum)) :=
      List.mem_filter.mpr ⟨hem, by simp [hdue]⟩
    have h7 := h3 e.2.networkNum
    rw [if_neg (List.ne_nil_of_mem h6)] at h7
    cases ids with
    | nil => simp [Load] at h7
    | cons x rest => simp

/-- C25, as stated, fails: in the store reached by the admission of hash 33
without short ID, at clock 1200, `CleanNow` returns and removes the record of
hash 33, the only record, which holds no short ID: the sweep releases no short
ID, yet `CleanNow` pushes a map onto the egress channel, the map that gives
network 1 the empty list. -/
theorem C25_counterexample :
    Reachable demoStore demoStore12 ∧ demoStore12.CleanNow.2 = none ∧
      demoStore12.hashToContent.map (fun e => (e.1, e.2.networkNum, e.2.shortIDs)) =
        [(33, 1, [])] ∧
      demoStore12.swept.map Prod.fst = [33] ∧
      (demoStore12.swept.map (fun e => e.2.shortIDs)).flatten = [] ∧
      demoStore12.cleanedShortIDsChannel = some [] ∧
      demoStore12.CleanNow.1.cleanedShortIDsChannel = some [[(1, [])]] :=
  ⟨Reachable_of_run demoStore [.add 33 [1] ShortIDEmpty 1 TFValidatorsOnly 1000 5, .tick 200]
      demoStore Reachable.start (by decide),
   by decide, by decide, by decide, by decide, by decide, by decide⟩

/-- C25 (amended): in every state reached from an empty store, `CleanNow`
returns when a bloom filter is configured and `TxStoreMaxSize * 9 / 10` is at
least 1, and when it has returned: it pushes a `ShortIDsByNetwork` map onto the
egress channel only if a channel is configured and the sweep removed at least
one record (without channel nothing is published, and when no record was removed
the channel is as before); the published map holds, per network, exactly the
short IDs of the records of that network removed by this sweep, with an entry
for every network of which a record was removed and for no other. -/
theorem C25_published_shortIDs (t0 t : BxTxStore) (h0 : IsEmpty t0) (hr : Reachable t0 t) :
    (t.bloom ≠ none → t.TxStoreMaxSize * 9 / 10 ≠ 0 → t.CleanNow.2 = none) ∧
      (t.CleanNow.2 = none →
        (t.cleanedShortIDsChannel = none → t.CleanNow.1.cleanedShortIDsChannel = none) ∧
        ∀ sent, t.cleanedShortIDsChannel = some sent →
          (t.swept = [] → t.CleanNow.1.cleanedShortIDsChannel = some sent) ∧
          (t.swept ≠ [] →
            ∃ ids, t.CleanNow.1.cleanedShortIDsChannel = some (sent ++ [ids]) ∧
              ∀ net, Load ids net =
                if t.sweptOf net = [] then none
                else some ((t.sweptOf net).map (fun e => e.2.shortIDs)).flatten)) := by
  refine ⟨?_, ?_⟩
  · intro hb h90
    obtain ⟨res, hres⟩ := clean_returns t hb h90
    exact (CleanNow_returns_iff t).mpr ⟨res.1, res.2, hres⟩
  · intro hret
    obtain ⟨n, ids, hc⟩ := (CleanNow_returns_iff t).mp hret
    have hd := DistinctKeys_of_Reachable t0 t h0 hr
    obtain ⟨hof, hlen⟩ := clean_cleanedShortIDs t n ids hc hd
    have hch := CleanNow_channel t n ids hc
    refine ⟨?_, ?_⟩
    · intro hnone
      rw [hch, hnone]
    · intro sent hsent
      rw [hch, hsent]
      simp only
      refine ⟨?_, ?_⟩
      · intro hs
        rw [if_neg (fun hl => (hlen.mp hl) hs)]
      · intro hs
        rw [if_pos (hlen.mpr hs)]
        exact ⟨ids, rfl, hof⟩

theorem C25_witness :
    demoStore10.cleanedShortIDsChannel = some [] ∧
      demoStore10.swept.map (fun e => (e.1, e.2.networkNum, e.2.shortIDs)) =
        [(11, 1, [7]), (33, 1, [])] ∧
      demoStore10.CleanNow.1.cleanedShortIDsChannel = some [[(1, [7])]] ∧
      ((demoStore10.bloom ≠ none → demoStore10.TxStoreMaxSize * 9 / 10 ≠ 0 →
          demoStore10.CleanNow.2 = none) ∧
        (demoStore10.CleanNow.2 = none →
          (demoStore10.cleanedShortIDsChannel = none →
            demoStore10.CleanNow.1.cleanedShortIDsChannel = none) ∧
          ∀ sent, demoStore10.cleanedShortIDsChannel = some sent →
            (demoStore10.swept = [] →
              demoStore10.CleanNow.1.cleanedShortIDsChannel = some sent) ∧
            (demoStore10.swept ≠ [] →
              ∃ ids, demoStore10.CleanNow.1.cleanedShortIDsChannel = some (sent ++ [ids]) ∧
                ∀ net, Load ids net =
                  if demoStore10.sweptOf net = [] then none
                  else some ((demoStore10.sweptOf net).map (fun e => e.2.shortIDs)).flatten))) :=
  ⟨by decide, by decide, by decide,
   C25_published_shortIDs demoStore demoStore10 (by decide)
    (Reachable_of_run demoStore demoOps4 demoStore Reachable.start (by decide))⟩

/-! ## The sweep on a network above the cap -/

theorem sorted_get_lt_iff : ∀ (l : List Int), l.Sorted (fun a b => a ≤ b) → ∀ (i : Nat)
    (hi : i < l.length) (x : Int),
    l.get ⟨i, hi⟩ < x ↔ i < l.countP (fun y => decide (y < x)) := by
  intro l
  induction l with
  | nil => intro _ i hi; simp at hi
  | cons a l ih =>
    intro hs i hi x
    have hs1 := List.sorted_cons.mp hs
    cases i with
    | zero =>
      simp only [List.get_eq_getElem, List.getElem_cons_zero, List.countP_cons]
      constructor
      · intro h
        simp [h]
      · intro h
        by_contra hax
        have h0 : List.countP (fun y => decide (y < x)) l = 0 := by
          rw [List.countP_eq_zero]
          intro y hy
          have := hs1.1 y hy
          simp only [decide_eq_true_eq]
          omega
        simp [h0, hax] at h
    | succ j =>
      have hj : j < l.length := by simpa using hi
      have h1 := ih hs1.2 j hj x
      simp only [List.get_eq_getElem, List.getElem_cons_succ, List.countP_cons] at h1 ⊢
      by_cases hax : a < x
      · simp only [hax, decide_True, if_true]
        rw [h1]
        omega
      · have h0 : List.countP (fun y => decide (y < x)) l = 0 := by
          rw [List.countP_eq_zero]
          intro y hy
          have := hs1.1 y hy
          simp only [decide_eq_true_eq]
          omega
        have h2 : ¬ l[j] < x := by
          have := hs1.1 l[j] (List.getElem_mem _)
          omega
        simp [h0, hax, h2]

theorem countP_rank_lt : ∀ (l : List Int), l.Sorted (fun a b => a < b) → ∀ k : Nat,
    l.countP (fun x => decide (l.countP (fun y => decide (y < x)) < k)) = min k l.length := by
  intro l
  induction l with
  | nil => intro _ k; simp
  | cons a l ih =>
    intro hs k
    have hs1 := List.sorted_cons.mp hs
    have ha : List.countP (fun y => decide (y < a)) l = 0 := by
      rw [List.countP_eq_zero]
      intro y hy
      have := hs1.1 y hy
      simp only [decide_eq_true_eq]
      omega
    have hcongr : ∀ k1 : Nat, List.countP (fun x =>
          decide (List.countP (fun y => decide (y < x)) (a :: l) < k1 + 1)) l =
        List.countP (fun x => decide (List.countP (fun y => decide (y < x)) l < k1)) l := by
      intro k1
      apply List.countP_congr
      intro x hx
      have hax := hs1.1 x hx
      simp only [List.countP_cons, hax, decide_True, if_true, decide_eq_true_eq]
      omega
    cases k with
    | zero => simp
    | succ k1 =>
      rw [List.countP_cons, hcongr k1, ih hs1.2 k1]
      simp only [List.countP_cons, ha, lt_self_iff_false, decide_False]
      simp
      omega

theorem Second_pos : (0 : Int) < Second := by decide

/-- On a network above the cap whose records are not older than `maxTxAge`, the
age limit is the age, in seconds, at index `TxStoreMaxSize * 9 / 10 - 1` of the
sorted ages. -/
theorem sweepLimits_over_cap (t : BxTxStore) (net : NetworkNum)
    (hover : t.TxStoreMaxSize < (t.recordsOf net).length)
    (hmax : ∀ e ∈ t.recordsOf net, Time.Sub t.clock e.2.addTime ≤ t.maxTxAge)
    (hwhole : ∀ e ∈ t.recordsOf net, (Time.Sub t.clock e.2.addTime) % Second = 0) :
    ∃ (hi : t.TxStoreMaxSize * 9 / 10 - 1 <
        ((t.agesOf net).insertionSort (fun a b => a ≤ b)).length),
      t.sweepLimits net = some
        (((t.agesOf net).insertionSort (fun a b => a ≤ b)).get
          ⟨t.TxStoreMaxSize * 9 / 10 - 1, hi⟩ * Second) := by
  have hlen : (t.agesOf net).length = (t.recordsOf net).length := by
    unfold agesOf; rw [List.length_map]
  have hi : t.TxStoreMaxSize * 9 / 10 - 1 <
      ((t.agesOf net).insertionSort (fun a b => a ≤ b)).length := by
    rw [List.length_insertionSort, hlen]
    omega
  refine ⟨hi, ?_⟩
  have hne : t.recordsOf net ≠ [] := by
    intro h
    rw [h] at hover
    simp at hover
  have hmem : ((t.agesOf net).insertionSort (fun a b => a ≤ b)).get
      ⟨t.TxStoreMaxSize * 9 / 10 - 1, hi⟩ ∈ t.agesOf net :=
    (List.perm_insertionSort _ _).mem_iff.mp (List.get_mem _ _ _)
  obtain ⟨e, he, hage⟩ := List.mem_map.mp hmem
  have hle : ((t.agesOf net).insertionSort (fun a b => a ≤ b)).get
      ⟨t.TxStoreMaxSize * 9 / 10 - 1, hi⟩ * Second ≤ t.maxTxAge := by
    rw [← hage]
    have h1 := hmax e he
    have h2 : (Time.Sub t.clock e.2.addTime).tdiv Second * Second = Time.Sub t.clock e.2.addTime :=
      Int.tdiv_mul_cancel (Int.dvd_of_emod_eq_zero (hwhole e he))
    rw [h2]
    exact h1
  unfold sweepLimits
  rw [if_neg hne]
  unfold ageLimit
  rw [if_neg (by rw [hlen]; omega)]
  simp only [List.get?_eq_get hi, Option.getD_some]
  rw [if_neg (by omega)]

/-- On a network above the cap whose records have short IDs and ages in whole
seconds not above `maxTxAge`, the third pass selects a record exactly when at
least `TxStoreMaxSize * 9 / 10` records of the network are younger. -/
theorem due_over_cap (t : BxTxStore) (net : NetworkNum)
    (h90 : t.TxStoreMaxSize * 9 / 10 ≠ 0)
    (hover : t.TxStoreMaxSize < (t.recordsOf net).length)
    (hmax : ∀ e ∈ t.recordsOf net, Time.Sub t.clock e.2.addTime ≤ t.maxTxAge)
    (hwhole : ∀ e ∈ t.recordsOf net, (Time.Sub t.clock e.2.addTime) % Second = 0)
    (hsid : ∀ e ∈ t.recordsOf net, e.2.shortIDs ≠ [])
    (e : SHA256Hash × BxTransaction) (he : e ∈ t.recordsOf net) :
    due t.clock t.noSIDAge t.sweepLimits e = true ↔
      t.TxStoreMaxSize * 9 / 10 ≤
        (t.agesOf net).countP (fun y => decide (y < (Time.Sub t.clock e.2.addTime).tdiv Second)) := by
  obtain ⟨hi, hlim⟩ := sweepLimits_over_cap t net hover hmax hwhole
  have hnet : e.2.networkNum = net := by
    have := (List.mem_filter.mp he).2
    simpa using this
  rw [due_of_limit t.clock t.noSIDAge t.sweepLimits e _ (by rw [hnet]; exact hlim)]
  have h2 : (Time.Sub t.clock e.2.addTime).tdiv Second * Second = Time.Sub t.clock e.2.addTime :=
    Int.tdiv_mul_cancel (Int.dvd_of_emod_eq_zero (hwhole e he))
  have hrank := sorted_get_lt_iff ((t.agesOf net).insertionSort (fun a b => a ≤ b))
    (List.sorted_insertionSort _ _) _ hi ((Time.Sub t.clock e.2.addTime).tdiv Second)
  rw [(List.perm_insertionSort (fun a b => a ≤ b) (t.agesOf net)).countP_eq] at hrank
  have hpos := Second_pos
  constructor
  · intro h
    rcases h with h | h
    · rw [← h2] at h
      have h3 := lt_of_mul_lt_mul_right h (le_of_lt hpos)
      have h4 := hrank.mp h3
      omega
    · exact absurd h.2 (hsid e he)
  · intro h
    have h3 := hrank.mpr (by omega)
    left
    rw [← h2]
    exact mul_lt_mul_of_pos_right h3 hpos

theorem recordsOf_filter (t : BxTxStore) (net : NetworkNum)
    (p : SHA256Hash × BxTransaction → Bool) :
    (t.hashToContent.filter p).filter (fun e => decide (e.2.networkNum = net)) =
      (t.recordsOf net).filter p := by
  unfold recordsOf
  rw [List.filter_filter, List.filter_filter]
  apply List.filter_congr
  intro e _
  exact Bool.and_comm _ _

/-- The number of values of a list without repetition that have fewer than `k`
smaller values in the list is `k`, when the list has at least `k` values. -/
theorem countP_rank_lt_of_nodup (l : List Int) (hn : l.Nodup) (k : Nat) (hk : k ≤ l.length) :
    l.countP (fun x => decide (l.countP (fun y => decide (y < x)) < k)) = k := by
  have hperm := List.perm_insertionSort (fun a b : Int => a ≤ b) l
  have hs : (l.insertionSort (fun a b => a ≤ b)).Sorted (fun a b => a < b) :=
    (List.sorted_insertionSort (fun a b : Int => a ≤ b) l).lt_of_le (hperm.nodup_iff.mpr hn)
  have h1 := countP_rank_lt _ hs k
  rw [hperm.countP_eq, List.length_insertionSort, min_eq_left hk] at h1
  refine Eq.trans ?_ h1
  apply List.countP_congr
  intro x _
  rw [hperm.countP_eq]

/-- On a network above the cap whose records have short IDs and pairwise distinct
ages in whole seconds not above `maxTxAge`, a sweep that returned has kept
`TxStoreMaxSize * 9 / 10` records of the network and removed the others. -/
theorem kept_over_cap (t : BxTxStore) (net : NetworkNum) (n : Nat) (ids : ShortIDsByNetwork)
    (hc : t.clean.2 = .ok (n, ids)) (hd : DistinctKeys t.hashToContent)
    (h90 : t.TxStoreMaxSize * 9 / 10 ≠ 0)
    (hover : t.TxStoreMaxSize < (t.recordsOf net).length)
    (hmax : ∀ e ∈ t.recordsOf net, Time.Sub t.clock e.2.addTime ≤ t.maxTxAge)
    (hwhole : ∀ e ∈ t.recordsOf net, (Time.Sub t.clock e.2.addTime) % Second = 0)
    (hsid : ∀ e ∈ t.recordsOf net, e.2.shortIDs ≠ [])
    (hdist : (t.agesOf net).Nodup) :
    (t.CleanNow.1.recordsOf net).length = t.TxStoreMaxSize * 9 / 10 ∧
      (t.sweptOf net).length = (t.recordsOf net).length - t.TxStoreMaxSize * 9 / 10 := by
  have hlen : (t.agesOf net).length = (t.recordsOf net).length := by
    unfold agesOf; rw [List.length_map]
  have hkept : List.countP (fun e => !due t.clock t.noSIDAge t.sweepLimits e)
      (t.recordsOf net) = t.TxStoreMaxSize * 9 / 10 := by
    have h1 := countP_rank_lt_of_nodup (t.agesOf net) hdist (t.TxStoreMaxSize * 9 / 10)
      (by rw [hlen]; omega)
    rw [← h1]
    conv_rhs => unfold agesOf
    rw [List.countP_map]
    apply List.countP_congr
    intro e he
    have h2 := due_over_cap t net h90 hover hmax hwhole hsid e he
    simp only [Function.comp, decide_eq_true_eq, Bool.not_eq_true']
    constructor
    · intro h3
      by_contra h4
      have h5 := h2.mpr (by unfold agesOf; omega)
      rw [h5] at h3
      cases h3
    · intro h3
      cases h6 : due t.clock t.noSIDAge t.sweepLimits e with
      | false => rfl
      | true =>
        have h7 := h2.mp h6
        unfold agesOf at h7
        omega
  have htot := List.length_eq_countP_add_countP (due t.clock t.noSIDAge t.sweepLimits)
    (t.recordsOf net)
  have hnot : List.countP (fun a => decide ¬due t.clock t.noSIDAge t.sweepLimits a = true)
      (t.recordsOf net) =
      List.countP (fun e => !due t.clock t.noSIDAge t.sweepLimits e) (t.recordsOf net) := by
    apply List.countP_congr
    intro e _
    simp
  rw [hnot, hkept] at htot
  refine ⟨?_, ?_⟩
  · unfold recordsOf
    rw [CleanNow_hashToContent, clean_hashToContent t n ids hc hd, recordsOf_filter,
      ← List.countP_eq_length_filter]
    exact hkept
  · rw [sweptOf_eq t n ids hc hd net]
    have h8 : t.hashToContent.filter (fun e => due t.clock t.noSIDAge t.sweepLimits e &&
        decide (e.2.networkNum = net)) =
        (t.recordsOf net).filter (due t.clock t.noSIDAge t.sweepLimits) := by
      rw [← recordsOf_filter, List.filter_filter]
      apply List.filter_congr
      intro e _
      exact Bool.and_comm _ _
    rw [h8, ← List.countP_eq_length_filter]
    omega

/-- C23, as stated, fails: the store holds eleven records of network 1
(`TxStoreMaxSize` is 10, so `TxStoreMaxSize * 9 / 10` is 9), each with a short
ID, of the pairwise distinct ages 1.5 s, 2.5 s, ..., 11.5 s, none above
`maxTxAge`. `CleanNow` returns and evicts three records, not two, and keeps the
eight youngest, not the nine youngest: the record of hash 108, of age 9.5 s, is
evicted although only eight records are younger. -/
theorem C23_counterexample :
    Reachable demoStoreSeconds demoStore14 ∧
      demoStore14.TxStoreMaxSize = 10 ∧ (demoStore14.recordsOf 1).length = 11 ∧
      (∀ e ∈ demoStore14.recordsOf 1, e.2.shortIDs ≠ []) ∧
      (demoStore14.recordsOf 1).map (fun e => (e.1, Time.Sub demoStore14.clock e.2.addTime)) =
        [(100, 1500000000), (101, 2500000000), (102, 3500000000), (103, 4500000000),
         (104, 5500000000), (105, 6500000000), (106, 7500000000), (107, 8500000000),
         (108, 9500000000), (109, 10500000000), (110, 11500000000)] ∧
      demoStore14.maxTxAge = 100000000000 ∧
      demoStore14.CleanNow.2 = none ∧
      (demoStore14.sweptOf 1).map Prod.fst = [108, 109, 110] ∧
      (demoStore14.CleanNow.1.recordsOf 1).map Prod.fst =
        [100, 101, 102, 103, 104, 105, 106, 107] :=
  ⟨Reachable_of_run demoStoreSeconds demoOps6 demoStoreSeconds Reachable.start (by decide),
   by decide, by decide, by decide, by decide, by decide, by decide, by decide, by decide⟩

/-- C23 (amended): for a network that holds `n > TxStoreMaxSize` records, each
with at least one short ID, whose ages at sweep time (the durations
`now.Sub(addTime)`) are pairwise distinct whole numbers of seconds, none above
`maxTxAge`, in a state reached from an empty
store and with `TxStoreMaxSize * 9 / 10` at least 1: `CleanNow` returns when a
bloom filter is configured, and when it has returned it has evicted exactly the
`n - TxStoreMaxSize * 9 / 10` oldest records of that network and kept the
`TxStoreMaxSize * 9 / 10` youngest (a record is evicted if and only if at least
`TxStoreMaxSize * 9 / 10` records of the network are younger, and is otherwise
in the hash index as before), the age limit of the network being the age, in
seconds, at index `TxStoreMaxSize * 9 / 10 - 1` of the ascending sort. -/
theorem C23_sweep_above_cap (t0 t : BxTxStore) (h0 : IsEmpty t0) (hr : Reachable t0 t)
    (net : NetworkNum) (h90 : t.TxStoreMaxSize * 9 / 10 ≠ 0)
    (hover : t.TxStoreMaxSize < (t.recordsOf net).length)
    (hsid : ∀ e ∈ t.recordsOf net, e.2.shortIDs ≠ [])
    (hwhole : ∀ e ∈ t.recordsOf net, (Time.Sub t.clock e.2.addTime) % Second = 0)
    (hdist : (t.agesOf net).Nodup)
    (hmax : ∀ e ∈ t.recordsOf net, Time.Sub t.clock e.2.addTime ≤ t.maxTxAge) :
    (t.bloom ≠ none → t.CleanNow.2 = none) ∧
      (t.CleanNow.2 = none →
        (∀ k r, Load t.hashToContent k = some r → r.networkNum = net →
          (Load t.CleanNow.1.hashToContent k = none ↔
            t.TxStoreMaxSize * 9 / 10 ≤
              (t.agesOf net).countP
                (fun y => decide (y < (Time.Sub t.clock r.addTime).tdiv Second))) ∧
          (Load t.CleanNow.1.hashToContent k = none ∨
            Load t.CleanNow.1.hashToContent k = some r)) ∧
        (t.sweptOf net).length = (t.recordsOf net).length - t.TxStoreMaxSize * 9 / 10 ∧
        (t.CleanNow.1.recordsOf net).length = t.TxStoreMaxSize * 9 / 10 ∧
        ∀ networks, t.cleanMaxAges (cleanCensus t.clock t.hashToContent []) = .ok networks →
          ∃ (hi : t.TxStoreMaxSize * 9 / 10 - 1 <
              ((t.agesOf net).insertionSort (fun a b => a ≤ b)).length),
            maxAges networks net = some
              (((t.agesOf net).insertionSort (fun a b => a ≤ b)).get
                ⟨t.TxStoreMaxSize * 9 / 10 - 1, hi⟩ * Second)) := by
  refine ⟨?_, ?_⟩
  · intro hb
    obtain ⟨res, hres⟩ := clean_returns t hb h90
    exact (CleanNow_returns_iff t).mpr ⟨res.1, res.2, hres⟩
  · intro hret
    obtain ⟨n, ids, hc⟩ := (CleanNow_returns_iff t).mp hret
    have hd := DistinctKeys_of_Reachable t0 t h0 hr
    obtain ⟨hkept, hswept⟩ := kept_over_cap t net n ids hc hd h90 hover hmax hwhole hsid hdist
    refine ⟨?_, hswept, hkept, ?_⟩
    · intro k r hl hnet
      have hmem : (k, r) ∈ t.recordsOf net :=
        List.mem_filter.mpr ⟨mem_of_Load _ k r hl, by simp [hnet]⟩
      have hdue := due_over_cap t net h90 hover hmax hwhole hsid (k, r) hmem
      simp only at hdue
      rw [CleanNow_hashToContent, clean_Load t n ids hc hd k r hl, ← hdue]
      split_ifs with h1
      · exact ⟨⟨fun _ => h1, fun _ => rfl⟩, Or.inl rfl⟩
      · exact ⟨⟨fun h2 => (by cases h2), fun h2 => absurd h2 h1⟩, Or.inr rfl⟩
    · intro networks hn
      obtain ⟨hi, hlim⟩ := sweepLimits_over_cap t net hover hmax hwhole
      exact ⟨hi, by rw [(sweep_limits t networks hn).1]; exact hlim⟩

theorem C23_witness :
    (demoStore13.recordsOf 1).map (fun e => (e.1, Time.Sub demoStore13.clock e.2.addTime)) =
        [(100, 1000000000), (101, 2000000000), (102, 3000000000), (103, 4000000000),
         (104, 5000000000), (105, 6000000000), (106, 7000000000), (107, 8000000000),
         (108, 9000000000), (109, 10000000000), (110, 11000000000)] ∧
      (demoStore13.sweptOf 1).map Prod.fst = [109, 110] ∧
      (demoStore13.CleanNow.1.recordsOf 1).map Prod.fst =
        [100, 101, 102, 103, 104, 105, 106, 107, 108] ∧
      ((demoStore13.bloom ≠ none → demoStore13.CleanNow.2 = none) ∧
        (demoStore13.CleanNow.2 = none →
          (∀ k r, Load demoStore13.hashToContent k = some r → r.networkNum = 1 →
            (Load demoStore13.CleanNow.1.hashToContent k = none ↔
              demoStore13.TxStoreMaxSize * 9 / 10 ≤
                (demoStore13.agesOf 1).countP
                  (fun y => decide (y < (Time.Sub demoStore13.clock r.addTime).tdiv Second))) ∧
            (Load demoStore13.CleanNow.1.hashToContent k = none ∨
              Load demoStore13.CleanNow.1.hashToContent k = some r)) ∧
          (demoStore13.sweptOf 1).length =
            (demoStore13.recordsOf 1).length - demoStore13.TxStoreMaxSize * 9 / 10 ∧
          (demoStore13.CleanNow.1.recordsOf 1).length = demoStore13.TxStoreMaxSize * 9 / 10 ∧
          ∀ networks,
            demoStore13.cleanMaxAges
                (cleanCensus demoStore13.clock demoStore13.hashToContent []) = .ok networks →
            ∃ (hi : demoStore13.TxStoreMaxSize * 9 / 10 - 1 <
                ((demoStore13.agesOf 1).insertionSort (fun a b => a ≤ b)).length),
              maxAges networks 1 = some
                (((demoStore13.agesOf 1).insertionSort (fun a b => a ≤ b)).get
                  ⟨demoStore13.TxStoreMaxSize * 9 / 10 - 1, hi⟩ * Second))) :=
  ⟨by decide, by decide, by decide,
   C23_sweep_above_cap demoStoreSeconds demoStore13 (by decide)
    (Reachable_of_run demoStoreSeconds demoOps5 demoStoreSeconds Reachable.start (by decide))
    1 (by decide) (by decide) (by decide) (by decide) (by decide) (by decide)⟩

end BxTxStore

end Gateway
